import Mathlib

/-!
# Firestore `util` core: paths and statuses

A shallow embedding of `Firestore/core/src/firebase/firestore/util/path.{h,cc}`,
`status.cc` and `filesystem.cc`, followed by theorems about it.

Conventions of the embedding.

* A native pathname is a `List Char`, one element per code unit of the C++
  `string_type`. The algorithms only compare code units with ASCII characters.
* The two build variants selected by `#if defined(_WIN32)` are the two values of
  `Platform`; every function whose body depends on the variant takes it as its
  first argument.
* `size_t` results that may be `npos` are `Option Nat`, `none` standing for
  `npos`. An index into a string is always below `npos`, so nothing is lost.
* A `PathView` (pointer and length) is represented by the characters it views:
  `PathView{p + k, n - k}` is `drop k` and `PathView{p, k}` is `take k`.
* Constants of system headers (`errno` values, Windows error values) are a
  parameter `value` of the functions that switch on them.
* Operating-system primitives are parameters acting on a state of the world;
  a recursion that need not end takes a bound on its depth and returns `none`
  when the bound is reached.
-/

namespace Firestore

/-- The build variant: `posix` is the `#else` branch of every
`#if defined(_WIN32)`, `win32` the other one. -/
inductive Platform where
  | posix
  | win32
  deriving DecidableEq, Repr

/-- `kPreferredSeparator` of `path.cc`. -/
def kPreferredSeparator : Platform → Char
  | .win32 => Char.ofNat 92
  | .posix => '/'

/-- `IsSeparator` of `path.cc`: true if the character is a pathname separator. -/
def IsSeparator : Platform → Char → Bool
  | .win32, c => c == '/' || c == Char.ofNat 92
  | .posix, c => c == '/'

/-- A view over a native pathname string (`class PathView`). -/
structure PathView where
  pathname_ : List Char
  deriving DecidableEq, Repr

/-- An owned native pathname (`class Path`). -/
structure Path where
  pathname_ : List Char
  deriving DecidableEq, Repr

/-- The length field `size_` of a view. -/
def PathView.size_ (v : PathView) : Nat := v.pathname_.length

/-- `PathView::empty`. -/
def PathView.empty (v : PathView) : Bool := v.size_ == 0

/-- The constructor `PathView(const Path&)`. -/
def PathView.ofPath (p : Path) : PathView := ⟨p.pathname_⟩

/-- The constructor `Path(PathView)`. -/
def Path.ofView (v : PathView) : Path := ⟨v.pathname_⟩

/-- The loop `for (; i-- > 0;) if (IsSeparator(pathname_[i])) return i;` followed
by `return npos`, started at `i`. -/
def PathView.LastSeparatorLoop (plat : Platform) (v : PathView) : Nat → Option Nat
  | 0 => none
  | i + 1 =>
    if IsSeparator plat (v.pathname_.getD i ' ') then some i
    else PathView.LastSeparatorLoop plat v i

/-- The loop `for (; i-- > 0;) if (!IsSeparator(pathname_[i])) return i;`
followed by `return npos`, started at `i`. -/
def PathView.LastNonSeparatorLoop (plat : Platform) (v : PathView) : Nat → Option Nat
  | 0 => none
  | i + 1 =>
    if !IsSeparator plat (v.pathname_.getD i ' ') then some i
    else PathView.LastNonSeparatorLoop plat v i

/-- The expression `std::min(pos, size_)`, where `pos = none` is `npos`. -/
def PathView.minPos (v : PathView) : Option Nat → Nat
  | none => v.size_
  | some pos => min pos v.size_

/-- `PathView::LastSeparator(pos)`; the default argument is `none`. -/
def PathView.LastSeparator (plat : Platform) (v : PathView) (pos : Option Nat) :
    Option Nat :=
  if v.empty then none
  else PathView.LastSeparatorLoop plat v (v.minPos pos)

/-- `PathView::LastNonSeparator(pos)`; the default argument is `none`. -/
def PathView.LastNonSeparator (plat : Platform) (v : PathView) (pos : Option Nat) :
    Option Nat :=
  if v.empty then none
  else PathView.LastNonSeparatorLoop plat v (v.minPos pos)

/-- `PathView::Basename`. -/
def PathView.Basename (plat : Platform) (v : PathView) : PathView :=
  match v.LastSeparator plat none with
  | none => v
  | some slash =>
    let start := slash + 1
    ⟨v.pathname_.drop start⟩

/-- `PathView::Dirname`. -/
def PathView.Dirname (plat : Platform) (v : PathView) : PathView :=
  match v.LastSeparator plat none with
  | none => ⟨v.pathname_.take 0⟩
  | some last_slash =>
    match v.LastNonSeparator plat (some last_slash) with
    | none => ⟨v.pathname_.take 1⟩
    | some non_slash =>
      let last_slash := non_slash + 1
      ⟨v.pathname_.take last_slash⟩

/-- `absl::ascii_isalpha` (a library function): whether the character is an
ASCII letter. It is applied to the code unit as it stands. -/
def ascii_isalpha (c : Char) : Bool := c.isAlpha

/-- `PathView::StripDriveLetter`: the path with its leading drive letter
removed. -/
def PathView.StripDriveLetter (plat : Platform) (v : PathView) : PathView :=
  match plat with
  | .win32 =>
    if v.size_ ≥ 2 && v.pathname_.getD 1 ' ' == ':' && ascii_isalpha (v.pathname_.getD 0 ' ')
    then ⟨v.pathname_.drop 2⟩
    else v
  | .posix => v

/-- `PathView::IsAbsolute`. -/
def PathView.IsAbsolute (plat : Platform) (v : PathView) : Bool :=
  let path := v.StripDriveLetter plat
  !path.empty && IsSeparator plat (path.pathname_.getD 0 ' ')

/-- `Path::Basename`. -/
def Path.Basename (plat : Platform) (p : Path) : Path :=
  Path.ofView ((PathView.ofPath p).Basename plat)

/-- `Path::Dirname`. -/
def Path.Dirname (plat : Platform) (p : Path) : Path :=
  Path.ofView ((PathView.ofPath p).Dirname plat)

/-- `Path::IsAbsolute`. -/
def Path.IsAbsolute (plat : Platform) (p : Path) : Bool :=
  (PathView.ofPath p).IsAbsolute plat

/-- The character NUL, which ends a C string. -/
def NUL : Char := Char.ofNat 0

/-- The C string read from an array that holds `chars` and then its terminating
NUL: the characters before the first NUL, as `strlen` and the `const char*`
overloads of `std::string` read them. -/
def c_string (chars : List Char) : List Char := chars.takeWhile (fun c => c != NUL)

/-- A `PathView` as `Path::JoinAppend` reads it. `JoinAppend` asks the view
whether it `IsAbsolute()`, which looks at the `size_` characters of the view,
and hands the bare pointer `path.pathname_` to `std::string::assign(const char*)`
or `std::string::append(const char*)`, which copy the C string found at the
pointer, up to the first NUL, whatever `size_` is. `view` holds the viewed
characters and `c_str` is the C string at the pointer of the view. -/
structure PathArg where
  view : PathView
  c_str : List Char
  deriving DecidableEq, Repr

/-- A view as an argument, when the array that it points into holds `beyond`
after the viewed characters and then a terminating NUL; for the view
`PathView(pathname, size)` of the first `size` characters of a longer string,
`beyond` is the rest of that string. -/
def PathView.arg (v : PathView) (beyond : List Char) : PathArg :=
  ⟨v, c_string (v.pathname_ ++ beyond)⟩

/-- A `Path` as an argument, through the conversion `PathView(const Path&)`: the
view of the whole string, whose array ends with a terminating NUL. -/
def Path.arg (p : Path) : PathArg := ⟨PathView.ofPath p, c_string p.pathname_⟩

/-- `Path::JoinAppend(const PathView& path)`: `assign(path.pathname_)` replaces
the string by the C string at the pointer of the view, `resize(n)` with `n` at
most the length keeps the first `n` characters, and `append(path.pathname_)`
appends the C string at the pointer of the view. -/
def Path.JoinAppend (plat : Platform) (self : Path) (path : PathArg) : Path :=
  if path.view.IsAbsolute plat then
    ⟨path.c_str⟩
  else
    let pathname_ :=
      match (PathView.ofPath self).LastNonSeparator plat none with
      | some non_slash => self.pathname_.take (non_slash + 1) ++ [kPreferredSeparator plat]
      | none => self.pathname_
    ⟨pathname_ ++ path.c_str⟩

/-- The variadic overloads of `Path::JoinAppend`: `JoinAppend()` does nothing,
`JoinAppend(path, rest...)` runs `JoinAppend(path)` and then
`JoinAppend(rest...)`. -/
def Path.JoinAppendPack (plat : Platform) (self : Path) : List PathArg → Path
  | [] => self
  | path :: rest => Path.JoinAppendPack plat (self.JoinAppend plat path) rest

/-- `Path::Join(base, paths...)`. -/
def Path.Join (plat : Platform) (base : Path) (paths : List PathArg) : Path :=
  let result := base
  result.JoinAppendPack plat paths

/-- `Path::Append(paths...)`. -/
def Path.Append (plat : Platform) (self : Path) (paths : List PathArg) : Path :=
  let result := self
  result.JoinAppendPack plat paths

/-- `Path::FromUtf8` for ASCII text, where `Utf8ToNative` leaves every code unit
as it is. -/
def Path.FromUtf8 (utf8_pathname : String) : Path := ⟨utf8_pathname.toList⟩

/-- The view of a string literal, as `PathView(Path::FromUtf8(s))`. -/
def PathView.FromUtf8 (utf8_pathname : String) : PathView :=
  PathView.ofPath (Path.FromUtf8 utf8_pathname)

/-- The argument that a string literal makes, as `Path::FromUtf8(s)` passed to
`Join` (the helper `JoinUtf8` of the tests). -/
def PathArg.FromUtf8 (utf8_pathname : String) : PathArg :=
  (Path.FromUtf8 utf8_pathname).arg

/-! ## Statuses (`status.cc`) -/

/-- Modelled from the spec: the enumeration `FirestoreErrorCode`, whose
declaration is in a header that is not among the sources; its members are the
seventeen kinds of the data model. -/
inductive FirestoreErrorCode where
  | Ok
  | Cancelled
  | Unknown
  | InvalidArgument
  | DeadlineExceeded
  | NotFound
  | AlreadyExists
  | PermissionDenied
  | Unauthenticated
  | ResourceExhausted
  | FailedPrecondition
  | Aborted
  | OutOfRange
  | Unimplemented
  | Internal
  | Unavailable
  | DataLoss
  deriving DecidableEq, Repr

/-- Modelled from the spec: `Status::State` of `status.h` (not among the
sources), the pair of a kind and a message that a failure holds. -/
structure State where
  code : FirestoreErrorCode
  msg : String
  deriving DecidableEq, Repr

/-- Modelled from the spec: `class Status` of `status.h` (not among the
sources). The member `state_` is a `std::unique_ptr<State>`: null (`none`) for
success, otherwise the kind and message of the failure. -/
structure Status where
  state_ : Option State
  deriving DecidableEq, Repr

/-- Modelled from the spec: the success constructor `Status()` / `Status::OK()`
of `status.h`: no kind, no message. -/
def Status.OK : Status := ⟨none⟩

/-- Modelled from the spec: the accessor `Status::ok()` of `status.h`, true
exactly on success (`state_ == nullptr`, as `ToString` tests it). -/
def Status.ok (self : Status) : Bool := self.state_.isNone

/-- Modelled from the spec: the accessor `Status::code()` of `status.h`: `Ok`
on success, otherwise the stored kind. -/
def Status.code (self : Status) : FirestoreErrorCode :=
  match self.state_ with
  | none => FirestoreErrorCode.Ok
  | some state => state.code

/-- Modelled from the spec: the accessor `Status::error_message()` of
`status.h`: `empty_string()` on success, otherwise the stored message. -/
def Status.error_message (self : Status) : String :=
  match self.state_ with
  | none => ""
  | some state => state.msg

/-- Modelled from the spec: the macro `HARD_ASSERT`, which is not among the
sources: a fatal assertion. The program goes on when the condition holds and
aborts otherwise; the abort is the result `none`. -/
def HARD_ASSERT (condition : Bool) : Option Unit :=
  if condition then some () else none

/-- The constructor `Status::Status(FirestoreErrorCode code, string_view msg)`;
the result is `none` when its assertion aborts. -/
def Status.create (code : FirestoreErrorCode) (msg : String) : Option Status :=
  (HARD_ASSERT (code != FirestoreErrorCode.Ok)).bind fun _ =>
    some ⟨some ⟨code, msg⟩⟩

/-- `Status::Annotate`. The last line builds a new `Status` with the
constructor, so the result is `none` if that constructor aborts. -/
def Status.Annotate (self : Status) (msg : String) : Option Status :=
  if self.ok || msg.isEmpty then some self
  else
    let new_msg :=
      if !self.error_message.isEmpty then self.error_message ++ "; " ++ msg
      else msg
    Status.create self.code new_msg

/-- `Status::Update`: `*this = new_status` when `ok()`, nothing otherwise. The
result is the value of `*this` after the call. -/
def Status.Update (self new_status : Status) : Status :=
  if self.ok then new_status else self

/-- `Status::ToString`. The `default` branch of the switch formats the kind with
`StringFormat("Unknown code(%s)", code())`; `StringFormat` is not among the
sources and the text it returns is the parameter `unknown_code`. -/
def Status.ToString (unknown_code : FirestoreErrorCode → String) (self : Status) :
    String :=
  match self.state_ with
  | none => "OK"
  | some state =>
    let result :=
      match self.code with
      | .Cancelled => "Cancelled"
      | .Unknown => "Unknown"
      | .InvalidArgument => "Invalid argument"
      | .DeadlineExceeded => "Deadline exceeded"
      | .NotFound => "Not found"
      | .AlreadyExists => "Already exists"
      | .PermissionDenied => "Permission denied"
      | .Unauthenticated => "Unauthenticated"
      | .ResourceExhausted => "Resource exhausted"
      | .FailedPrecondition => "Failed precondition"
      | .Aborted => "Aborted"
      | .OutOfRange => "Out of range"
      | .Unimplemented => "Unimplemented"
      | .Internal => "Internal"
      | .Unavailable => "Unavailable"
      | .DataLoss => "Data loss"
      | _ => unknown_code self.code
    result ++ ": " ++ state.msg

/-! ## Native error codes (`status.cc`) -/

/-- The `errno` constants that `CodeForErrno` names as case labels, in the order
of the switch. -/
inductive Errno where
  | EBADF | EBADFD
  | EINVAL | ENAMETOOLONG | E2BIG | EDESTADDRREQ | EDOM | EFAULT | EILSEQ
  | ENOPROTOOPT | ENOSTR | ENOTSOCK | ENOTTY | EPROTOTYPE | ESPIPE
  | ETIMEDOUT | ETIME
  | ENODEV | ENOENT | ENOMEDIUM | ENXIO | ESRCH
  | EEXIST | EADDRNOTAVAIL | EALREADY | ENOTUNIQ
  | EPERM | EACCES | ENOKEY | EROFS
  | ENOTEMPTY | EISDIR | ENOTDIR | EADDRINUSE | EBUSY | ECHILD | EISCONN | EISNAM
  | ENOTBLK | ENOTCONN | EPIPE | ESHUTDOWN | ETXTBSY | EUNATCH
  | ENOSPC | EDQUOT | EMFILE | EMLINK | ENFILE | ENOBUFS | ENODATA | ENOMEM | ENOSR
  | EUSERS
  | ECHRNG | EFBIG | EOVERFLOW | ERANGE
  | ENOPKG | ENOSYS | ENOTSUP | EAFNOSUPPORT | EPFNOSUPPORT | EPROTONOSUPPORT
  | ESOCKTNOSUPPORT | EXDEV
  | EAGAIN | ECOMM | ECONNREFUSED | ECONNABORTED | ECONNRESET | EINTR | EHOSTDOWN
  | EHOSTUNREACH | ENETDOWN | ENETRESET | ENETUNREACH | ENOLCK | ENOLINK | ENONET
  | EDEADLK | ESTALE
  | ECANCELED
  deriving DecidableEq, Repr, Fintype

/-- Whether the switch value `x` equals one of the case labels `labels`. The
labels are named constants of a system header; `value` gives the number each
stands for on the platform, and `none` for a constant the platform does not
define (its `case` line is then removed by `#if defined`). -/
def switchCase {ι β : Type} [DecidableEq β] (value : ι → Option β) (x : β)
    (labels : List ι) : Bool :=
  labels.any (fun label => decide (value label = some x))

/-- The case groups of the switch in `CodeForErrno` after `case 0`, in source
order, each with the kind it returns. -/
def CodeForErrnoCases : List (List Errno × FirestoreErrorCode) :=
  [ ([.EBADF, .EBADFD], .Internal),
    ([.EINVAL, .ENAMETOOLONG, .E2BIG, .EDESTADDRREQ, .EDOM, .EFAULT, .EILSEQ,
      .ENOPROTOOPT, .ENOSTR, .ENOTSOCK, .ENOTTY, .EPROTOTYPE, .ESPIPE],
     .InvalidArgument),
    ([.ETIMEDOUT, .ETIME], .DeadlineExceeded),
    ([.ENODEV, .ENOENT, .ENOMEDIUM, Errno.ENXIO, .ESRCH], .NotFound),
    ([.EEXIST, .EADDRNOTAVAIL, .EALREADY, .ENOTUNIQ], .AlreadyExists),
    ([.EPERM, .EACCES, .ENOKEY, .EROFS], .PermissionDenied),
    ([.ENOTEMPTY, .EISDIR, .ENOTDIR, .EADDRINUSE, .EBUSY, .ECHILD, .EISCONN, .EISNAM,
      .ENOTBLK, .ENOTCONN, .EPIPE, .ESHUTDOWN, .ETXTBSY, .EUNATCH],
     .FailedPrecondition),
    ([.ENOSPC, .EDQUOT, .EMFILE, .EMLINK, .ENFILE, .ENOBUFS, .ENODATA, .ENOMEM, .ENOSR,
      .EUSERS],
     .ResourceExhausted),
    ([.ECHRNG, .EFBIG, .EOVERFLOW, .ERANGE], .OutOfRange),
    ([.ENOPKG, .ENOSYS, .ENOTSUP, .EAFNOSUPPORT, .EPFNOSUPPORT, .EPROTONOSUPPORT,
      .ESOCKTNOSUPPORT, .EXDEV],
     .Unimplemented),
    ([.EAGAIN, .ECOMM, .ECONNREFUSED, .ECONNABORTED, .ECONNRESET, .EINTR, .EHOSTDOWN,
      .EHOSTUNREACH, .ENETDOWN, .ENETRESET, .ENETUNREACH, .ENOLCK, .ENOLINK, .ENONET],
     .Unavailable),
    ([.EDEADLK, .ESTALE], .Aborted),
    ([.ECANCELED], .Cancelled) ]

/-- `CodeForErrno`: the canonical error code for the given `errno` value. The
switch returns the kind of the group whose labels hold the value, and `Unknown`
in the `default` case. -/
def CodeForErrno (value : Errno → Option Int) (errno_code : Int) : FirestoreErrorCode :=
  if errno_code = 0 then FirestoreErrorCode.Ok
  else
    match CodeForErrnoCases.find? (fun group => switchCase value errno_code group.1) with
    | some group => group.2
    | none => FirestoreErrorCode.Unknown

/-- The values of the `errno` constants on Linux (`asm-generic/errno-base.h` and
`asm-generic/errno.h`; `ENOTSUP` is `EOPNOTSUPP`). -/
def linuxErrno : Errno → Option Int
  | .EPERM => some 1 | .ENOENT => some 2 | .ESRCH => some 3 | .EINTR => some 4
  | Errno.ENXIO => some 6 | .E2BIG => some 7 | .EBADF => some 9 | .ECHILD => some 10
  | .EAGAIN => some 11 | .ENOMEM => some 12 | .EACCES => some 13 | .EFAULT => some 14
  | .ENOTBLK => some 15 | .EBUSY => some 16 | .EEXIST => some 17 | .EXDEV => some 18
  | .ENODEV => some 19 | .ENOTDIR => some 20 | .EISDIR => some 21 | .EINVAL => some 22
  | .ENFILE => some 23 | .EMFILE => some 24 | .ENOTTY => some 25 | .ETXTBSY => some 26
  | .EFBIG => some 27 | .ENOSPC => some 28 | .ESPIPE => some 29 | .EROFS => some 30
  | .EMLINK => some 31 | .EPIPE => some 32 | .EDOM => some 33 | .ERANGE => some 34
  | .EDEADLK => some 35 | .ENAMETOOLONG => some 36 | .ENOLCK => some 37
  | .ENOSYS => some 38 | .ENOTEMPTY => some 39 | .ECHRNG => some 44
  | .EUNATCH => some 49 | .ENOSTR => some 60 | .ENODATA => some 61 | .ETIME => some 62
  | .ENOSR => some 63 | .ENONET => some 64 | .ENOPKG => some 65 | .ENOLINK => some 67
  | .ECOMM => some 70 | .EOVERFLOW => some 75 | .ENOTUNIQ => some 76
  | .EBADFD => some 77 | .EILSEQ => some 84 | .EUSERS => some 87
  | .ENOTSOCK => some 88 | .EDESTADDRREQ => some 89 | .EPROTOTYPE => some 91
  | .ENOPROTOOPT => some 92 | .EPROTONOSUPPORT => some 93
  | .ESOCKTNOSUPPORT => some 94 | .ENOTSUP => some 95 | .EPFNOSUPPORT => some 96
  | .EAFNOSUPPORT => some 97 | .EADDRINUSE => some 98 | .EADDRNOTAVAIL => some 99
  | .ENETDOWN => some 100 | .ENETUNREACH => some 101 | .ENETRESET => some 102
  | .ECONNABORTED => some 103 | .ECONNRESET => some 104 | .ENOBUFS => some 105
  | .EISCONN => some 106 | .ENOTCONN => some 107 | .ESHUTDOWN => some 108
  | .ETIMEDOUT => some 110 | .ECONNREFUSED => some 111 | .EHOSTDOWN => some 112
  | .EHOSTUNREACH => some 113 | .EALREADY => some 114 | .ESTALE => some 116
  | .EISNAM => some 120 | .EDQUOT => some 122 | .ENOMEDIUM => some 123
  | .ECANCELED => some 125 | .ENOKEY => some 126

/-- The Windows error constants that `CodeFromLastError` names as case labels,
in the order of the switch. -/
inductive WinError where
  | ERROR_SUCCESS
  | ERROR_INVALID_ACCESS
  | ERROR_INVALID_FUNCTION | ERROR_INVALID_HANDLE | ERROR_INVALID_NAME
  | ERROR_FILE_NOT_FOUND | ERROR_PATH_NOT_FOUND | ERROR_INVALID_DRIVE
  | ERROR_BAD_NETPATH | ERROR_DEV_NOT_EXIST
  | ERROR_FILE_EXISTS | ERROR_ALREADY_EXISTS
  | ERROR_ACCESS_DENIED | ERROR_SHARING_VIOLATION | ERROR_WRITE_PROTECT
  | ERROR_LOCK_VIOLATION
  | ERROR_TOO_MANY_OPEN_FILES | ERROR_NOT_ENOUGH_MEMORY | ERROR_OUTOFMEMORY
  | ERROR_NO_MORE_FILES | ERROR_DISK_FULL | ERROR_HANDLE_DISK_FULL
  | ERROR_CALL_NOT_IMPLEMENTED
  | ERROR_NOT_READY
  deriving DecidableEq, Repr, Fintype

/-- The case groups of the switch in `CodeFromLastError`, in source order, each
with the kind it returns. -/
def CodeFromLastErrorCases : List (List WinError × FirestoreErrorCode) :=
  [ ([.ERROR_SUCCESS], .Ok),
    ([.ERROR_INVALID_ACCESS], .Internal),
    ([.ERROR_INVALID_FUNCTION, .ERROR_INVALID_HANDLE, .ERROR_INVALID_NAME],
     .InvalidArgument),
    ([.ERROR_FILE_NOT_FOUND, .ERROR_PATH_NOT_FOUND, .ERROR_INVALID_DRIVE,
      .ERROR_BAD_NETPATH, .ERROR_DEV_NOT_EXIST],
     .NotFound),
    ([.ERROR_FILE_EXISTS, .ERROR_ALREADY_EXISTS], .AlreadyExists),
    ([.ERROR_ACCESS_DENIED, .ERROR_SHARING_VIOLATION, .ERROR_WRITE_PROTECT,
      .ERROR_LOCK_VIOLATION],
     .PermissionDenied),
    ([.ERROR_TOO_MANY_OPEN_FILES, .ERROR_NOT_ENOUGH_MEMORY, .ERROR_OUTOFMEMORY,
      .ERROR_NO_MORE_FILES, .ERROR_DISK_FULL, .ERROR_HANDLE_DISK_FULL],
     .ResourceExhausted),
    ([.ERROR_CALL_NOT_IMPLEMENTED], .Unimplemented),
    ([.ERROR_NOT_READY], .Unavailable) ]

/-- `CodeFromLastError`: the canonical error code for the given Windows API
error code (a `DWORD`). -/
def CodeFromLastError (value : WinError → Option Nat) (error : Nat) : FirestoreErrorCode :=
  match CodeFromLastErrorCases.find? (fun group => switchCase value error group.1) with
  | some group => group.2
  | none => FirestoreErrorCode.Unknown

/-- The values of the Windows error constants (`winerror.h`). -/
def winerror : WinError → Option Nat
  | .ERROR_SUCCESS => some 0
  | .ERROR_INVALID_FUNCTION => some 1
  | .ERROR_FILE_NOT_FOUND => some 2
  | .ERROR_PATH_NOT_FOUND => some 3
  | .ERROR_TOO_MANY_OPEN_FILES => some 4
  | .ERROR_ACCESS_DENIED => some 5
  | .ERROR_INVALID_HANDLE => some 6
  | .ERROR_NOT_ENOUGH_MEMORY => some 8
  | .ERROR_INVALID_ACCESS => some 12
  | .ERROR_OUTOFMEMORY => some 14
  | .ERROR_INVALID_DRIVE => some 15
  | .ERROR_NO_MORE_FILES => some 18
  | .ERROR_WRITE_PROTECT => some 19
  | .ERROR_NOT_READY => some 21
  | .ERROR_SHARING_VIOLATION => some 32
  | .ERROR_LOCK_VIOLATION => some 33
  | .ERROR_HANDLE_DISK_FULL => some 39
  | .ERROR_BAD_NETPATH => some 53
  | .ERROR_DEV_NOT_EXIST => some 55
  | .ERROR_FILE_EXISTS => some 80
  | .ERROR_DISK_FULL => some 112
  | .ERROR_CALL_NOT_IMPLEMENTED => some 120
  | .ERROR_INVALID_NAME => some 123
  | .ERROR_ALREADY_EXISTS => some 183

/-! ## Directories (`filesystem.cc`) -/

/-- `Dir::RecursivelyCreate`. The primitive `Dir::Create` is the parameter
`Create`: any function of the path and of the state of the world, returning a
Status and the state after the call. The first numeric argument bounds the depth
of the recursion; `none` means that the bound was reached before the function
returned. -/
def Dir.RecursivelyCreate {σ : Type} (plat : Platform)
    (Create : Path → σ → Status × σ) : Nat → Path → σ → Option (Status × σ)
  | 0, _, _ => none
  | fuel + 1, path, world =>
    let created := Create path world
    let result := created.1
    if result.ok || result.code != FirestoreErrorCode.NotFound then
      some (result, created.2)
    else
      let parent := path.Dirname plat
      match Dir.RecursivelyCreate plat Create fuel parent created.2 with
      | none => none
      | some (result, world) =>
        if !result.ok then some (result, world)
        else some (Create path world)

/-! ## Directories and files (`filesystem_posix.cc`) -/

/-- A directory stream handle, the `DIR*` that `opendir` returns. -/
abbrev DIR := Nat

/-- The operating-system and library primitives that the code calls, over a
state of the world `σ`; every one is a parameter and may behave in any way.
`value` gives the numbers of the `errno` constants; `errno` reads the variable
`errno` and `set_errno` assigns it; a system call returns its return code and the
state after the call; `stat` also returns `S_ISDIR(buffer.st_mode)`; `opendir`
returns a stream or null; `readdir` returns the name of the next entry
(`d_name`, of length `d_namlen`) or null. `StringFormat` and `StrError` are
library functions that are not among the sources. -/
structure Sys (σ : Type) where
  value : Errno → Option Int
  errno : σ → Int
  set_errno : Int → σ → σ
  mkdir : Path → σ → Int × σ
  rmdir : Path → σ → Int × σ
  unlink : Path → σ → Int × σ
  stat : Path → σ → (Int × Bool) × σ
  opendir : Path → σ → Option DIR × σ
  readdir : DIR → σ → Option (List Char) × σ
  closedir : DIR → σ → Int × σ
  getenv : String → σ → Option String
  StringFormat : String → List String → String
  StrError : Int → String

/-- How a call ends: it returns a value and leaves a state of the world, or a
fatal assertion aborts the program in some state, or the bound on the depth of
the recursion was reached before the call ended. -/
inductive Run (σ α : Type) where
  | done (value : α) (world : σ)
  | aborted (world : σ)
  | unfinished
  deriving DecidableEq, Repr

/-- The run of a Status constructor, which aborts when its assertion fails. -/
def Run.ofOption {σ α : Type} (constructed : Option α) (world : σ) : Run σ α :=
  match constructed with
  | some value => Run.done value world
  | none => Run.aborted world

/-- `Path::ToString` (POSIX variant): the pathname itself. -/
def Path.ToString (p : Path) : String := String.mk p.pathname_

/-- `Status::FromErrno(int errno_code, absl::string_view msg)`. -/
def Status.FromErrno {σ : Type} (sys : Sys σ) (errno_code : Int) (msg : String) :
    Option Status :=
  let canonical_code := CodeForErrno sys.value errno_code
  Status.create canonical_code
    (sys.StringFormat "%s (errno %s: %s)" [msg, toString errno_code, sys.StrError errno_code])

/-- `Status::FromErrno(absl::string_view msg)`: `FromErrno(errno, msg)`. -/
def Status.FromErrnoMsg {σ : Type} (sys : Sys σ) (msg : String) (world : σ) :
    Option Status :=
  Status.FromErrno sys (sys.errno world) msg

/-- Modelled from the spec: the overload `Status::FromErrno(format, path)` that
`filesystem_posix.cc` calls, declared in `status.h`, which is not among the
sources: the failure derived from the current `errno`, its message formatted
from `format` and the path. -/
def Status.FromErrnoFormat {σ : Type} (sys : Sys σ) (format : String) (path : Path)
    (world : σ) : Option Status :=
  Status.FromErrnoMsg sys (sys.StringFormat format [path.ToString]) world

/-- `Dir::Create` (POSIX variant). -/
def Dir.Create {σ : Type} (sys : Sys σ) (path : Path) (world : σ) : Run σ Status :=
  let made := sys.mkdir path world
  if made.1 == 0 || some (sys.errno made.2) == sys.value Errno.EEXIST then
    Run.done Status.OK made.2
  else
    Run.ofOption (Status.FromErrnoFormat sys "Could not create directory %s" path made.2)
      made.2

/-- `Dir::Delete` (POSIX variant). The test `!::rmdir(...)` holds when `rmdir`
returned 0. -/
def Dir.Delete {σ : Type} (sys : Sys σ) (path : Path) (world : σ) : Run σ Status :=
  let removed := sys.rmdir path world
  if removed.1 == 0 then
    if some (sys.errno removed.2) != sys.value Errno.ENOENT
        && some (sys.errno removed.2) != sys.value Errno.ENOTDIR then
      Run.ofOption (Status.FromErrnoFormat sys "Could not delete directory %s" path removed.2)
        removed.2
    else Run.done Status.OK removed.2
  else Run.done Status.OK removed.2

/-- `File::Delete`. -/
def File.Delete {σ : Type} (sys : Sys σ) (path : Path) (world : σ) : Run σ Status :=
  let removed := sys.unlink path world
  if removed.1 != 0 then
    Run.ofOption (Status.FromErrnoFormat sys "Could not delete file %s" path removed.2)
      removed.2
  else Run.done Status.OK removed.2

/-- `File::Exists`. -/
def File.Exists {σ : Type} (sys : Sys σ) (path : Path) (world : σ) : Bool × σ :=
  let probed := sys.stat path world
  let rc := probed.1.1
  (rc == 0, probed.2)

/-- `File::IsDirectory(path, error)`. The pointer `error` is `none` when null and
otherwise holds the Status it points to; the second component of the result is
what it points to after the call. -/
def File.IsDirectory {σ : Type} (sys : Sys σ) (path : Path) (error : Option Status)
    (world : σ) : Run σ (Bool × Option Status) :=
  let probed := sys.stat path world
  if probed.1.1 != 0 then
    match error with
    | some _ =>
      match Status.FromErrnoFormat sys "Could not stat file %s" path probed.2 with
      | some failure => Run.done (false, some failure) probed.2
      | none => Run.aborted probed.2
    | none => Run.done (false, none) probed.2
  else Run.done (probed.1.2, error) probed.2

/-- `Dir::Exists`: `File::IsDirectory(path, nullptr)`. -/
def Dir.Exists {σ : Type} (sys : Sys σ) (path : Path) (world : σ) : Run σ Bool :=
  match File.IsDirectory sys path none world with
  | Run.done found world => Run.done found.1 world
  | Run.aborted world => Run.aborted world
  | Run.unfinished => Run.unfinished

/-- `Dir::TempDir` (POSIX variant, not Android). -/
def Dir.TempDir {σ : Type} (sys : Sys σ) (world : σ) : Path :=
  let env_tmpdir := sys.getenv "TMPDIR" world
  match env_tmpdir with
  | some tmpdir => Path.FromUtf8 tmpdir
  | none => Path.FromUtf8 "/tmp"

mutual

/-- The loop `for (;;)` of `RecursivelyDeleteDir` over the open stream `dir`,
entered with the current `result`; it ends at a `break` with the `result` then
current. The name `d_name` that `readdir` yields is a C string and `d_namlen`
is its length, so for `PathView(entry->d_name, entry->d_namlen)` the viewed
characters and the C string at the pointer are both the name. -/
def RecursivelyDeleteDir.loop {σ : Type} (sys : Sys σ) (parent : Path) (dir : DIR) :
    Nat → Status → σ → Run σ Status
  | 0, _, _ => Run.unfinished
  | fuel + 1, result, world =>
    let world := sys.set_errno 0 world
    let entry := sys.readdir dir world
    match entry.1 with
    | none =>
      if sys.errno entry.2 != 0 then
        Run.ofOption (Status.FromErrnoFormat sys "Could not read directory %s" parent entry.2)
          entry.2
      else Run.done result entry.2
    | some d_name =>
      if d_name == ['.'] || d_name == ['.', '.'] then
        RecursivelyDeleteDir.loop sys parent dir fuel result entry.2
      else
        let child := parent.Append Platform.posix [PathArg.mk (PathView.mk d_name) d_name]
        match Dir.RecursivelyDelete sys fuel child entry.2 with
        | Run.done result world =>
          if !result.ok then Run.done result world
          else RecursivelyDeleteDir.loop sys parent dir fuel result world
        | Run.aborted world => Run.aborted world
        | Run.unfinished => Run.unfinished

/-- `RecursivelyDeleteDir`: recursively deletes a path known to be a
directory. -/
def RecursivelyDeleteDir {σ : Type} (sys : Sys σ) : Nat → Path → σ → Run σ Status
  | 0, _, _ => Run.unfinished
  | fuel + 1, parent, world =>
    let opened := sys.opendir parent world
    match opened.1 with
    | none =>
      Run.ofOption (Status.FromErrnoFormat sys "Could not read directory %s" parent opened.2)
        opened.2
    | some dir =>
      match RecursivelyDeleteDir.loop sys parent dir fuel Status.OK opened.2 with
      | Run.done result world =>
        let closed := sys.closedir dir world
        if closed.1 != 0 && result.ok then
          Run.ofOption
            (Status.FromErrnoFormat sys "Could not close directory %s" parent closed.2)
            closed.2
        else if !result.ok then Run.done result closed.2
        else
          let removed := sys.rmdir parent closed.2
          if removed.1 != 0 then
            Run.ofOption
              (Status.FromErrnoFormat sys "Could not delete directory %s" parent removed.2)
              removed.2
          else Run.done Status.OK removed.2
      | Run.aborted world => Run.aborted world
      | Run.unfinished => Run.unfinished

/-- `Dir::RecursivelyDelete` (POSIX variant). The first numeric argument bounds
the depth of the calls and loop iterations. -/
def Dir.RecursivelyDelete {σ : Type} (sys : Sys σ) : Nat → Path → σ → Run σ Status
  | 0, _, _ => Run.unfinished
  | fuel + 1, path, world =>
    match File.IsDirectory sys path (some Status.OK) world with
    | Run.done probed world =>
      let is_dir := probed.1
      let result := probed.2.getD Status.OK
      if !result.ok then
        if result.code == FirestoreErrorCode.NotFound then Run.done Status.OK world
        else Run.done result world
      else if is_dir then RecursivelyDeleteDir sys fuel path world
      else File.Delete sys path world
    | Run.aborted world => Run.aborted world
    | Run.unfinished => Run.unfinished

end

/-! ## The testing opener (`leveldb_testing.cc`) -/

/-- The fields of `leveldb::Options` that the opener sets. -/
structure Options where
  create_if_missing : Bool
  error_if_exists : Bool
  deriving DecidableEq, Repr

/-- The defaults of `leveldb::Options`. -/
def Options.default : Options := ⟨false, false⟩

/-- Modelled from the spec: `util::StatusOr<T>` of `statusor.h`, which is not
among the sources: a Status and, on success, a value. -/
structure StatusOr (α : Type) where
  status : Status
  value : Option α
  deriving DecidableEq, Repr

/-- Modelled from the spec: the macro `STATUS_CHECK_OK` of `status.h`, which is
not among the sources: a fatal check that the Status is ok; the abort is the
result `none`. -/
def STATUS_CHECK_OK (status : Status) : Option Unit :=
  if status.ok then some () else none

/-- `ClearDataInternal`. -/
def ClearDataInternal {σ : Type} (sys : Sys σ) (fuel : Nat) (dir : Path) (world : σ) :
    Run σ Status :=
  match Dir.Exists sys dir world with
  | Run.done found world =>
    if found then
      match Dir.RecursivelyDelete sys fuel dir world with
      | Run.done status world =>
        if !status.ok then
          Run.ofOption
            (status.Annotate
              (sys.StringFormat "failed to clean up leveldb path %s" [dir.ToString]))
            world
        else Run.done Status.OK world
      | Run.aborted world => Run.aborted world
      | Run.unfinished => Run.unfinished
    else Run.done Status.OK world
  | Run.aborted world => Run.aborted world
  | Run.unfinished => Run.unfinished

/-- `TestingLevelDbOpener::Open`. The member `LevelDbOpener::Open(dir, options)`
that it calls is defined in a file that is not among the sources; it is the
parameter `LevelDbOpener_Open`. -/
def TestingLevelDbOpener.Open {σ α : Type} (sys : Sys σ)
    (LevelDbOpener_Open : Path → Options → σ → StatusOr α × σ) (fuel : Nat)
    (directory : Path) (world : σ) : Run σ (StatusOr α) :=
  let dir := directory
  match ClearDataInternal sys fuel dir world with
  | Run.done status world =>
    match STATUS_CHECK_OK status with
    | none => Run.aborted world
    | some _ =>
      let options := Options.default
      let options := Options.mk true options.error_if_exists
      let options := Options.mk options.create_if_missing true
      let result := LevelDbOpener_Open dir options world
      match STATUS_CHECK_OK result.1.status with
      | none => Run.aborted result.2
      | some _ => Run.done result.1 result.2
  | Run.aborted world => Run.aborted world
  | Run.unfinished => Run.unfinished

/-! ## Notions used by the specification -/

/-- The path without its optional drive-letter prefix, in the words of the
specification: an ASCII letter followed by `:` on the Windows variant, nothing
on the POSIX variant. -/
def dropDriveLetterPrefix : Platform → List Char → List Char
  | .win32, c :: ':' :: rest => if c.isAlpha then rest else c :: ':' :: rest
  | _, p => p

/-- The path with all of its trailing separators removed. -/
def trimTrailingSeparators (plat : Platform) (p : List Char) : List Char :=
  (p.reverse.dropWhile (IsSeparator plat)).reverse

/-- Whether the path contains a character that is not a separator. -/
def hasNonSeparator (plat : Platform) (p : List Char) : Bool :=
  p.any (fun c => !IsSeparator plat c)

/-- Separator-run collapsing, with `prevSep` telling whether the character just
before was a separator: each maximal run of separators becomes one preferred
separator, every other character is kept. -/
def collapseRunsFrom (plat : Platform) : Bool → List Char → List Char
  | _, [] => []
  | prevSep, c :: rest =>
    if IsSeparator plat c then
      if prevSep then collapseRunsFrom plat true rest
      else kPreferredSeparator plat :: collapseRunsFrom plat true rest
    else c :: collapseRunsFrom plat false rest

/-- Separator-run collapsing of a whole path. -/
def collapseRuns (plat : Platform) (p : List Char) : List Char :=
  collapseRunsFrom plat false p

/-- The canonical kind names of the specification, one for each of the sixteen
kinds other than `Ok`. -/
def canonicalKindNames : List (FirestoreErrorCode × String) :=
  [ (.Cancelled, "Cancelled"), (.Unknown, "Unknown"),
    (.InvalidArgument, "Invalid argument"), (.DeadlineExceeded, "Deadline exceeded"),
    (.NotFound, "Not found"), (.AlreadyExists, "Already exists"),
    (.PermissionDenied, "Permission denied"), (.Unauthenticated, "Unauthenticated"),
    (.ResourceExhausted, "Resource exhausted"),
    (.FailedPrecondition, "Failed precondition"), (.Aborted, "Aborted"),
    (.OutOfRange, "Out of range"), (.Unimplemented, "Unimplemented"),
    (.Internal, "Internal"), (.Unavailable, "Unavailable"), (.DataLoss, "Data loss") ]

/-- The Statuses obtainable from the success constructor, the failure
constructor when it does not abort, `Annotate` and `Update`. -/
inductive Status.Obtainable : Status → Prop where
  | success : Status.Obtainable Status.OK
  | failure (code : FirestoreErrorCode) (msg : String) (s : Status) :
      Status.create code msg = some s → Status.Obtainable s
  | annotate (s t : Status) (msg : String) :
      Status.Obtainable s → s.Annotate msg = some t → Status.Obtainable t
  | update (s t : Status) :
      Status.Obtainable s → Status.Obtainable t → Status.Obtainable (s.Update t)

/-- The primitive `Create` instrumented with a log: every call appends its path
to the list kept beside the state of the world. -/
def Dir.logCreate {σ : Type} (Create : Path → σ → Status × σ) :
    Path → σ × List Path → Status × (σ × List Path) :=
  fun path world =>
    let created := Create path world.1
    (created.1, (created.2, world.2 ++ [path]))

/-- A model of `Dir::Create` over the list of existing directories: success
without change when the path exists, success and the path added when its
`Dirname` exists, and a `NotFound` failure when its `Dirname` is missing. -/
def modelCreate (plat : Platform) : Path → List Path → Status × List Path :=
  fun path dirs =>
    if path ∈ dirs then (Status.OK, dirs)
    else if path.Dirname plat ∈ dirs then (Status.OK, dirs ++ [path])
    else (⟨some ⟨FirestoreErrorCode.NotFound, "Could not create directory"⟩⟩, dirs)

/-- A `Create` that behaves as `mkdir` does on the empty pathname, which names no
directory: it fails there with `ENOENT` (2 on Linux), and the failure carries
the kind `CodeForErrno` gives that code; on every other path it succeeds. -/
def emptyPathCreate : Path → Unit → Status × Unit :=
  fun path world =>
    if path.pathname_ = [] then
      (⟨some ⟨CodeForErrno linuxErrno 2, "Could not create directory"⟩⟩, world)
    else (Status.OK, world)

/-- The characters of `/c1/c2/.../cn`: each component preceded by one `/`. -/
def absolutePathChars : List (List Char) → List Char
  | [] => []
  | c :: cs => '/' :: c ++ absolutePathChars cs

/-- The absolute path `/c1/c2/.../cn` with the given components; the root `/`
when there are none. -/
def absolutePath (components : List (List Char)) : Path :=
  ⟨if components.isEmpty then ['/'] else absolutePathChars components⟩

/-- The primitive `Create` instrumented with a trace: every call appends its
path and the Status it returned to the list kept beside the state of the
world. -/
def Dir.traceCreate {σ : Type} (Create : Path → σ → Status × σ) :
    Path → σ × List (Path × Status) → Status × (σ × List (Path × Status)) :=
  fun path world =>
    let created := Create path world.1
    (created.1, (created.2, world.2 ++ [(path, created.1)]))

/-- A `Create` over the list of existing directories in which nothing can be
added: success when the path exists, a `PermissionDenied` failure when only its
`Dirname` exists, and a `NotFound` failure when its `Dirname` is missing. -/
def deniedCreate (plat : Platform) : Path → List Path → Status × List Path :=
  fun path dirs =>
    if path ∈ dirs then (Status.OK, dirs)
    else if path.Dirname plat ∈ dirs then
      (⟨some ⟨FirestoreErrorCode.PermissionDenied, "Could not create directory"⟩⟩, dirs)
    else (⟨some ⟨FirestoreErrorCode.NotFound, "Could not create directory"⟩⟩, dirs)

/-! ## A model filesystem -/

/-- The components of a pathname from the characters `rest`, `cur` being the
component read so far: the maximal runs of characters other than `/`. -/
def componentsFrom : List Char → List Char → List (List Char)
  | cur, [] => if cur.isEmpty then [] else [cur]
  | cur, c :: rest =>
    if c = '/' then
      if cur.isEmpty then componentsFrom [] rest else cur :: componentsFrom [] rest
    else componentsFrom (cur ++ [c]) rest

/-- The components of a pathname; the model resolves every pathname from the
root, so `a/b`, `/a/b` and `/a//b/` name the same entry. -/
def pathComponents (p : Path) : List (List Char) := componentsFrom [] p.pathname_

/-- The state of the model filesystem: the entries of a tree, each with its
components from the root and whether it is a directory; the open directory
streams, by handle, each with the names still to be read; and `errno`. -/
structure ModelWorld where
  entries : List (List (List Char) × Bool)
  streams : List (List (List Char))
  errno : Int
  deriving DecidableEq, Repr

/-- The kind of the entry with the given components: `some true` for a
directory, `some false` for a plain file, `none` when there is no such entry. -/
def ModelWorld.kind (w : ModelWorld) (key : List (List Char)) : Option Bool :=
  (w.entries.find? (fun e => e.1 == key)).map (fun e => e.2)

/-- The names of the entries directly inside the directory `key`. -/
def childNames (key : List (List Char)) (entries : List (List (List Char) × Bool)) :
    List (List Char) :=
  entries.filterMap (fun e => if e.1.dropLast = key then e.1.getLast? else none)

/-- The entries without the one at `key`. -/
def removeEntry (key : List (List Char)) (entries : List (List (List Char) × Bool)) :
    List (List (List Char) × Bool) :=
  entries.filter (fun e => !(e.1 == key))

/-- Model `stat`: fails with `ENOENT` when there is no such entry. -/
def modelStat (path : Path) (w : ModelWorld) : (Int × Bool) × ModelWorld :=
  match w.kind (pathComponents path) with
  | some is_dir => ((0, is_dir), w)
  | none => ((-1, false), ⟨w.entries, w.streams, 2⟩)

/-- Model `unlink`: removes an existing plain file; fails with `EISDIR` on a
directory and with `ENOENT` when there is no such entry. -/
def modelUnlink (path : Path) (w : ModelWorld) : Int × ModelWorld :=
  match w.kind (pathComponents path) with
  | some false => (0, ⟨removeEntry (pathComponents path) w.entries, w.streams, w.errno⟩)
  | some true => (-1, ⟨w.entries, w.streams, 21⟩)
  | none => (-1, ⟨w.entries, w.streams, 2⟩)

/-- Model `rmdir`: removes an existing empty directory; fails with `ENOTEMPTY`
on a directory that has entries, with `ENOTDIR` on a plain file and with
`ENOENT` when there is no such entry. -/
def modelRmdir (path : Path) (w : ModelWorld) : Int × ModelWorld :=
  match w.kind (pathComponents path) with
  | some true =>
    if (childNames (pathComponents path) w.entries).isEmpty then
      (0, ⟨removeEntry (pathComponents path) w.entries, w.streams, w.errno⟩)
    else (-1, ⟨w.entries, w.streams, 39⟩)
  | some false => (-1, ⟨w.entries, w.streams, 20⟩)
  | none => (-1, ⟨w.entries, w.streams, 2⟩)

/-- Model `mkdir`: fails with `EEXIST` on an existing entry and with `ENOENT`
when the parent directory is missing; otherwise adds the directory. -/
def modelMkdir (path : Path) (w : ModelWorld) : Int × ModelWorld :=
  match w.kind (pathComponents path) with
  | some _ => (-1, ⟨w.entries, w.streams, 17⟩)
  | none =>
    if w.kind (pathComponents path).dropLast = some true
        && !(pathComponents path).isEmpty then
      (0, ⟨w.entries ++ [(pathComponents path, true)], w.streams, w.errno⟩)
    else (-1, ⟨w.entries, w.streams, 2⟩)

/-- Model `opendir`: on a directory, a new stream that will yield `.`, `..` and
then the names of its entries; fails with `ENOTDIR` or `ENOENT` otherwise. -/
def modelOpendir (path : Path) (w : ModelWorld) : Option DIR × ModelWorld :=
  match w.kind (pathComponents path) with
  | some true =>
    (some w.streams.length,
      ⟨w.entries,
        w.streams ++ [['.'] :: ['.', '.'] :: childNames (pathComponents path) w.entries],
        w.errno⟩)
  | some false => (none, ⟨w.entries, w.streams, 20⟩)
  | none => (none, ⟨w.entries, w.streams, 2⟩)

/-- Model `readdir`: the next name of the stream, or null at its end (`errno`
is left as it is). -/
def modelReaddir (dir : DIR) (w : ModelWorld) : Option (List Char) × ModelWorld :=
  match w.streams.getD dir [] with
  | [] => (none, w)
  | name :: rest => (some name, ⟨w.entries, w.streams.set dir rest, w.errno⟩)

/-- Model `closedir`: empties the stream. -/
def modelClosedir (dir : DIR) (w : ModelWorld) : Int × ModelWorld :=
  (0, ⟨w.entries, w.streams.set dir [], w.errno⟩)

/-- The model filesystem as an instance of the primitives, with the Linux
values of the `errno` constants and no environment variable set. -/
def modelSys : Sys ModelWorld :=
  Sys.mk linuxErrno (fun w => w.errno) (fun e w => ⟨w.entries, w.streams, e⟩)
    modelMkdir modelRmdir modelUnlink modelStat modelOpendir modelReaddir modelClosedir
    (fun _ _ => none)
    (fun format args => String.join (format :: args))
    (fun errno_code => toString errno_code)

/-- A small tree for the examples: `/t` holds the file `f` and the directory `d`,
which holds the file `g`; `/keep` is a directory beside it. -/
def exampleWorld : ModelWorld :=
  ⟨[([], true), (["t".toList], true), (["t".toList, "f".toList], false),
    (["t".toList, "d".toList], true), (["t".toList, "d".toList, "g".toList], false),
    (["keep".toList], true)], [], 0⟩

/-- The loop of `RecursivelyDeleteDir`, from its head with a bound, a current
result and a state, reaches its head again (with the bound, result and state
given last) after reading some entries, each of which was either a pseudo-entry
`.` or `..`, skipped, or an entry whose `RecursivelyDelete` returned success. -/
inductive LoopSteps {σ : Type} (sys : Sys σ) (parent : Path) (dir : DIR) :
    Nat → Status → σ → Nat → Status → σ → Prop where
  | here (fuel : Nat) (result : Status) (world : σ) :
      LoopSteps sys parent dir fuel result world fuel result world
  | skip (fuel : Nat) (result : Status) (world : σ) (name : List Char) (w2 : σ)
      (fuel3 : Nat) (result3 : Status) (w3 : σ) :
      sys.readdir dir (sys.set_errno 0 world) = (some name, w2) →
      (name = ['.'] ∨ name = ['.', '.']) →
      LoopSteps sys parent dir fuel result w2 fuel3 result3 w3 →
      LoopSteps sys parent dir (fuel + 1) result world fuel3 result3 w3
  | deleted (fuel : Nat) (result : Status) (world : σ) (name : List Char) (w2 : σ)
      (r : Status) (w4 : σ) (fuel3 : Nat) (result3 : Status) (w3 : σ) :
      sys.readdir dir (sys.set_errno 0 world) = (some name, w2) →
      name ≠ ['.'] → name ≠ ['.', '.'] →
      Dir.RecursivelyDelete sys fuel
          (parent.Append Platform.posix [PathArg.mk (PathView.mk name) name]) w2
        = Run.done r w4 →
      r.ok = true →
      LoopSteps sys parent dir fuel r w4 fuel3 result3 w3 →
      LoopSteps sys parent dir (fuel + 1) result world fuel3 result3 w3

/-- Model `unlink` with locked entries: it fails with `EACCES` on an entry whose
components are in `locked`, and is the model `unlink` elsewhere. -/
def lockedUnlink (locked : List (List (List Char))) (path : Path) (w : ModelWorld) :
    Int × ModelWorld :=
  if pathComponents path ∈ locked then (-1, ⟨w.entries, w.streams, 13⟩)
  else modelUnlink path w

/-- The model filesystem in which the entries in `locked` cannot be unlinked. -/
def lockedSys (locked : List (List (List Char))) : Sys ModelWorld :=
  Sys.mk linuxErrno (fun w => w.errno) (fun e w => ⟨w.entries, w.streams, e⟩)
    modelMkdir modelRmdir (lockedUnlink locked) modelStat modelOpendir modelReaddir
    modelClosedir
    (fun _ _ => none)
    (fun format args => String.join (format :: args))
    (fun errno_code => toString errno_code)

/-- A tree for the examples: `/t` holds the plain files `a`, `b` and `c`. -/
def threeFilesWorld : ModelWorld :=
  ⟨[([], true), (["t".toList], true), (["t".toList, "a".toList], false),
    (["t".toList, "b".toList], false), (["t".toList, "c".toList], false)], [], 0⟩

/-- A model of the engine open on the model filesystem, as the two options
describe it: on an existing entry it fails when `error_if_exists` is set; on a
missing one it creates the directory when `create_if_missing` is set and fails
otherwise. -/
def modelEngineOpen (dir : Path) (options : Options) (w : ModelWorld) :
    StatusOr Unit × ModelWorld :=
  match w.kind (pathComponents dir) with
  | some _ =>
    if options.error_if_exists then
      (⟨⟨some ⟨FirestoreErrorCode.InvalidArgument, "exists (error_if_exists is true)"⟩⟩,
        none⟩, w)
    else (⟨Status.OK, some ()⟩, w)
  | none =>
    if options.create_if_missing then (⟨Status.OK, some ()⟩, (modelMkdir dir w).2)
    else
      (⟨⟨some ⟨FirestoreErrorCode.InvalidArgument,
          "does not exist (create_if_missing is false)"⟩⟩, none⟩, w)

/-- The index of the last element satisfying `q` among the first `i` elements of
`l`, found by scanning downwards from `i`; both search loops are instances. -/
def lastIndexBelow (q : Char → Bool) (l : List Char) : Nat → Option Nat
  | 0 => none
  | i + 1 => if q (l.getD i ' ') then some i else lastIndexBelow q l i

/-! ## The search loops -/

theorem LastSeparatorLoop_eq (plat : Platform) (v : PathView) (i : Nat) :
    PathView.LastSeparatorLoop plat v i
      = lastIndexBelow (IsSeparator plat) v.pathname_ i := by
  induction i with
  | zero => rfl
  | succ n ih => simp [PathView.LastSeparatorLoop, lastIndexBelow, ih]

theorem LastNonSeparatorLoop_eq (plat : Platform) (v : PathView) (i : Nat) :
    PathView.LastNonSeparatorLoop plat v i
      = lastIndexBelow (fun c => !IsSeparator plat c) v.pathname_ i := by
  induction i with
  | zero => rfl
  | succ n ih => simp [PathView.LastNonSeparatorLoop, lastIndexBelow, ih]

theorem lastIndexBelow_append_left (q : Char → Bool) (l r : List Char) (i : Nat)
    (hi : i ≤ l.length) : lastIndexBelow q (l ++ r) i = lastIndexBelow q l i := by
  induction i with
  | zero => rfl
  | succ n ih =>
    have hn : n < l.length := hi
    have hget : (l ++ r).getD n ' ' = l.getD n ' ' := by
      simp [List.getD_eq_getElem?_getD, List.getElem?_append_left hn]
    rw [lastIndexBelow, lastIndexBelow, hget, ih (Nat.le_of_lt hn)]

theorem lastIndexBelow_none (q : Char → Bool) (l : List Char)
    (hl : ∀ x ∈ l, q x = false) (i : Nat) (hi : i ≤ l.length) :
    lastIndexBelow q l i = none := by
  induction i with
  | zero => rfl
  | succ n ih =>
    have hn : n < l.length := hi
    have hq : q (l.getD n ' ') = false := by
      rw [List.getD_eq_getElem l ' ' hn]
      exact hl _ (List.getElem_mem hn)
    rw [lastIndexBelow, hq, ih (Nat.le_of_lt hn)]
    rfl

theorem lastIndexBelow_some (q : Char → Bool) (pre b : List Char) (c : Char)
    (hc : q c = true) (hb : ∀ x ∈ b, q x = false) (j : Nat) (hj : j ≤ b.length) :
    lastIndexBelow q (pre ++ c :: b) (pre.length + 1 + j) = some pre.length := by
  induction j with
  | zero =>
    have hget : (pre ++ c :: b).getD pre.length ' ' = c := by
      rw [List.getD_eq_getElem?_getD, List.getElem?_append_right (Nat.le_refl _)]
      simp
    rw [Nat.add_zero, lastIndexBelow, hget, hc]
    rfl
  | succ n ih =>
    have hn : n < b.length := hj
    have hget : (pre ++ c :: b).getD (pre.length + 1 + n) ' ' = b.getD n ' ' := by
      have h1 : pre.length + 1 + n = (pre ++ [c]).length + n := by simp
      have h2 : pre ++ c :: b = (pre ++ [c]) ++ b := by simp
      rw [h1, h2]
      simp only [List.getD_eq_getElem?_getD]
      rw [List.getElem?_append_right (by omega)]
      simp
    have hq : q (b.getD n ' ') = false := by
      rw [List.getD_eq_getElem b ' ' hn]
      exact hb _ (List.getElem_mem hn)
    rw [show pre.length + 1 + (n + 1) = (pre.length + 1 + n) + 1 by omega]
    rw [lastIndexBelow, hget, hq, ih (Nat.le_of_lt hn)]
    rfl

/-- Every list either has no element satisfying `q`, or splits at its last
element satisfying `q`. -/
theorem exists_last_split (q : Char → Bool) (l : List Char) :
    (∀ x ∈ l, q x = false) ∨
      ∃ pre c b, l = pre ++ c :: b ∧ q c = true ∧ ∀ x ∈ b, q x = false := by
  induction l with
  | nil => left; simp
  | cons a t ih =>
    rcases ih with h | ⟨pre, c, b, rfl, hc, hb⟩
    · by_cases ha : q a = true
      · right; exact ⟨[], a, t, rfl, ha, h⟩
      · left
        intro x hx
        rcases List.mem_cons.mp hx with rfl | hx
        · simpa using ha
        · exact h x hx
    · right; exact ⟨a :: pre, c, b, rfl, hc, hb⟩

/-! ## `LastSeparator` and `LastNonSeparator` -/

theorem LastSeparator_of_free (plat : Platform) (p : List Char)
    (hp : ∀ x ∈ p, IsSeparator plat x = false) :
    PathView.LastSeparator plat ⟨p⟩ none = none := by
  unfold PathView.LastSeparator
  split
  · rfl
  · rw [LastSeparatorLoop_eq]
    exact lastIndexBelow_none _ _ hp _ (Nat.le_refl _)

theorem LastSeparator_split (plat : Platform) (pre b : List Char) (c : Char)
    (hc : IsSeparator plat c = true) (hb : ∀ x ∈ b, IsSeparator plat x = false) :
    PathView.LastSeparator plat ⟨pre ++ c :: b⟩ none = some pre.length := by
  have hne : (PathView.mk (pre ++ c :: b)).empty = false := by
    simp [PathView.empty, PathView.size_]
  unfold PathView.LastSeparator
  rw [hne, LastSeparatorLoop_eq]
  have hlen : (PathView.mk (pre ++ c :: b)).minPos none = pre.length + 1 + b.length := by
    simp [PathView.minPos, PathView.size_]; omega
  rw [hlen]
  exact lastIndexBelow_some _ pre b c hc hb _ (Nat.le_refl _)

theorem LastNonSeparator_of_seps (plat : Platform) (run rest : List Char)
    (hrun : ∀ x ∈ run, IsSeparator plat x = true) :
    PathView.LastNonSeparator plat ⟨run ++ rest⟩ (some run.length) = none := by
  unfold PathView.LastNonSeparator
  split
  · rfl
  · rw [LastNonSeparatorLoop_eq]
    have hlen : (PathView.mk (run ++ rest)).minPos (some run.length) = run.length := by
      simp [PathView.minPos, PathView.size_]
    rw [hlen]
    show lastIndexBelow _ (run ++ rest) run.length = none
    rw [lastIndexBelow_append_left _ _ _ _ (Nat.le_refl _)]
    refine lastIndexBelow_none _ _ ?_ _ (Nat.le_refl _)
    intro x hx
    simp [hrun x hx]

theorem LastNonSeparator_split (plat : Platform) (d run rest : List Char) (x : Char)
    (hx : IsSeparator plat x = false) (hrun : ∀ y ∈ run, IsSeparator plat y = true) :
    PathView.LastNonSeparator plat ⟨d ++ x :: run ++ rest⟩
      (some (d.length + 1 + run.length)) = some d.length := by
  have hne : (PathView.mk (d ++ x :: run ++ rest)).empty = false := by
    simp [PathView.empty, PathView.size_]
  unfold PathView.LastNonSeparator
  rw [hne, LastNonSeparatorLoop_eq]
  have hlen : (PathView.mk (d ++ x :: run ++ rest)).minPos
      (some (d.length + 1 + run.length)) = d.length + 1 + run.length := by
    simp [PathView.minPos, PathView.size_]; omega
  rw [hlen]
  show lastIndexBelow _ (d ++ x :: run ++ rest) (d.length + 1 + run.length) = some d.length
  have hsplit : d ++ x :: run ++ rest = (d ++ x :: run) ++ rest := by simp
  rw [hsplit, lastIndexBelow_append_left _ _ _ _ (by simp; omega)]
  refine lastIndexBelow_some _ d run x (by simp [hx]) ?_ _ (Nat.le_refl _)
  intro y hy
  simp [hrun y hy]

theorem LastNonSeparator_all_of_seps (plat : Platform) (p : List Char)
    (hp : ∀ x ∈ p, IsSeparator plat x = true) :
    PathView.LastNonSeparator plat ⟨p⟩ none = none := by
  unfold PathView.LastNonSeparator
  split
  · rfl
  · rw [LastNonSeparatorLoop_eq]
    refine lastIndexBelow_none _ _ ?_ _ (Nat.le_refl _)
    intro x hx
    simp [hp x hx]

theorem LastNonSeparator_all_split (plat : Platform) (d run : List Char) (x : Char)
    (hx : IsSeparator plat x = false) (hrun : ∀ y ∈ run, IsSeparator plat y = true) :
    PathView.LastNonSeparator plat ⟨d ++ x :: run⟩ none = some d.length := by
  have hne : (PathView.mk (d ++ x :: run)).empty = false := by
    simp [PathView.empty, PathView.size_]
  unfold PathView.LastNonSeparator
  rw [hne, LastNonSeparatorLoop_eq]
  have hlen : (PathView.mk (d ++ x :: run)).minPos none = d.length + 1 + run.length := by
    simp [PathView.minPos, PathView.size_]; omega
  rw [hlen]
  refine lastIndexBelow_some _ d run x (by simp [hx]) ?_ _ (Nat.le_refl _)
  intro y hy
  simp [hrun y hy]

/-! ## `Basename` and `Dirname` on a decomposed path -/

theorem Basename_of_free (plat : Platform) (p : List Char)
    (hp : ∀ x ∈ p, IsSeparator plat x = false) :
    PathView.Basename plat ⟨p⟩ = ⟨p⟩ := by
  simp [PathView.Basename, LastSeparator_of_free plat p hp]

theorem Basename_split (plat : Platform) (pre b : List Char) (c : Char)
    (hc : IsSeparator plat c = true) (hb : ∀ x ∈ b, IsSeparator plat x = false) :
    PathView.Basename plat ⟨pre ++ c :: b⟩ = ⟨b⟩ := by
  simp [PathView.Basename, LastSeparator_split plat pre b c hc hb]

theorem Dirname_of_free (plat : Platform) (p : List Char)
    (hp : ∀ x ∈ p, IsSeparator plat x = false) :
    PathView.Dirname plat ⟨p⟩ = ⟨[]⟩ := by
  simp [PathView.Dirname, LastSeparator_of_free plat p hp]

theorem Dirname_of_seps (plat : Platform) (run b : List Char) (c : Char)
    (hrun : ∀ x ∈ run, IsSeparator plat x = true)
    (hc : IsSeparator plat c = true) (hb : ∀ x ∈ b, IsSeparator plat x = false) :
    PathView.Dirname plat ⟨run ++ c :: b⟩ = ⟨(run ++ c :: b).take 1⟩ := by
  simp only [PathView.Dirname, LastSeparator_split plat run b c hc hb,
    LastNonSeparator_of_seps plat run (c :: b) hrun]

theorem Dirname_split (plat : Platform) (d run b : List Char) (x c : Char)
    (hx : IsSeparator plat x = false) (hrun : ∀ y ∈ run, IsSeparator plat y = true)
    (hc : IsSeparator plat c = true) (hb : ∀ y ∈ b, IsSeparator plat y = false) :
    PathView.Dirname plat ⟨d ++ x :: run ++ c :: b⟩ = ⟨d ++ [x]⟩ := by
  have h1 : d ++ x :: run ++ c :: b = (d ++ x :: run) ++ c :: b := by simp
  have hl : PathView.LastSeparator plat ⟨d ++ x :: run ++ c :: b⟩ none
      = some (d.length + 1 + run.length) := by
    rw [h1, LastSeparator_split plat (d ++ x :: run) b c hc hb]
    simp; omega
  simp only [PathView.Dirname, hl, LastNonSeparator_split plat d run (c :: b) x hx hrun]
  have h2 : d ++ x :: run ++ c :: b = (d ++ [x]) ++ (run ++ c :: b) := by simp
  rw [h2, List.take_left' (by simp)]

/-! ## Separators of the POSIX variant -/

theorem IsSeparator_posix (c : Char) : IsSeparator .posix c = true ↔ c = '/' := by
  simp [IsSeparator]

theorem free_of_not_mem (l : List Char) (h : '/' ∉ l) :
    ∀ x ∈ l, IsSeparator .posix x = false := by
  intro x hx
  have hne : x ≠ '/' := fun e => h (e ▸ hx)
  simpa [IsSeparator] using hne

theorem seps_of_all_eq (l : List Char) (h : ∀ x ∈ l, x = '/') :
    ∀ x ∈ l, IsSeparator .posix x = true := by
  intro x hx
  simp [IsSeparator, h x hx]

theorem Basename_free (plat : Platform) (p : List Char) :
    ∀ x ∈ (PathView.Basename plat ⟨p⟩).pathname_, IsSeparator plat x = false := by
  rcases exists_last_split (IsSeparator plat) p with h | ⟨pre, c, b, rfl, hc, hb⟩
  · rw [Basename_of_free plat p h]; exact h
  · rw [Basename_split plat pre b c hc hb]; exact hb

/-! ## C1: `Basename` -/

/-- C1: on the POSIX variant `Basename(p)` is the part of `p` after its last
separator, `p` itself when `p` has no separator, and empty when `p` ends in a
separator; it never contains a separator; and the five listed values hold. -/
theorem C1_Basename_contract (p : List Char) :
    (∀ pre b, p = pre ++ '/' :: b → '/' ∉ b →
        PathView.Basename .posix ⟨p⟩ = ⟨b⟩) ∧
    ('/' ∉ p → PathView.Basename .posix ⟨p⟩ = ⟨p⟩) ∧
    (∀ pre, p = pre ++ ['/'] → PathView.Basename .posix ⟨p⟩ = ⟨[]⟩) ∧
    '/' ∉ (PathView.Basename .posix ⟨p⟩).pathname_ ∧
    Path.Basename .posix (Path.FromUtf8 "") = Path.FromUtf8 "" ∧
    Path.Basename .posix (Path.FromUtf8 "a") = Path.FromUtf8 "a" ∧
    Path.Basename .posix (Path.FromUtf8 "/a/b/c") = Path.FromUtf8 "c" ∧
    Path.Basename .posix (Path.FromUtf8 "/a/b/") = Path.FromUtf8 "" ∧
    Path.Basename .posix (Path.FromUtf8 "/a//b") = Path.FromUtf8 "b" := by
  refine ⟨?_, ?_, ?_, ?_, by decide, by decide, by decide, by decide, by decide⟩
  · rintro pre b rfl hb
    exact Basename_split .posix pre b '/' (by decide) (free_of_not_mem b hb)
  · intro hp
    exact Basename_of_free .posix p (free_of_not_mem p hp)
  · rintro pre rfl
    exact Basename_split .posix pre [] '/' (by decide) (by simp)
  · intro hmem
    have := Basename_free .posix p '/' hmem
    exact absurd this (by decide)

/-! ## C2: `Dirname` -/

/-- C2: on the POSIX variant `Dirname(p)` is empty when `p` has no separator, a
single separator when everything before the last separator of `p` is a
separator, and otherwise the prefix of `p` ending at the last non-separator
before the last separator; and the eight listed values hold. -/
theorem C2_Dirname_contract (p : List Char) :
    ('/' ∉ p → PathView.Dirname .posix ⟨p⟩ = ⟨[]⟩) ∧
    (∀ pre b, p = pre ++ '/' :: b → '/' ∉ b → (∀ y ∈ pre, y = '/') →
        PathView.Dirname .posix ⟨p⟩ = ⟨['/']⟩) ∧
    (∀ d x run b, p = d ++ x :: run ++ '/' :: b → '/' ∉ b → x ≠ '/' →
        (∀ y ∈ run, y = '/') → PathView.Dirname .posix ⟨p⟩ = ⟨d ++ [x]⟩) ∧
    Path.Dirname .posix (Path.FromUtf8 "") = Path.FromUtf8 "" ∧
    Path.Dirname .posix (Path.FromUtf8 "/") = Path.FromUtf8 "/" ∧
    Path.Dirname .posix (Path.FromUtf8 "///") = Path.FromUtf8 "/" ∧
    Path.Dirname .posix (Path.FromUtf8 "/a/b") = Path.FromUtf8 "/a" ∧
    Path.Dirname .posix (Path.FromUtf8 "/a//b") = Path.FromUtf8 "/a" ∧
    Path.Dirname .posix (Path.FromUtf8 "a/./b") = Path.FromUtf8 "a/." ∧
    Path.Dirname .posix (Path.FromUtf8 "/a/b/c/") = Path.FromUtf8 "/a/b/c" ∧
    Path.Dirname .posix (Path.FromUtf8 "/a//b//c") = Path.FromUtf8 "/a//b" := by
  refine ⟨?_, ?_, ?_, by decide, by decide, by decide, by decide, by decide,
    by decide, by decide, by decide⟩
  · intro hp
    exact Dirname_of_free .posix p (free_of_not_mem p hp)
  · rintro pre b rfl hb hpre
    rw [Dirname_of_seps .posix pre b '/' (seps_of_all_eq pre hpre) (by decide)
      (free_of_not_mem b hb)]
    cases pre with
    | nil => rfl
    | cons y t => simp [hpre y (List.mem_cons_self y t)]
  · rintro d x run b rfl hb hx hrun
    exact Dirname_split .posix d run b x '/' (by simpa [IsSeparator] using hx)
      (seps_of_all_eq run hrun) (by decide) (free_of_not_mem b hb)

/-! ## C3: `IsAbsolute` -/

theorem StripDriveLetter_eq (plat : Platform) (p : List Char) :
    (PathView.StripDriveLetter plat ⟨p⟩).pathname_ = dropDriveLetterPrefix plat p := by
  cases plat with
  | posix => rfl
  | win32 =>
    match p with
    | [] => rfl
    | [_] => rfl
    | c :: e :: rest =>
      by_cases he : e = ':'
      · subst he
        by_cases hc : c.isAlpha = true
        · simp [PathView.StripDriveLetter, dropDriveLetterPrefix, PathView.size_,
            ascii_isalpha, hc]
        · simp [PathView.StripDriveLetter, dropDriveLetterPrefix, PathView.size_,
            ascii_isalpha, hc]
      · have h1 : PathView.StripDriveLetter .win32 ⟨c :: e :: rest⟩ = ⟨c :: e :: rest⟩ := by
          simp [PathView.StripDriveLetter, he]
        rw [h1]
        unfold dropDriveLetterPrefix
        split
        · rename_i heq
          simp at heq
          exact absurd heq.2.1 he
        · rfl

theorem IsAbsolute_iff (plat : Platform) (p : List Char) :
    PathView.IsAbsolute plat ⟨p⟩ = true ↔
      ∃ c rest, dropDriveLetterPrefix plat p = c :: rest ∧ IsSeparator plat c = true := by
  unfold PathView.IsAbsolute
  simp only [PathView.empty, PathView.size_, StripDriveLetter_eq]
  cases h : dropDriveLetterPrefix plat p with
  | nil => simp
  | cons c rest => simp

/-- C3: `IsAbsolute(p)` holds exactly when `p` without its optional drive-letter
prefix (an ASCII letter and `:` on the Windows variant, nothing on POSIX) is
non-empty and starts with a separator; on POSIX exactly when `p` starts with
`/`; the empty path is never absolute; and the listed values hold. -/
theorem C3_IsAbsolute_contract (plat : Platform) (p : List Char) :
    (PathView.IsAbsolute plat ⟨p⟩ = true ↔
      ∃ c rest, dropDriveLetterPrefix plat p = c :: rest ∧ IsSeparator plat c = true) ∧
    (PathView.IsAbsolute .posix ⟨p⟩ = true ↔ ∃ rest, p = '/' :: rest) ∧
    PathView.IsAbsolute plat ⟨[]⟩ = false ∧
    Path.IsAbsolute .posix (Path.FromUtf8 "") = false ∧
    Path.IsAbsolute .posix (Path.FromUtf8 "/") = true ∧
    Path.IsAbsolute .posix (Path.FromUtf8 "//") = true ∧
    Path.IsAbsolute .posix (Path.FromUtf8 "/foo") = true ∧
    Path.IsAbsolute .posix (Path.FromUtf8 "foo") = false ∧
    Path.IsAbsolute .posix (Path.FromUtf8 "foo/bar") = false := by
  refine ⟨IsAbsolute_iff plat p, ?_, ?_, by decide, by decide, by decide, by decide,
    by decide, by decide⟩
  · rw [IsAbsolute_iff]
    constructor
    · rintro ⟨c, rest, h, hc⟩
      have hc2 : c = '/' := (IsSeparator_posix c).mp hc
      subst hc2
      exact ⟨rest, h⟩
    · rintro ⟨rest, rfl⟩
      exact ⟨'/', rest, rfl, by decide⟩
  · cases plat <;> rfl

/-! ## `JoinAppend` -/

theorem JoinAppend_absolute (plat : Platform) (self : Path) (path : PathArg)
    (h : path.view.IsAbsolute plat = true) :
    self.JoinAppend plat path = ⟨path.c_str⟩ := by
  simp [Path.JoinAppend, h]

theorem JoinAppend_of_seps (plat : Platform) (acc : List Char) (path : PathArg)
    (h : path.view.IsAbsolute plat = false) (hacc : ∀ x ∈ acc, IsSeparator plat x = true) :
    Path.JoinAppend plat ⟨acc⟩ path = ⟨acc ++ path.c_str⟩ := by
  simp [Path.JoinAppend, h, PathView.ofPath, LastNonSeparator_all_of_seps plat acc hacc]

theorem JoinAppend_split (plat : Platform) (d run : List Char) (x : Char) (path : PathArg)
    (h : path.view.IsAbsolute plat = false) (hx : IsSeparator plat x = false)
    (hrun : ∀ y ∈ run, IsSeparator plat y = true) :
    Path.JoinAppend plat ⟨d ++ x :: run⟩ path
      = ⟨d ++ [x] ++ [kPreferredSeparator plat] ++ path.c_str⟩ := by
  have h2 : d ++ x :: run = (d ++ [x]) ++ run := by simp
  have ht : (d ++ x :: run).take (d.length + 1) = d ++ [x] := by
    rw [h2, List.take_left' (by simp)]
  simp only [Path.JoinAppend, h, PathView.ofPath,
    LastNonSeparator_all_split plat d run x hx hrun, ht]
  simp

theorem dropWhile_run (q : Char → Bool) (run rest : List Char) (x : Char)
    (hrun : ∀ y ∈ run, q y = true) (hx : q x = false) :
    (run ++ x :: rest).dropWhile q = x :: rest := by
  induction run with
  | nil => simp [List.dropWhile, hx]
  | cons a t ih =>
    have ha : q a = true := hrun a (List.mem_cons_self a t)
    have ht : ∀ y ∈ t, q y = true := fun y hy => hrun y (List.mem_cons_of_mem a hy)
    simp [List.dropWhile, ha, ih ht]

theorem trimTrailingSeparators_split (plat : Platform) (d run : List Char) (x : Char)
    (hx : IsSeparator plat x = false) (hrun : ∀ y ∈ run, IsSeparator plat y = true) :
    trimTrailingSeparators plat (d ++ x :: run) = d ++ [x] := by
  unfold trimTrailingSeparators
  have hrev : (d ++ x :: run).reverse = run.reverse ++ x :: d.reverse := by simp
  rw [hrev, dropWhile_run (IsSeparator plat) run.reverse d.reverse x
    (fun y hy => hrun y (List.mem_reverse.mp hy)) hx]
  simp

theorem hasNonSeparator_of_seps (plat : Platform) (p : List Char)
    (hp : ∀ x ∈ p, IsSeparator plat x = true) : hasNonSeparator plat p = false := by
  simp only [hasNonSeparator, List.any_eq_false]
  intro x hx
  simp [hp x hx]

theorem hasNonSeparator_split (plat : Platform) (d run : List Char) (x : Char)
    (hx : IsSeparator plat x = false) : hasNonSeparator plat (d ++ x :: run) = true := by
  simp only [hasNonSeparator, List.any_eq_true]
  exact ⟨x, by simp, by simp [hx]⟩

/-- Every path either consists of separators only, or splits at its last
character that is not a separator. -/
theorem seps_or_split (plat : Platform) (p : List Char) :
    (∀ x ∈ p, IsSeparator plat x = true) ∨
      ∃ d x run, p = d ++ x :: run ∧ IsSeparator plat x = false ∧
        ∀ y ∈ run, IsSeparator plat y = true := by
  rcases exists_last_split (fun c => !IsSeparator plat c) p with h | ⟨d, x, run, rfl, hx, hrun⟩
  · left
    intro x hx
    simpa using h x hx
  · right
    refine ⟨d, x, run, rfl, by simpa using hx, ?_⟩
    intro y hy
    simpa using hrun y hy

/-- The result of joining a part that is not absolute, in closed form. -/
theorem JoinAppend_relative (plat : Platform) (acc : Path) (part : PathArg)
    (h : part.view.IsAbsolute plat = false) :
    acc.JoinAppend plat part =
      ⟨(if hasNonSeparator plat acc.pathname_ = true then
          trimTrailingSeparators plat acc.pathname_ ++ [kPreferredSeparator plat]
        else acc.pathname_) ++ part.c_str⟩ := by
  obtain ⟨a⟩ := acc
  rcases seps_or_split plat a with hs | ⟨d, x, run, rfl, hx, hrun⟩
  · rw [JoinAppend_of_seps plat a part h hs]
    simp [hasNonSeparator_of_seps plat a hs]
  · rw [JoinAppend_split plat d run x part h hx hrun]
    simp [hasNonSeparator_split plat d run x hx,
      trimTrailingSeparators_split plat d run x hx hrun]

/-! ## C strings -/

theorem c_string_of_not_mem (l : List Char) (h : NUL ∉ l) : c_string l = l := by
  unfold c_string
  rw [List.takeWhile_eq_self_iff]
  intro c hc
  have hne : c ≠ NUL := fun e => h (e ▸ hc)
  simpa using hne

/-- A `Path` without NUL is, as an argument, its view with its own characters as
the C string. -/
theorem arg_of_not_mem (l : List Char) (h : NUL ∉ l) :
    Path.arg ⟨l⟩ = ⟨⟨l⟩, l⟩ := by
  simp [Path.arg, PathView.ofPath, c_string_of_not_mem l h]

/-! ## C4: an absolute part replaces the base -/

/-- C4 fails on the code where the C string at the pointer of the part is not
the part: for an absolute part, `JoinAppend` assigns that C string, whatever the
size of the view. For the view `Dirname()` of `/b/c`, which is `/b` and is
absolute, `Join("a", view)` is `/b/c`, not `/b`; and for the path made of `/`,
`a`, NUL, `b` the join is `/a`. For a path without NUL the join is the part, as
at the three listed values. -/
theorem C4_Join_absolute_copies_c_string (plat : Platform) (base : Path) :
    (∀ part : PathArg, part.view.IsAbsolute plat = true →
      Path.Join plat base [part] = ⟨part.c_str⟩) ∧
    (∀ part : Path, NUL ∉ part.pathname_ → part.IsAbsolute plat = true →
      Path.Join plat base [part.arg] = part) ∧
    PathView.Dirname .posix (PathView.FromUtf8 "/b/c") = PathView.FromUtf8 "/b" ∧
    (PathView.FromUtf8 "/b").IsAbsolute .posix = true ∧
    Path.Join .posix (Path.FromUtf8 "a")
        [(PathView.Dirname .posix (PathView.FromUtf8 "/b/c")).arg "/c".toList]
      = Path.FromUtf8 "/b/c" ∧
    Path.Join .posix (Path.FromUtf8 "a")
        [(PathView.Dirname .posix (PathView.FromUtf8 "/b/c")).arg "/c".toList]
      ≠ Path.ofView (PathView.Dirname .posix (PathView.FromUtf8 "/b/c")) ∧
    (Path.mk ['/', 'a', NUL, 'b']).IsAbsolute .posix = true ∧
    Path.Join .posix (Path.FromUtf8 "a") [(Path.mk ['/', 'a', NUL, 'b']).arg]
      = Path.FromUtf8 "/a" ∧
    Path.Join .posix (Path.FromUtf8 "a") [(Path.mk ['/', 'a', NUL, 'b']).arg]
      ≠ Path.mk ['/', 'a', NUL, 'b'] ∧
    Path.Join .posix (Path.FromUtf8 "a") [PathArg.FromUtf8 "/b"] = Path.FromUtf8 "/b" ∧
    Path.Join .posix (Path.FromUtf8 "a") [PathArg.FromUtf8 "///b///"]
      = Path.FromUtf8 "///b///" ∧
    Path.Join .posix (Path.FromUtf8 "//host/a/") [PathArg.FromUtf8 "//b"]
      = Path.FromUtf8 "//b" := by
  refine ⟨?_, ?_, by decide, by decide, by decide, by decide, by decide, by decide,
    by decide, by decide, by decide, by decide⟩
  · intro part h
    simp [Path.Join, Path.JoinAppendPack, JoinAppend_absolute plat base part h]
  · intro part hn h
    obtain ⟨l⟩ := part
    rw [arg_of_not_mem l hn]
    show Path.JoinAppend plat base ⟨⟨l⟩, l⟩ = ⟨l⟩
    exact JoinAppend_absolute plat base ⟨⟨l⟩, l⟩ h

/-! ## C5: joining a part that is not absolute -/

/-- C5 as stated fails: `"//"` is not empty and `"a"` is not absolute, yet
`Join("//","a")` is `"//a"`, while `"//"` without its trailing separators,
then one separator, then `"a"` is `"/a"`. -/
theorem C5_Join_relative_counterexample :
    (PathView.FromUtf8 "a").IsAbsolute .posix = false ∧
    (Path.FromUtf8 "//").pathname_ ≠ [] ∧
    Path.Join .posix (Path.FromUtf8 "//") [PathArg.FromUtf8 "a"] = Path.FromUtf8 "//a" ∧
    trimTrailingSeparators .posix (Path.FromUtf8 "//").pathname_
        ++ [kPreferredSeparator .posix] ++ (PathView.FromUtf8 "a").pathname_
      = (Path.FromUtf8 "/a").pathname_ ∧
    Path.Join .posix (Path.FromUtf8 "//") [PathArg.FromUtf8 "a"]
      ≠ ⟨trimTrailingSeparators .posix (Path.FromUtf8 "//").pathname_
          ++ [kPreferredSeparator .posix] ++ (PathView.FromUtf8 "a").pathname_⟩ := by
  decide

/-- C5, amended: for every accumulated path and every part that is not absolute
and whose characters are the C string at its pointer (as for a path without
NUL), the join is the accumulated path followed by the part when the
accumulated path has no character other than separators (so it is the part when
the accumulated path is empty), and otherwise the accumulated path without its
trailing separators, then exactly one preferred separator, then the part. -/
theorem C5_Join_relative (plat : Platform) (acc : Path) (part : PathArg)
    (h : part.view.IsAbsolute plat = false) (hc : part.c_str = part.view.pathname_) :
    (acc.pathname_ = [] → Path.Join plat acc [part] = Path.ofView part.view) ∧
    (hasNonSeparator plat acc.pathname_ = false →
        Path.Join plat acc [part] = ⟨acc.pathname_ ++ part.view.pathname_⟩) ∧
    (hasNonSeparator plat acc.pathname_ = true →
        Path.Join plat acc [part] =
          ⟨trimTrailingSeparators plat acc.pathname_ ++ [kPreferredSeparator plat]
            ++ part.view.pathname_⟩) := by
  have hj : Path.Join plat acc [part] = acc.JoinAppend plat part := rfl
  rw [hj, JoinAppend_relative plat acc part h, hc]
  refine ⟨?_, ?_, ?_⟩
  · intro he
    simp [he, hasNonSeparator, Path.ofView]
  · intro hn
    simp [hn]
  · intro hn
    simp [hn]

/-- C5 (amended) at `Join("a/b","c") = "a/b/c"`. -/
theorem C5_Join_relative_witness :
    (PathView.FromUtf8 "c").IsAbsolute .posix = false ∧
    (PathArg.FromUtf8 "c").c_str = (PathArg.FromUtf8 "c").view.pathname_ ∧
    hasNonSeparator .posix (Path.FromUtf8 "a/b").pathname_ = true ∧
    Path.Join .posix (Path.FromUtf8 "a/b") [PathArg.FromUtf8 "c"] = Path.FromUtf8 "a/b/c" :=
  ⟨by decide, by decide, by decide,
   ((C5_Join_relative .posix (Path.FromUtf8 "a/b") (PathArg.FromUtf8 "c")
      (by decide) (by decide)).2.2 (by decide)).trans (by decide)⟩

/-! ## C6: joining the empty part -/

theorem IsAbsolute_nil (plat : Platform) : PathView.IsAbsolute plat ⟨[]⟩ = false := by
  cases plat <;> rfl

/-- C6 as stated fails: `Join("a","")` is `"a/"`, not `"a"`. -/
theorem C6_Join_empty_part_counterexample :
    Path.Join .posix (Path.FromUtf8 "a") [PathArg.FromUtf8 ""] = Path.FromUtf8 "a/" ∧
    Path.Join .posix (Path.FromUtf8 "a") [PathArg.FromUtf8 ""] ≠ Path.FromUtf8 "a" := by
  decide

/-- C6, amended: joining the empty part never fails and adds no character of
the part; `Join(base, "")` is `base` when `base` has no character other than
separators, and otherwise `base` without its trailing separators followed by
exactly one preferred separator. The two values of the tests hold. -/
theorem C6_Join_empty_part (plat : Platform) (base : Path) :
    (hasNonSeparator plat base.pathname_ = false →
        Path.Join plat base [Path.arg ⟨[]⟩] = base) ∧
    (hasNonSeparator plat base.pathname_ = true →
        Path.Join plat base [Path.arg ⟨[]⟩] =
          ⟨trimTrailingSeparators plat base.pathname_ ++ [kPreferredSeparator plat]⟩) ∧
    Path.Join .posix (Path.FromUtf8 "/") [PathArg.FromUtf8 ""] = Path.FromUtf8 "/" ∧
    Path.Join .posix (Path.FromUtf8 "")
        [PathArg.FromUtf8 "", PathArg.FromUtf8 "", PathArg.FromUtf8 ""]
      = Path.FromUtf8 "" := by
  have hj : Path.Join plat base [Path.arg ⟨[]⟩] = base.JoinAppend plat (Path.arg ⟨[]⟩) := rfl
  rw [hj, JoinAppend_relative plat base (Path.arg ⟨[]⟩) (IsAbsolute_nil plat)]
  have hc : (Path.arg ⟨[]⟩).c_str = [] := rfl
  rw [hc]
  refine ⟨?_, ?_, by decide, by decide⟩
  · intro hn
    simp [hn]
  · intro hn
    simp [hn]

/-! ## C7: `Join` is a left fold -/

theorem JoinAppendPack_append (plat : Platform) (self : Path) (ps qs : List PathArg) :
    self.JoinAppendPack plat (ps ++ qs)
      = (self.JoinAppendPack plat ps).JoinAppendPack plat qs := by
  induction ps generalizing self with
  | nil => rfl
  | cons a t ih => simp [Path.JoinAppendPack, ih]

/-- C7: `Join(base)` is `base`; joining `p1..pn` is joining `p1..p(n-1)` and
then joining `pn` to the result; so `Join` is the left fold of the two-argument
join; and the two listed values hold. -/
theorem C7_Join_left_fold (plat : Platform) (base : Path) :
    Path.Join plat base [] = base ∧
    (∀ ps p, Path.Join plat base (ps ++ [p])
        = Path.Join plat (Path.Join plat base ps) [p]) ∧
    (∀ ps, Path.Join plat base ps
        = ps.foldl (fun acc p => Path.Join plat acc [p]) base) ∧
    Path.Join .posix (Path.FromUtf8 "/")
        [PathArg.FromUtf8 "a", PathArg.FromUtf8 "b", PathArg.FromUtf8 "c"]
      = Path.FromUtf8 "/a/b/c" ∧
    Path.Join .posix (Path.FromUtf8 "a/b") [PathArg.FromUtf8 "/c", PathArg.FromUtf8 "d"]
      = Path.FromUtf8 "/c/d" := by
  refine ⟨rfl, ?_, ?_, by decide, by decide⟩
  · intro ps p
    exact JoinAppendPack_append plat base ps [p]
  · intro ps
    induction ps generalizing base with
    | nil => rfl
    | cons a t ih =>
      have h := ih (base.JoinAppend plat a)
      simpa [Path.Join, Path.JoinAppendPack] using h

/-! ## C8: decomposition and join, up to separator runs -/

theorem IsSeparator_preferred (plat : Platform) :
    IsSeparator plat (kPreferredSeparator plat) = true := by
  cases plat <;> decide

theorem collapseRunsFrom_true_seps (plat : Platform) (run rest : List Char)
    (hrun : ∀ y ∈ run, IsSeparator plat y = true) :
    collapseRunsFrom plat true (run ++ rest) = collapseRunsFrom plat true rest := by
  induction run with
  | nil => rfl
  | cons a t ih =>
    have ha : IsSeparator plat a = true := hrun a (List.mem_cons_self a t)
    have ht : ∀ y ∈ t, IsSeparator plat y = true :=
      fun y hy => hrun y (List.mem_cons_of_mem a hy)
    simp [collapseRunsFrom, ha, ih ht]

theorem collapseRunsFrom_false_seps (plat : Platform) (a : Char) (run rest : List Char)
    (ha : IsSeparator plat a = true) (hrun : ∀ y ∈ run, IsSeparator plat y = true) :
    collapseRunsFrom plat false (a :: run ++ rest)
      = kPreferredSeparator plat :: collapseRunsFrom plat true rest := by
  simp [collapseRunsFrom, ha, collapseRunsFrom_true_seps plat run rest hrun]

theorem collapseRunsFrom_congr_suffix (plat : Platform) (d r r' : List Char)
    (h : ∀ f, collapseRunsFrom plat f r = collapseRunsFrom plat f r') (f : Bool) :
    collapseRunsFrom plat f (d ++ r) = collapseRunsFrom plat f (d ++ r') := by
  induction d generalizing f with
  | nil => exact h f
  | cons a t ih =>
    by_cases ha : IsSeparator plat a = true
    · cases f <;> simp [collapseRunsFrom, ha, ih]
    · simp [collapseRunsFrom, ha, ih]

theorem mem_of_mem_dropDriveLetterPrefix (plat : Platform) (p : List Char) (x : Char)
    (hx : x ∈ dropDriveLetterPrefix plat p) : x ∈ p := by
  unfold dropDriveLetterPrefix at hx
  split at hx
  · split at hx
    · exact List.mem_cons_of_mem _ (List.mem_cons_of_mem _ hx)
    · exact hx
  · exact hx

theorem IsAbsolute_of_free (plat : Platform) (b : List Char)
    (hb : ∀ x ∈ b, IsSeparator plat x = false) : PathView.IsAbsolute plat ⟨b⟩ = false := by
  cases h : PathView.IsAbsolute plat ⟨b⟩ with
  | false => rfl
  | true =>
    obtain ⟨c, rest, hd, hc⟩ := (IsAbsolute_iff plat b).mp h
    have hmem : c ∈ b :=
      mem_of_mem_dropDriveLetterPrefix plat b c (hd ▸ List.mem_cons_self c rest)
    rw [hb c hmem] at hc
    exact absurd hc (by decide)

/-- For every path `p` without NUL, `Join(Dirname(p), Basename(p))` and `p`
become the same string once every maximal run of separators is replaced by a
single (preferred) separator. -/
theorem Join_Dirname_Basename_of_no_NUL (plat : Platform) (p : List Char)
    (hn : NUL ∉ p) :
    collapseRuns plat
        (Path.Join plat (Path.Dirname plat ⟨p⟩) [(Path.Basename plat ⟨p⟩).arg]).pathname_
      = collapseRuns plat p := by
  have hj : ∀ (a : Path) (v : PathArg), Path.Join plat a [v] = a.JoinAppend plat v :=
    fun _ _ => rfl
  simp only [hj, Path.Dirname, Path.Basename, Path.ofView, PathView.ofPath]
  rcases exists_last_split (IsSeparator plat) p with hfree | ⟨pre, c, b, rfl, hc, hb⟩
  · rw [Dirname_of_free plat p hfree, Basename_of_free plat p hfree, arg_of_not_mem p hn,
      JoinAppend_of_seps plat [] ⟨⟨p⟩, p⟩ (IsAbsolute_of_free plat p hfree) (by simp)]
    rfl
  · have hnb : NUL ∉ b := fun h => hn (by simp [h])
    rw [Basename_split plat pre b c hc hb, arg_of_not_mem b hnb]
    rcases seps_or_split plat pre with hs | ⟨d, x, run, rfl, hx, hrun⟩
    · rw [Dirname_of_seps plat pre b c hs hc hb]
      cases pre with
      | nil =>
        rw [JoinAppend_of_seps plat _ ⟨⟨b⟩, b⟩ (IsAbsolute_of_free plat b hb)
          (by simpa using hc)]
        rfl
      | cons y t =>
        have hy : IsSeparator plat y = true := hs y (List.mem_cons_self y t)
        have ht : ∀ z ∈ t ++ [c], IsSeparator plat z = true := by
          intro z hz
          rcases List.mem_append.mp hz with hz | hz
          · exact hs z (List.mem_cons_of_mem y hz)
          · rw [List.mem_singleton.mp hz]; exact hc
        rw [JoinAppend_of_seps plat _ ⟨⟨b⟩, b⟩ (IsAbsolute_of_free plat b hb)
          (by simpa using hy)]
        have h1 : collapseRuns plat ((y :: t ++ c :: b).take 1 ++ b)
            = kPreferredSeparator plat :: collapseRunsFrom plat true b := by
          simpa using collapseRunsFrom_false_seps plat y [] b hy (by simp)
        have h2 : collapseRuns plat (y :: t ++ c :: b)
            = kPreferredSeparator plat :: collapseRunsFrom plat true b := by
          simpa using collapseRunsFrom_false_seps plat y (t ++ [c]) b hy ht
        simp only [h1, h2]
    · rw [Dirname_split plat d run b x c hx hrun hc hb,
        JoinAppend_split plat d [] x ⟨⟨b⟩, b⟩ (IsAbsolute_of_free plat b hb) hx (by simp)]
      have hsuf : ∀ f, collapseRunsFrom plat f (x :: kPreferredSeparator plat :: b)
          = collapseRunsFrom plat f (x :: (run ++ c :: b)) := by
        intro f
        have hr : ∀ y ∈ run ++ [c], IsSeparator plat y = true := by
          intro z hz
          rcases List.mem_append.mp hz with hz | hz
          · exact hrun z hz
          · rw [List.mem_singleton.mp hz]; exact hc
        have h3 : collapseRunsFrom plat false (run ++ c :: b)
            = kPreferredSeparator plat :: collapseRunsFrom plat true b := by
          cases run with
          | nil => simpa using collapseRunsFrom_false_seps plat c [] b hc (by simp)
          | cons r rs =>
            have hr0 : IsSeparator plat r = true := hrun r (List.mem_cons_self r rs)
            have hrs : ∀ z ∈ rs ++ [c], IsSeparator plat z = true := by
              intro z hz
              rcases List.mem_append.mp hz with hz | hz
              · exact hrun z (List.mem_cons_of_mem r hz)
              · rw [List.mem_singleton.mp hz]; exact hc
            simpa using collapseRunsFrom_false_seps plat r (rs ++ [c]) b hr0 hrs
        simp [collapseRunsFrom, hx, IsSeparator_preferred plat, h3]
      have := collapseRunsFrom_congr_suffix plat d _ _ hsuf false
      simpa [collapseRuns] using this

/-- C8 fails on the code at a path with a NUL in its last component: for the
path `p` made of `a`, `/`, `b`, NUL, `c`, `Dirname(p)` is `a` and `Basename(p)`
is `b`, NUL, `c`, but `JoinAppend` appends the C string at the pointer of the
part, which is `b`, so `Join(Dirname(p), Basename(p))` is `a/b`, and collapsing
the runs of separators does not make it `p`. For every path without NUL the two
collapse to the same string. -/
theorem C8_Join_Dirname_Basename_cut_at_NUL :
    Path.Dirname .posix ⟨['a', '/', 'b', NUL, 'c']⟩ = Path.FromUtf8 "a" ∧
    Path.Basename .posix ⟨['a', '/', 'b', NUL, 'c']⟩ = ⟨['b', NUL, 'c']⟩ ∧
    Path.Join .posix (Path.Dirname .posix ⟨['a', '/', 'b', NUL, 'c']⟩)
        [(Path.Basename .posix ⟨['a', '/', 'b', NUL, 'c']⟩).arg]
      = Path.FromUtf8 "a/b" ∧
    collapseRuns .posix
        (Path.Join .posix (Path.Dirname .posix ⟨['a', '/', 'b', NUL, 'c']⟩)
          [(Path.Basename .posix ⟨['a', '/', 'b', NUL, 'c']⟩).arg]).pathname_
      ≠ collapseRuns .posix ['a', '/', 'b', NUL, 'c'] ∧
    (∀ (plat : Platform) (p : List Char), NUL ∉ p →
      collapseRuns plat
          (Path.Join plat (Path.Dirname plat ⟨p⟩) [(Path.Basename plat ⟨p⟩).arg]).pathname_
        = collapseRuns plat p) := by
  refine ⟨by decide, by decide, by decide, by decide, ?_⟩
  intro plat p hn
  exact Join_Dirname_Basename_of_no_NUL plat p hn

/-! ## C9: the failure constructor -/

theorem create_eq_some (code : FirestoreErrorCode) (msg : String)
    (h : code ≠ FirestoreErrorCode.Ok) :
    Status.create code msg = some ⟨some ⟨code, msg⟩⟩ := by
  simp [Status.create, HARD_ASSERT, h]

theorem create_some_iff (code : FirestoreErrorCode) (msg : String) (s : Status) :
    Status.create code msg = some s ↔
      code ≠ FirestoreErrorCode.Ok ∧ s = ⟨some ⟨code, msg⟩⟩ := by
  by_cases h : code = FirestoreErrorCode.Ok
  · simp [Status.create, HARD_ASSERT, h]
  · rw [create_eq_some code msg h]
    constructor
    · intro e
      exact ⟨h, (Option.some.inj e).symm⟩
    · rintro ⟨_, rfl⟩
      rfl

/-- C9: constructing a failure with kind `Ok` hits the fatal assertion, for
every message; with any other kind the constructor returns a Status that is not
ok, whose `code()` is that kind and whose `error_message()` is that message. -/
theorem C9_failure_constructor :
    (∀ msg, Status.create FirestoreErrorCode.Ok msg = none) ∧
    (∀ code msg, code ≠ FirestoreErrorCode.Ok →
      ∃ s, Status.create code msg = some s ∧ s.ok = false ∧ s.code = code ∧
        s.error_message = msg) := by
  refine ⟨fun msg => rfl, ?_⟩
  intro code msg h
  exact ⟨_, create_eq_some code msg h, rfl, rfl, rfl⟩

/-! ## C10: `Annotate` on a failure -/

theorem Annotate_failure (k : FirestoreErrorCode) (m extra : String)
    (hk : k ≠ FirestoreErrorCode.Ok) (he : extra ≠ "") :
    Status.Annotate ⟨some ⟨k, m⟩⟩ extra
      = some ⟨some ⟨k, if m = "" then extra else m ++ "; " ++ extra⟩⟩ := by
  have he2 : extra.isEmpty = false := by
    rw [Bool.eq_false_iff, ne_eq, String.isEmpty_iff]
    exact he
  unfold Status.Annotate
  simp only [Status.ok, Status.error_message, Status.code, Option.isNone_some, he2,
    Bool.or_self, Bool.false_eq_true, if_false]
  by_cases hm : m = ""
  · subst hm
    have h0 : ("" : String).isEmpty = true := by decide
    simp [h0, create_eq_some _ _ hk]
  · have hm2 : m.isEmpty = false := by
      rw [Bool.eq_false_iff, ne_eq, String.isEmpty_iff]
      exact hm
    simp [hm, hm2, create_eq_some _ _ hk]

theorem Annotate_empty (s : Status) : s.Annotate "" = some s := by
  have h : ("" : String).isEmpty = true := by decide
  simp [Status.Annotate, h]

/-- C10 as stated fails at the empty annotation: the failure `(NotFound, "m1")`
annotated with `""` keeps the message `"m1"`, which is not `"m1; "`. -/
theorem C10_Annotate_failure_counterexample :
    Status.create FirestoreErrorCode.NotFound "m1"
      = some ⟨some ⟨FirestoreErrorCode.NotFound, "m1"⟩⟩ ∧
    Status.Annotate ⟨some ⟨FirestoreErrorCode.NotFound, "m1"⟩⟩ ""
      = some ⟨some ⟨FirestoreErrorCode.NotFound, "m1"⟩⟩ ∧
    Status.error_message ⟨some ⟨FirestoreErrorCode.NotFound, "m1"⟩⟩ ≠ "m1" ++ "; " ++ "" := by
  decide

/-- C10, amended: for every failing Status with kind `k` and message `m` and
every non-empty annotation `extra`, `Annotate(extra)` returns a failure with
kind `k` whose message is `m`, then `"; "`, then `extra`, unless `m` is empty,
in which case the message is exactly `extra`; for the empty annotation it
returns the Status unchanged. -/
theorem C10_Annotate_failure (k : FirestoreErrorCode) (m extra : String) (s : Status)
    (hs : Status.create k m = some s) :
    (extra ≠ "" →
      ∃ t, s.Annotate extra = some t ∧ t.ok = false ∧ t.code = k ∧
        t.error_message = if m = "" then extra else m ++ "; " ++ extra) ∧
    s.Annotate "" = some s := by
  obtain ⟨hk, rfl⟩ := (create_some_iff k m s).mp hs
  refine ⟨?_, Annotate_empty _⟩
  intro he
  exact ⟨_, Annotate_failure k m extra hk he, rfl, rfl, rfl⟩

/-- C10 (amended) at the failure with message `"m1"` annotated with `"m2"`: the
message becomes `"m1; m2"`. -/
theorem C10_Annotate_failure_witness :
    Status.create FirestoreErrorCode.NotFound "m1"
      = some ⟨some ⟨FirestoreErrorCode.NotFound, "m1"⟩⟩ ∧
    ∃ t, Status.Annotate ⟨some ⟨FirestoreErrorCode.NotFound, "m1"⟩⟩ "m2" = some t ∧
      t.ok = false ∧ t.code = FirestoreErrorCode.NotFound ∧
      t.error_message = "m1; m2" := by
  refine ⟨by decide, ?_⟩
  obtain ⟨t, h1, h2, h3, h4⟩ :=
    (C10_Annotate_failure FirestoreErrorCode.NotFound "m1" "m2"
      ⟨some ⟨FirestoreErrorCode.NotFound, "m1"⟩⟩ (by decide)).1 (by decide)
  exact ⟨t, h1, h2, h3, h4.trans (by decide)⟩

/-! ## C11: `Annotate` on a success -/

/-- C11: for every annotation string, empty or not, `OK().Annotate(extra)` is
the success Status. -/
theorem C11_Annotate_success (extra : String) :
    Status.OK.Annotate extra = some Status.OK := by
  simp [Status.Annotate, Status.ok, Status.OK]

/-! ## C12: `Annotate` keeps the kind and the prior message -/

/-- C12: for every failing Status `s` and every string `extra`,
`s.Annotate(extra)` is a failure of the same kind and the message of `s` is a
prefix of its message. -/
theorem C12_Annotate_keeps_kind_and_message (k : FirestoreErrorCode) (m extra : String)
    (s : Status) (hs : Status.create k m = some s) :
    ∃ t, s.Annotate extra = some t ∧ t.ok = false ∧ t.code = s.code ∧
      ∃ suffix, t.error_message = s.error_message ++ suffix := by
  obtain ⟨hk, rfl⟩ := (create_some_iff k m s).mp hs
  by_cases he : extra = ""
  · subst he
    exact ⟨_, Annotate_empty _, rfl, rfl, "", by simp⟩
  · refine ⟨_, Annotate_failure k m extra hk he, rfl, rfl, ?_⟩
    by_cases hm : m = ""
    · subst hm
      exact ⟨extra, by simp [Status.error_message]⟩
    · exact ⟨"; " ++ extra, by simp [Status.error_message, hm, String.append_assoc]⟩

/-- C12 at the failure `(NotFound, "m1")` annotated with `"m2"`. -/
theorem C12_Annotate_keeps_kind_and_message_witness :
    Status.create FirestoreErrorCode.NotFound "m1"
      = some ⟨some ⟨FirestoreErrorCode.NotFound, "m1"⟩⟩ ∧
    ∃ t, Status.Annotate ⟨some ⟨FirestoreErrorCode.NotFound, "m1"⟩⟩ "m2" = some t ∧
      t.ok = false ∧ t.code = FirestoreErrorCode.NotFound ∧
      ∃ suffix, t.error_message = "m1" ++ suffix :=
  ⟨by decide,
   C12_Annotate_keeps_kind_and_message FirestoreErrorCode.NotFound "m1" "m2"
     ⟨some ⟨FirestoreErrorCode.NotFound, "m1"⟩⟩ (by decide)⟩

/-! ## C13: `Update` keeps the first error -/

theorem ok_iff_eq_OK (s : Status) : s.ok = true ↔ s = Status.OK := by
  obtain ⟨st⟩ := s
  cases st <;> simp [Status.ok, Status.OK]

theorem Update_of_ok (s t : Status) (h : s.ok = true) : s.Update t = t := by
  simp [Status.Update, h]

theorem Update_of_failure (s t : Status) (h : s.ok = false) : s.Update t = s := by
  simp [Status.Update, h]

theorem foldl_Update_of_failure (s : Status) (h : s.ok = false) (l : List Status) :
    l.foldl Status.Update s = s := by
  induction l with
  | nil => rfl
  | cons a t ih => rw [List.foldl_cons, Update_of_failure s a h, ih]

/-- C13: `s.Update(t)` makes `s` equal to `t` when `s` was a success and leaves
`s` unchanged when it was a failure; folding `Update` over a sequence, starting
from success, gives the first failing Status of the sequence, or success when
none fails. -/
theorem C13_Update_keeps_first_error :
    (∀ s t : Status, s.ok = true → s.Update t = t) ∧
    (∀ s t : Status, s.ok = false → s.Update t = s) ∧
    (∀ l : List Status,
      l.foldl Status.Update Status.OK
        = (l.find? (fun s => !s.ok)).getD Status.OK) := by
  refine ⟨Update_of_ok, Update_of_failure, ?_⟩
  intro l
  induction l with
  | nil => rfl
  | cons a t ih =>
    rw [List.foldl_cons, Update_of_ok Status.OK a rfl]
    cases h : a.ok with
    | true =>
      rw [(ok_iff_eq_OK a).mp h, ih]
      simp [List.find?, Status.ok, Status.OK]
    | false =>
      rw [foldl_Update_of_failure a h t]
      simp [List.find?, h]

/-! ## C14: rendering -/

/-- C14: `ToString` of the success Status is `"OK"`; for each of the sixteen
kinds other than `Ok`, with its canonical name, and every message `m`, the
failure renders as the name, then `": "`, then `m`; so the rendered string
contains the kind name and ends with the whole message. -/
theorem C14_ToString (unknown_code : FirestoreErrorCode → String) :
    Status.ToString unknown_code Status.OK = "OK" ∧
    (∀ k, k ≠ FirestoreErrorCode.Ok → ∃ name, (k, name) ∈ canonicalKindNames) ∧
    canonicalKindNames.length = 16 ∧
    (∀ k name m, (k, name) ∈ canonicalKindNames →
      ∃ s, Status.create k m = some s ∧
        Status.ToString unknown_code s = name ++ ": " ++ m ∧
        (∃ post, Status.ToString unknown_code s = name ++ post) ∧
        (∃ pre, Status.ToString unknown_code s = pre ++ m)) := by
  refine ⟨rfl, ?_, rfl, ?_⟩
  · intro k hk
    cases k <;> first | exact absurd rfl hk | simp [canonicalKindNames]
  · intro k name m hmem
    have hk : k ≠ FirestoreErrorCode.Ok := by
      rintro rfl
      simp [canonicalKindNames] at hmem
    have hts : Status.ToString unknown_code ⟨some ⟨k, m⟩⟩ = name ++ ": " ++ m := by
      simp only [canonicalKindNames, List.mem_cons, Prod.mk.injEq, List.mem_singleton,
        List.not_mem_nil, or_false] at hmem
      rcases hmem with h | h | h | h | h | h | h | h | h | h | h | h | h | h | h | h <;>
        (obtain ⟨rfl, rfl⟩ := h; rfl)
    refine ⟨_, create_eq_some k m hk, hts, ⟨": " ++ m, ?_⟩, ⟨name ++ ": ", hts⟩⟩
    rw [hts, String.append_assoc]

/-! ## C15: the Status invariant -/

/-- The representation invariant: a failure never stores the kind `Ok`. -/
theorem Obtainable_state (s : Status) (h : Status.Obtainable s) :
    ∀ st, s.state_ = some st → st.code ≠ FirestoreErrorCode.Ok := by
  induction h with
  | success => intro st hst; simp [Status.OK] at hst
  | failure code msg s hs =>
    obtain ⟨hk, rfl⟩ := (create_some_iff code msg s).mp hs
    intro st hst
    simp at hst
    subst hst
    exact hk
  | annotate s t msg _ hann ih =>
    unfold Status.Annotate at hann
    split at hann
    · cases hann; exact ih
    · obtain ⟨hk, rfl⟩ := (create_some_iff _ _ t).mp hann
      intro st hst
      simp at hst
      subst hst
      exact hk
  | update s t _ _ ihs iht =>
    unfold Status.Update
    split
    · exact iht
    · exact ihs

/-- C15: every Status obtainable from the success constructor, the failure
constructor (when it does not abort), `Annotate` and `Update` is ok exactly
when its code is `Ok`, has an empty message when it is ok, and is the success
Status when its code is `Ok`. -/
theorem C15_Status_invariant (s : Status) (h : Status.Obtainable s) :
    (s.ok = true ↔ s.code = FirestoreErrorCode.Ok) ∧
    (s.ok = true → s.error_message = "") ∧
    (s.code = FirestoreErrorCode.Ok → s = Status.OK) := by
  have hinv := Obtainable_state s h
  obtain ⟨st⟩ := s
  cases st with
  | none => simp [Status.ok, Status.code, Status.error_message, Status.OK]
  | some st =>
    have hne : st.code ≠ FirestoreErrorCode.Ok := hinv st rfl
    simp [Status.ok, Status.code, Status.OK, hne]

/-- C15 at the Status obtained by constructing `(NotFound, "m1")`, annotating it
with `"m2"` and updating the success Status with the result. -/
theorem C15_Status_invariant_witness :
    Status.Obtainable
      (Status.OK.Update ⟨some ⟨FirestoreErrorCode.NotFound, "m1; m2"⟩⟩) ∧
    ((Status.OK.Update ⟨some ⟨FirestoreErrorCode.NotFound, "m1; m2"⟩⟩).ok = true ↔
      (Status.OK.Update ⟨some ⟨FirestoreErrorCode.NotFound, "m1; m2"⟩⟩).code
        = FirestoreErrorCode.Ok) :=
  have hob : Status.Obtainable
      (Status.OK.Update ⟨some ⟨FirestoreErrorCode.NotFound, "m1; m2"⟩⟩) :=
    Status.Obtainable.update _ _ Status.Obtainable.success
      (Status.Obtainable.annotate ⟨some ⟨FirestoreErrorCode.NotFound, "m1"⟩⟩ _ "m2"
        (Status.Obtainable.failure FirestoreErrorCode.NotFound "m1" _ (by decide))
        (by decide))
  ⟨hob, (C15_Status_invariant _ hob).1⟩

/-! ## C16 and C17: the mapping of native error codes -/

theorem switchCase_iff {ι β : Type} [DecidableEq β] (value : ι → Option β) (x : β)
    (labels : List ι) :
    switchCase value x labels = true ↔ ∃ n ∈ labels, value n = some x := by
  simp [switchCase, List.any_eq_true]

theorem Errno_listed : ∀ n : Errno, ∃ g ∈ CodeForErrnoCases, n ∈ g.1 := by
  decide!

theorem CodeForErrnoCases_not_Unknown :
    ∀ g ∈ CodeForErrnoCases, g.2 ≠ FirestoreErrorCode.Unknown := by
  decide

theorem CodeForErrno_eq_Unknown_iff (value : Errno → Option Int) (x : Int) :
    CodeForErrno value x = FirestoreErrorCode.Unknown ↔
      x ≠ 0 ∧ ∀ n, value n ≠ some x := by
  unfold CodeForErrno
  by_cases hx : x = 0
  · simp [hx]
  · simp only [hx, if_false, ne_eq, not_false_eq_true, true_and]
    cases hf : CodeForErrnoCases.find? (fun group => switchCase value x group.1) with
    | none =>
      simp only [true_iff]
      intro n hn
      obtain ⟨g, hg, hng⟩ := Errno_listed n
      have hfalse := List.find?_eq_none.mp hf g hg
      exact hfalse ((switchCase_iff value x g.1).mpr ⟨n, hng, hn⟩)
    | some g =>
      have hmem : g ∈ CodeForErrnoCases := List.mem_of_find?_eq_some hf
      have hsw : switchCase value x g.1 = true := by
        simpa using List.find?_some hf
      obtain ⟨n, _, hn⟩ := (switchCase_iff value x g.1).mp hsw
      constructor
      · intro hu
        exact absurd hu (CodeForErrnoCases_not_Unknown g hmem)
      · intro hall
        exact absurd hn (hall n)

/-- C16: `CodeForErrno` is defined on every integer; a code maps to `Unknown`
exactly when it is not one of the listed codes (`0` or the value of a named
constant), so no listed code maps to `Unknown`, in particular none of those
mapped to `ResourceExhausted`; a negative code and a code above every `errno`
constant map to `Unknown`. -/
theorem C16_CodeForErrno_Unknown (value : Errno → Option Int) (x : Int) :
    (∃ k, CodeForErrno value x = k) ∧
    (CodeForErrno value x = FirestoreErrorCode.Unknown ↔
      x ≠ 0 ∧ ∀ n, value n ≠ some x) ∧
    (CodeForErrno value x = FirestoreErrorCode.ResourceExhausted →
      CodeForErrno value x ≠ FirestoreErrorCode.Unknown) ∧
    CodeForErrno linuxErrno (-1) = FirestoreErrorCode.Unknown ∧
    CodeForErrno linuxErrno 1000000 = FirestoreErrorCode.Unknown := by
  refine ⟨⟨_, rfl⟩, CodeForErrno_eq_Unknown_iff value x, ?_, by decide, by decide⟩
  intro h
  rw [h]
  decide

/-- With distinct case labels, the label that holds the switch value decides the
group: the test of a group is whether it lists that label. -/
theorem switchCase_of_label {ι β : Type} [DecidableEq ι] [DecidableEq β]
    (value : ι → Option β)
    (hdistinct : ∀ a b, value a ≠ none → value a = value b → a = b)
    (n : ι) (x : β) (h : value n = some x) (labels : List ι) :
    switchCase value x labels = labels.contains n := by
  have hc : labels.contains n = true ↔ n ∈ labels := by simp
  rw [Bool.eq_iff_iff, switchCase_iff, hc]
  constructor
  · rintro ⟨m, hm, hmx⟩
    have : m = n := hdistinct m n (by simp [hmx]) (hmx.trans h.symm)
    exact this ▸ hm
  · intro hn
    exact ⟨n, hn, h⟩

theorem CodeForErrno_of_label (value : Errno → Option Int)
    (hdistinct : ∀ a b, value a ≠ none → value a = value b → a = b)
    (hnonzero : ∀ a, value a ≠ some 0) (n : Errno) (x : Int) (h : value n = some x) :
    CodeForErrno value x =
      match CodeForErrnoCases.find? (fun group => group.1.contains n) with
      | some group => group.2
      | none => FirestoreErrorCode.Unknown := by
  have hx : x ≠ 0 := fun e => hnonzero n (e ▸ h)
  have hp : (fun group : List Errno × FirestoreErrorCode => switchCase value x group.1)
      = (fun group => group.1.contains n) :=
    funext fun group => switchCase_of_label value hdistinct n x h group.1
  simp only [CodeForErrno, hx, if_false, hp]

theorem CodeFromLastError_of_label (value : WinError → Option Nat)
    (hdistinct : ∀ a b, value a ≠ none → value a = value b → a = b)
    (n : WinError) (x : Nat) (h : value n = some x) :
    CodeFromLastError value x =
      match CodeFromLastErrorCases.find? (fun group => group.1.contains n) with
      | some group => group.2
      | none => FirestoreErrorCode.Unknown := by
  have hp : (fun group : List WinError × FirestoreErrorCode => switchCase value x group.1)
      = (fun group => group.1.contains n) :=
    funext fun group => switchCase_of_label value hdistinct n x h group.1
  simp only [CodeFromLastError, hp]

/-- C17: whatever the values of the constants, as long as the case labels are
distinct (as a switch requires) and no `errno` constant is `0`: `ENOSPC`,
`EMFILE` and `ENFILE` map to `ResourceExhausted`, `ENOTEMPTY` and `ETXTBSY` map
to `FailedPrecondition`, and on the Windows mapping `ERROR_DISK_FULL` and
`ERROR_TOO_MANY_OPEN_FILES` map to `ResourceExhausted`. -/
theorem C17_grouping_by_consequence (value : Errno → Option Int)
    (hdistinct : ∀ a b, value a ≠ none → value a = value b → a = b)
    (hnonzero : ∀ a, value a ≠ some 0)
    (wvalue : WinError → Option Nat)
    (hwdistinct : ∀ a b, wvalue a ≠ none → wvalue a = wvalue b → a = b) :
    (∀ x, value Errno.ENOSPC = some x →
      CodeForErrno value x = FirestoreErrorCode.ResourceExhausted) ∧
    (∀ x, value Errno.EMFILE = some x →
      CodeForErrno value x = FirestoreErrorCode.ResourceExhausted) ∧
    (∀ x, value Errno.ENFILE = some x →
      CodeForErrno value x = FirestoreErrorCode.ResourceExhausted) ∧
    (∀ x, value Errno.ENOTEMPTY = some x →
      CodeForErrno value x = FirestoreErrorCode.FailedPrecondition) ∧
    (∀ x, value Errno.ETXTBSY = some x →
      CodeForErrno value x = FirestoreErrorCode.FailedPrecondition) ∧
    (∀ x, wvalue WinError.ERROR_DISK_FULL = some x →
      CodeFromLastError wvalue x = FirestoreErrorCode.ResourceExhausted) ∧
    (∀ x, wvalue WinError.ERROR_TOO_MANY_OPEN_FILES = some x →
      CodeFromLastError wvalue x = FirestoreErrorCode.ResourceExhausted) := by
  refine ⟨?_, ?_, ?_, ?_, ?_, ?_, ?_⟩
  · intro x h
    rw [CodeForErrno_of_label value hdistinct hnonzero _ x h]; rfl
  · intro x h
    rw [CodeForErrno_of_label value hdistinct hnonzero _ x h]; rfl
  · intro x h
    rw [CodeForErrno_of_label value hdistinct hnonzero _ x h]; rfl
  · intro x h
    rw [CodeForErrno_of_label value hdistinct hnonzero _ x h]; rfl
  · intro x h
    rw [CodeForErrno_of_label value hdistinct hnonzero _ x h]; rfl
  · intro x h
    rw [CodeFromLastError_of_label wvalue hwdistinct _ x h]; rfl
  · intro x h
    rw [CodeFromLastError_of_label wvalue hwdistinct _ x h]; rfl

/-- C17 at the Linux values of the `errno` constants and the Windows values of
the error constants: `ENOSPC` is 28, `EMFILE` 24, `ENFILE` 23, `ENOTEMPTY` 39,
`ETXTBSY` 26, `ERROR_DISK_FULL` 112, `ERROR_TOO_MANY_OPEN_FILES` 4. -/
theorem C17_grouping_by_consequence_witness :
    CodeForErrno linuxErrno 28 = FirestoreErrorCode.ResourceExhausted ∧
    CodeForErrno linuxErrno 24 = FirestoreErrorCode.ResourceExhausted ∧
    CodeForErrno linuxErrno 23 = FirestoreErrorCode.ResourceExhausted ∧
    CodeForErrno linuxErrno 39 = FirestoreErrorCode.FailedPrecondition ∧
    CodeForErrno linuxErrno 26 = FirestoreErrorCode.FailedPrecondition ∧
    CodeFromLastError winerror 112 = FirestoreErrorCode.ResourceExhausted ∧
    CodeFromLastError winerror 4 = FirestoreErrorCode.ResourceExhausted :=
  have h := C17_grouping_by_consequence linuxErrno (by decide!) (by decide!) winerror
    (by decide!)
  ⟨h.1 28 rfl, h.2.1 24 rfl, h.2.2.1 23 rfl, h.2.2.2.1 39 rfl, h.2.2.2.2.1 26 rfl,
   h.2.2.2.2.2.1 112 rfl, h.2.2.2.2.2.2 4 rfl⟩

/-! ## `RecursivelyCreate` -/

theorem RecursivelyCreate_succ {σ : Type} (plat : Platform)
    (Create : Path → σ → Status × σ) (fuel : Nat) (path : Path) (world : σ) :
    Dir.RecursivelyCreate plat Create (fuel + 1) path world =
      if (Create path world).1.ok
          || (Create path world).1.code != FirestoreErrorCode.NotFound then
        some (Create path world)
      else
        match Dir.RecursivelyCreate plat Create fuel (path.Dirname plat)
            (Create path world).2 with
        | none => none
        | some (result, world2) =>
          if !result.ok then some (result, world2) else some (Create path world2) :=
  rfl

theorem RecursivelyCreate_done {σ : Type} (plat : Platform)
    (Create : Path → σ → Status × σ) (fuel : Nat) (path : Path) (world : σ)
    (h : (Create path world).1.ok = true ∨
      (Create path world).1.code ≠ FirestoreErrorCode.NotFound) :
    Dir.RecursivelyCreate plat Create (fuel + 1) path world = some (Create path world) := by
  rw [RecursivelyCreate_succ]
  have hc : ((Create path world).1.ok
      || (Create path world).1.code != FirestoreErrorCode.NotFound) = true := by
    rcases h with h | h
    · simp [h]
    · simp [h]
  rw [if_pos hc]

theorem RecursivelyCreate_recurse {σ : Type} (plat : Platform)
    (Create : Path → σ → Status × σ) (fuel : Nat) (path : Path) (world : σ)
    (hfail : (Create path world).1.ok = false)
    (hnf : (Create path world).1.code = FirestoreErrorCode.NotFound) :
    Dir.RecursivelyCreate plat Create (fuel + 1) path world =
      match Dir.RecursivelyCreate plat Create fuel (path.Dirname plat)
          (Create path world).2 with
      | none => none
      | some (result, world2) =>
        if !result.ok then some (result, world2) else some (Create path world2) := by
  rw [RecursivelyCreate_succ]
  have hc : ¬ ((Create path world).1.ok
      || (Create path world).1.code != FirestoreErrorCode.NotFound) = true := by
    simp [hfail, hnf]
  rw [if_neg hc]

/-- More fuel does not change a result already reached. -/
theorem RecursivelyCreate_fuel_succ {σ : Type} (plat : Platform)
    (Create : Path → σ → Status × σ) (fuel : Nat) :
    ∀ (path : Path) (world : σ) (r : Status × σ),
      Dir.RecursivelyCreate plat Create fuel path world = some r →
      Dir.RecursivelyCreate plat Create (fuel + 1) path world = some r := by
  induction fuel with
  | zero => intro path world r h; simp [Dir.RecursivelyCreate] at h
  | succ n ih =>
    intro path world r h
    rw [RecursivelyCreate_succ] at h ⊢
    split at h
    · rename_i hc
      rw [if_pos hc]; exact h
    · rename_i hc
      rw [if_neg hc]
      cases hrec : Dir.RecursivelyCreate plat Create n (path.Dirname plat)
          (Create path world).2 with
      | none => rw [hrec] at h; simp at h
      | some r2 =>
        rw [hrec] at h
        rw [ih _ _ r2 hrec]
        exact h

theorem Dirname_eq_take (plat : Platform) (p : Path) :
    ∃ k, p.Dirname plat = ⟨p.pathname_.take k⟩ := by
  unfold Path.Dirname PathView.Dirname
  simp only [PathView.ofPath, Path.ofView]
  split
  · exact ⟨0, rfl⟩
  · split
    · exact ⟨1, rfl⟩
    · exact ⟨_, rfl⟩

/-- `Dirname` returns a prefix, so it is strictly shorter unless it returns the
path itself. -/
theorem Dirname_length_lt (plat : Platform) (p : Path) (h : p.Dirname plat ≠ p) :
    (p.Dirname plat).pathname_.length < p.pathname_.length := by
  obtain ⟨k, hk⟩ := Dirname_eq_take plat p
  rw [hk] at h ⊢
  obtain ⟨l⟩ := p
  simp only [List.length_take]
  by_contra hlt
  have hle : l.length ≤ k := by omega
  exact h (by simp [List.take_of_length_le hle])

/-- `RecursivelyCreate` returns, with fuel above the length of the path, when
`Create` never fails with `NotFound` on a path that is its own `Dirname`. -/
theorem RecursivelyCreate_terminates {σ : Type} (plat : Platform)
    (Create : Path → σ → Status × σ)
    (hfix : ∀ p w, p.Dirname plat = p →
      (Create p w).1.ok = true ∨ (Create p w).1.code ≠ FirestoreErrorCode.NotFound)
    (n : Nat) :
    ∀ (path : Path) (world : σ), path.pathname_.length ≤ n →
      ∃ r, Dir.RecursivelyCreate plat Create (n + 1) path world = some r := by
  induction n with
  | zero =>
    intro path world hlen
    by_cases hd : path.Dirname plat = path
    · exact ⟨_, RecursivelyCreate_done plat Create 0 path world (hfix path world hd)⟩
    · have := Dirname_length_lt plat path hd
      omega
  | succ m ih =>
    intro path world hlen
    by_cases hc : (Create path world).1.ok = true ∨
        (Create path world).1.code ≠ FirestoreErrorCode.NotFound
    · exact ⟨_, RecursivelyCreate_done plat Create (m + 1) path world hc⟩
    · have hfail : (Create path world).1.ok = false := by
        cases hok : (Create path world).1.ok with
        | true => exact absurd (Or.inl hok) hc
        | false => rfl
      have hnf : (Create path world).1.code = FirestoreErrorCode.NotFound := by
        by_contra hne
        exact hc (Or.inr hne)
      have hd : path.Dirname plat ≠ path := fun e => hc (hfix path world e)
      have hlt := Dirname_length_lt plat path hd
      obtain ⟨r, hr⟩ := ih (path.Dirname plat) (Create path world).2 (by omega)
      rw [RecursivelyCreate_recurse plat Create (m + 1) path world hfail hnf, hr]
      obtain ⟨res, w2⟩ := r
      by_cases hres : res.ok = true
      · exact ⟨Create path w2, by simp [hres]⟩
      · exact ⟨(res, w2), by simp [hres]⟩

theorem logCreate_fst {σ : Type} (Create : Path → σ → Status × σ) (path : Path)
    (world : σ) (log : List Path) :
    Dir.logCreate Create path (world, log)
      = ((Create path world).1, ((Create path world).2, log ++ [path])) :=
  rfl

/-! ## C18: `RecursivelyCreate`, steps 1 and 2 -/

/-- C18: for every path and every behaviour of `Create`, if the first
`Create(path)` returns success or a failure whose kind is not `NotFound`, then
`RecursivelyCreate(path)` returns exactly that Status and the state left by that
call; with the calls logged, the log gains `path` once and nothing else. -/
theorem C18_RecursivelyCreate_first_create {σ : Type} (plat : Platform)
    (Create : Path → σ → Status × σ) (path : Path) (world : σ) (fuel : Nat)
    (h : (Create path world).1.ok = true ∨
      (Create path world).1.code ≠ FirestoreErrorCode.NotFound) :
    Dir.RecursivelyCreate plat Create (fuel + 1) path world = some (Create path world) ∧
    ∀ log, Dir.RecursivelyCreate plat (Dir.logCreate Create) (fuel + 1) path (world, log)
      = some ((Create path world).1, ((Create path world).2, log ++ [path])) := by
  refine ⟨RecursivelyCreate_done plat Create fuel path world h, ?_⟩
  intro log
  rw [RecursivelyCreate_done plat (Dir.logCreate Create) fuel path (world, log)
    (by simpa [logCreate_fst] using h), logCreate_fst]

/-- C18 on the model filesystem holding only `/`: `Create("/a")` succeeds, and
`RecursivelyCreate("/a")` returns that success after the single call. -/
theorem C18_RecursivelyCreate_first_create_witness :
    (modelCreate .posix (Path.FromUtf8 "/a") [Path.FromUtf8 "/"]).1.ok = true ∧
    Dir.RecursivelyCreate .posix (modelCreate .posix) 1 (Path.FromUtf8 "/a")
        [Path.FromUtf8 "/"]
      = some (Status.OK, [Path.FromUtf8 "/", Path.FromUtf8 "/a"]) ∧
    Dir.RecursivelyCreate .posix (Dir.logCreate (modelCreate .posix)) 1
        (Path.FromUtf8 "/a") ([Path.FromUtf8 "/"], [])
      = some (Status.OK, ([Path.FromUtf8 "/", Path.FromUtf8 "/a"], [Path.FromUtf8 "/a"])) :=
  have h := C18_RecursivelyCreate_first_create .posix (modelCreate .posix)
    (Path.FromUtf8 "/a") [Path.FromUtf8 "/"] 0 (Or.inl (by decide))
  ⟨by decide, h.1.trans (by decide), (h.2 []).trans (by decide)⟩

/-! ## C19: `RecursivelyCreate`, step 3 -/

/-- C19: when the first `Create(path)` fails with kind `NotFound`,
`RecursivelyCreate(path)` runs `RecursivelyCreate(Dirname(path))` from the state
that call left; if that run fails, its failure and state are the result, and
with the calls logged nothing is logged after it (`Create(path)` is not
retried); otherwise the result is that of one further `Create(path)`, and the
log gains `path` once more. A run of the parent that does not return makes the
whole run not return. -/
theorem C19_RecursivelyCreate_missing_parent {σ : Type} (plat : Platform)
    (Create : Path → σ → Status × σ) (path : Path) (world : σ) (fuel : Nat)
    (hfail : (Create path world).1.ok = false)
    (hnf : (Create path world).1.code = FirestoreErrorCode.NotFound) :
    (Dir.RecursivelyCreate plat Create fuel (path.Dirname plat) (Create path world).2 = none →
      Dir.RecursivelyCreate plat Create (fuel + 1) path world = none) ∧
    (∀ r w2,
      Dir.RecursivelyCreate plat Create fuel (path.Dirname plat) (Create path world).2
        = some (r, w2) →
      r.ok = false →
      Dir.RecursivelyCreate plat Create (fuel + 1) path world = some (r, w2)) ∧
    (∀ r w2,
      Dir.RecursivelyCreate plat Create fuel (path.Dirname plat) (Create path world).2
        = some (r, w2) →
      r.ok = true →
      Dir.RecursivelyCreate plat Create (fuel + 1) path world = some (Create path w2)) ∧
    (∀ log r w2 log2,
      Dir.RecursivelyCreate plat (Dir.logCreate Create) fuel (path.Dirname plat)
        ((Create path world).2, log ++ [path]) = some (r, (w2, log2)) →
      r.ok = false →
      Dir.RecursivelyCreate plat (Dir.logCreate Create) (fuel + 1) path (world, log)
        = some (r, (w2, log2))) ∧
    (∀ log r w2 log2,
      Dir.RecursivelyCreate plat (Dir.logCreate Create) fuel (path.Dirname plat)
        ((Create path world).2, log ++ [path]) = some (r, (w2, log2)) →
      r.ok = true →
      Dir.RecursivelyCreate plat (Dir.logCreate Create) (fuel + 1) path (world, log)
        = some ((Create path w2).1, ((Create path w2).2, log2 ++ [path]))) := by
  have hrec := RecursivelyCreate_recurse plat Create fuel path world hfail hnf
  have hlog := fun log =>
    RecursivelyCreate_recurse plat (Dir.logCreate Create) fuel path (world, log)
      (by simpa [logCreate_fst] using hfail) (by simpa [logCreate_fst] using hnf)
  simp only [logCreate_fst] at hlog
  refine ⟨?_, ?_, ?_, ?_, ?_⟩
  · intro h
    rw [hrec, h]
  · intro r w2 h hr
    rw [hrec, h]
    simp [hr]
  · intro r w2 h hr
    rw [hrec, h]
    simp [hr]
  · intro log r w2 log2 h hr
    rw [hlog, h]
    simp [hr]
  · intro log r w2 log2 h hr
    rw [hlog, h]
    simp [hr, logCreate_fst]

/-- C19 on the model filesystem holding only `/`: `Create("/a/b")` fails with
`NotFound`; the run on `/a` succeeds, then `Create("/a/b")` is called once more;
the calls are `/a/b`, `/a`, `/a/b`. -/
theorem C19_RecursivelyCreate_missing_parent_witness :
    (modelCreate .posix (Path.FromUtf8 "/a/b") [Path.FromUtf8 "/"]).1.ok = false ∧
    (modelCreate .posix (Path.FromUtf8 "/a/b") [Path.FromUtf8 "/"]).1.code
      = FirestoreErrorCode.NotFound ∧
    Dir.RecursivelyCreate .posix (Dir.logCreate (modelCreate .posix)) 2
        (Path.FromUtf8 "/a/b") ([Path.FromUtf8 "/"], [])
      = some (Status.OK,
          ([Path.FromUtf8 "/", Path.FromUtf8 "/a", Path.FromUtf8 "/a/b"],
           [Path.FromUtf8 "/a/b", Path.FromUtf8 "/a", Path.FromUtf8 "/a/b"])) :=
  have h := C19_RecursivelyCreate_missing_parent .posix (modelCreate .posix)
    (Path.FromUtf8 "/a/b") [Path.FromUtf8 "/"] 1 (by decide) (by decide)
  ⟨by decide, by decide,
   (h.2.2.2.2 [] Status.OK [Path.FromUtf8 "/", Path.FromUtf8 "/a"]
      [Path.FromUtf8 "/a/b", Path.FromUtf8 "/a"] (by decide) (by decide)).trans
      (by decide)⟩

/-! ## C20: termination of `RecursivelyCreate` -/

/-- C20 fails on the code at the empty path: `emptyPathCreate` never fails with
`NotFound` at the root `/`, yet `RecursivelyCreate("")` does not return,
whatever the bound on the depth of the recursion, because `Dirname("")` is `""`
again. -/
theorem C20_RecursivelyCreate_empty_path_diverges :
    (∀ world, (emptyPathCreate (Path.FromUtf8 "/") world).1.ok = true) ∧
    (∀ world, (emptyPathCreate (Path.FromUtf8 "/") world).1.code
      ≠ FirestoreErrorCode.NotFound) ∧
    Path.Dirname .posix (Path.FromUtf8 "") = Path.FromUtf8 "" ∧
    (∀ fuel world,
      Dir.RecursivelyCreate .posix emptyPathCreate fuel (Path.FromUtf8 "") world = none) := by
  refine ⟨fun _ => rfl, fun _ => by simp [emptyPathCreate, Path.FromUtf8, Status.code,
    Status.OK], by decide, ?_⟩
  intro fuel
  induction fuel with
  | zero => intro world; rfl
  | succ n ih =>
    intro world
    rw [RecursivelyCreate_recurse .posix emptyPathCreate n (Path.FromUtf8 "") world
      rfl rfl]
    have hd : Path.Dirname .posix (Path.FromUtf8 "") = Path.FromUtf8 "" := by decide
    rw [hd, ih]

/-! ## C21: `Dirname` and the length of the path -/

/-- The paths that `Dirname` returns unchanged are the empty path and the paths
made of one separator. -/
theorem Dirname_eq_self_iff (plat : Platform) (p : List Char) :
    PathView.Dirname plat ⟨p⟩ = ⟨p⟩ ↔
      p = [] ∨ ∃ c, p = [c] ∧ IsSeparator plat c = true := by
  rcases exists_last_split (IsSeparator plat) p with hfree | ⟨pre, c, b, rfl, hc, hb⟩
  · rw [Dirname_of_free plat p hfree]
    constructor
    · intro h
      left
      exact (PathView.mk.inj h).symm
    · rintro (rfl | ⟨c, rfl, hc⟩)
      · rfl
      · have := hfree c (List.mem_singleton_self c)
        rw [hc] at this
        exact absurd this (by decide)
  · rcases seps_or_split plat pre with hs | ⟨d, x, run, rfl, hx, hrun⟩
    · rw [Dirname_of_seps plat pre b c hs hc hb]
      constructor
      · intro h
        have hl := congrArg List.length (PathView.mk.inj h)
        simp only [List.length_take, List.length_append, List.length_cons] at hl
        have hpre : pre = [] := List.length_eq_zero.mp (by omega)
        have hb0 : b = [] := List.length_eq_zero.mp (by omega)
        subst hpre hb0
        right
        exact ⟨c, rfl, hc⟩
      · rintro (h | ⟨c2, h, _⟩)
        · simp at h
        · have hl := congrArg List.length h
          simp only [List.length_append, List.length_cons, List.length_nil,
            List.length_singleton] at hl
          have hpre : pre = [] := List.length_eq_zero.mp (by omega)
          have hb0 : b = [] := List.length_eq_zero.mp (by omega)
          subst hpre hb0
          rfl
    · rw [Dirname_split plat d run b x c hx hrun hc hb]
      constructor
      · intro h
        have hl := congrArg List.length (PathView.mk.inj h)
        simp only [List.length_append, List.length_cons, List.length_nil] at hl
        omega
      · rintro (h | ⟨c2, h, _⟩)
        · simp at h
        · have hl := congrArg List.length h
          simp only [List.length_append, List.length_cons, List.length_nil,
            List.length_singleton] at hl
          omega

/-- C21 as stated fails: `/` is not empty and `Dirname("/")` is `/`, of the same
length. -/
theorem C21_Dirname_shortens_counterexample :
    (Path.FromUtf8 "/").pathname_ ≠ [] ∧
    Path.Dirname .posix (Path.FromUtf8 "/") = Path.FromUtf8 "/" ∧
    ¬ ((Path.Dirname .posix (Path.FromUtf8 "/")).pathname_.length
        < (Path.FromUtf8 "/").pathname_.length) := by
  decide

/-- C21, amended: for every path that is neither empty nor a single separator,
`Dirname(p)` is strictly shorter than `p`. -/
theorem C21_Dirname_shortens (plat : Platform) (p : Path)
    (hne : p.pathname_ ≠ [])
    (hsep : ¬ ∃ c, p.pathname_ = [c] ∧ IsSeparator plat c = true) :
    (p.Dirname plat).pathname_.length < p.pathname_.length := by
  apply Dirname_length_lt
  intro h
  obtain ⟨l⟩ := p
  have h2 : PathView.Dirname plat ⟨l⟩ = ⟨l⟩ := by
    have := congrArg Path.pathname_ h
    simp only [Path.Dirname, Path.ofView, PathView.ofPath] at this
    cases hd : PathView.Dirname plat ⟨l⟩ with
    | mk q => rw [hd] at this; simp at this; rw [this]
  rcases (Dirname_eq_self_iff plat l).mp h2 with h3 | h3
  · exact hne h3
  · exact hsep h3

/-- C21 (amended) at `/a/b`, whose `Dirname` is `/a`. -/
theorem C21_Dirname_shortens_witness :
    (Path.FromUtf8 "/a/b").pathname_ ≠ [] ∧
    (Path.Dirname .posix (Path.FromUtf8 "/a/b")).pathname_.length
      < (Path.FromUtf8 "/a/b").pathname_.length :=
  ⟨by decide,
   C21_Dirname_shortens .posix (Path.FromUtf8 "/a/b") (by decide) (by
     rintro ⟨c, h, _⟩
     have hl := congrArg List.length h
     simp [Path.FromUtf8] at hl)⟩

/-! ## C22: `RecursivelyCreate` on the model filesystem -/

theorem absolutePathChars_append (cs : List (List Char)) (c : List Char) :
    absolutePathChars (cs ++ [c]) = absolutePathChars cs ++ '/' :: c := by
  induction cs with
  | nil => simp [absolutePathChars]
  | cons a t ih => simp [absolutePathChars, ih]

theorem absolutePath_snoc (cs : List (List Char)) (c : List Char) :
    absolutePath (cs ++ [c]) = ⟨absolutePathChars cs ++ '/' :: c⟩ := by
  simp [absolutePath, absolutePathChars_append]

/-- The `Dirname` of `/c1/.../cn/c` is `/c1/.../cn`. -/
theorem Dirname_absolutePath_snoc (cs : List (List Char)) (c : List Char)
    (hvalid : ∀ x ∈ cs ++ [c], x ≠ [] ∧ '/' ∉ x) :
    (absolutePath (cs ++ [c])).Dirname .posix = absolutePath cs := by
  have hc : '/' ∉ c := (hvalid c (by simp)).2
  rw [absolutePath_snoc]
  simp only [Path.Dirname, Path.ofView, PathView.ofPath]
  rcases List.eq_nil_or_concat cs with rfl | ⟨cs2, c2, rfl⟩
  · have h := Dirname_of_seps .posix [] c '/' (by simp) (by decide) (free_of_not_mem c hc)
    simp only [List.nil_append] at h
    simp only [absolutePathChars, List.nil_append, h]
    rfl
  · have hc2 := hvalid c2 (by simp)
    obtain ⟨c3, x, rfl⟩ : ∃ c3 x, c2 = c3 ++ [x] := by
      rcases List.eq_nil_or_concat c2 with h | ⟨c3, x, h⟩
      · exact absurd h hc2.1
      · exact ⟨c3, x, by simpa using h⟩
    have hx : IsSeparator .posix x = false :=
      free_of_not_mem _ hc2.2 x (by simp)
    have h := Dirname_split .posix (absolutePathChars cs2 ++ '/' :: c3) [] c x '/' hx
      (by simp) (by decide) (free_of_not_mem c hc)
    have e1 : absolutePathChars (cs2 ++ [c3 ++ [x]]) ++ '/' :: c
        = absolutePathChars cs2 ++ '/' :: c3 ++ x :: [] ++ '/' :: c := by
      simp [absolutePathChars_append]
    have e2 : absolutePath (cs2 ++ [c3 ++ [x]])
        = ⟨absolutePathChars cs2 ++ '/' :: c3 ++ [x]⟩ := by
      rw [absolutePath_snoc]; simp
    rw [List.concat_eq_append, e1, h, e2]

/-- In a set of directories closed under `Dirname`, every prefix
`/c1/.../ck` of an existing `/c1/.../cn` exists. -/
theorem prefixes_mem_of_closed (dirs : List Path)
    (hclosed : ∀ d ∈ dirs, d.Dirname .posix ∈ dirs) (cs : List (List Char)) :
    (∀ x ∈ cs, x ≠ [] ∧ '/' ∉ x) → absolutePath cs ∈ dirs →
      ∀ k, k ≤ cs.length → absolutePath (cs.take k) ∈ dirs := by
  induction cs using List.reverseRecOn with
  | nil => intro _ h k _; simpa using h
  | append_singleton cs c ih =>
    intro hvalid hmem k hk
    have hparent : absolutePath cs ∈ dirs := by
      rw [← Dirname_absolutePath_snoc cs c hvalid]
      exact hclosed _ hmem
    by_cases hk2 : k ≤ cs.length
    · rw [List.take_append_of_le_length hk2]
      exact ih (fun x hx => hvalid x (by simp [hx])) hparent k hk2
    · have : k = (cs ++ [c]).length := by simp at hk ⊢; omega
      rw [this, List.take_length]
      exact hmem

theorem modelCreate_of_mem (path : Path) (dirs : List Path) (h : path ∈ dirs) :
    modelCreate .posix path dirs = (Status.OK, dirs) := by
  simp [modelCreate, h]

theorem modelCreate_ok (path : Path) (dirs : List Path)
    (h : path ∈ dirs ∨ path.Dirname .posix ∈ dirs) :
    (modelCreate .posix path dirs).1 = Status.OK ∧
    path ∈ (modelCreate .posix path dirs).2 ∧
    ∀ d ∈ dirs, d ∈ (modelCreate .posix path dirs).2 := by
  unfold modelCreate
  by_cases h1 : path ∈ dirs
  · simp [h1]
  · have h2 : path.Dirname .posix ∈ dirs := h.resolve_left h1
    exact ⟨by simp [h1, h2], by simp [h1, h2], fun d hd => by simp [h1, h2, hd]⟩

/-- The run of `RecursivelyCreate` on `/c1/.../cn` over the model filesystem. -/
theorem RecursivelyCreate_model (cs : List (List Char)) :
    (∀ x ∈ cs, x ≠ [] ∧ '/' ∉ x) →
    ∀ dirs : List Path, absolutePath [] ∈ dirs →
      (∀ d ∈ dirs, d.Dirname .posix ∈ dirs) →
      ∃ dirs2, Dir.RecursivelyCreate .posix (modelCreate .posix) (cs.length + 1)
          (absolutePath cs) dirs = some (Status.OK, dirs2) ∧
        (∀ d ∈ dirs, d ∈ dirs2) ∧
        (∀ k, k ≤ cs.length → absolutePath (cs.take k) ∈ dirs2) := by
  induction cs using List.reverseRecOn with
  | nil =>
    intro _ dirs hroot _
    refine ⟨dirs, ?_, fun d hd => hd, ?_⟩
    · show Dir.RecursivelyCreate .posix (modelCreate .posix) (0 + 1) (absolutePath []) dirs
        = some (Status.OK, dirs)
      rw [RecursivelyCreate_done .posix (modelCreate .posix) 0 _ dirs
        (Or.inl (by rw [modelCreate_of_mem _ _ hroot]; rfl)), modelCreate_of_mem _ _ hroot]
    · intro k _
      simpa using hroot
  | append_singleton cs c ih =>
    intro hvalid dirs hroot hclosed
    have hvalid2 : ∀ x ∈ cs, x ≠ [] ∧ '/' ∉ x := fun x hx => hvalid x (by simp [hx])
    have hdir := Dirname_absolutePath_snoc cs c hvalid
    have hlen : (cs ++ [c]).length + 1 = (cs.length + 1) + 1 := by simp
    have hprefix : ∀ dirs2 : List Path, absolutePath (cs ++ [c]) ∈ dirs2 →
        (∀ k, k ≤ cs.length → absolutePath (cs.take k) ∈ dirs2) →
        ∀ k, k ≤ (cs ++ [c]).length → absolutePath ((cs ++ [c]).take k) ∈ dirs2 := by
      intro dirs2 hp hpre k hk
      by_cases hk2 : k ≤ cs.length
      · rw [List.take_append_of_le_length hk2]
        exact hpre k hk2
      · have : k = (cs ++ [c]).length := by simp at hk ⊢; omega
        rw [this, List.take_length]
        exact hp
    by_cases hcase : absolutePath (cs ++ [c]) ∈ dirs ∨ absolutePath cs ∈ dirs
    · have hcase2 : absolutePath (cs ++ [c]) ∈ dirs ∨
          (absolutePath (cs ++ [c])).Dirname .posix ∈ dirs := by
        rw [hdir]; exact hcase
      obtain ⟨hok, hmem, hsub⟩ := modelCreate_ok _ dirs hcase2
      have hparent : absolutePath cs ∈ dirs := by
        rcases hcase with h | h
        · rw [← hdir]; exact hclosed _ h
        · exact h
      refine ⟨(modelCreate .posix (absolutePath (cs ++ [c])) dirs).2, ?_, hsub, ?_⟩
      · rw [hlen, RecursivelyCreate_done .posix (modelCreate .posix) _ _ dirs
          (Or.inl (by rw [hok]; rfl))]
        rw [← hok]
      · exact hprefix _ hmem (fun k hk =>
          hsub _ (prefixes_mem_of_closed dirs hclosed cs hvalid2 hparent k hk))
    · have h1 : absolutePath (cs ++ [c]) ∉ dirs := fun h => hcase (Or.inl h)
      have h2 : (absolutePath (cs ++ [c])).Dirname .posix ∉ dirs := by
        rw [hdir]; exact fun h => hcase (Or.inr h)
      have hcreate : modelCreate .posix (absolutePath (cs ++ [c])) dirs
          = (⟨some ⟨FirestoreErrorCode.NotFound, "Could not create directory"⟩⟩, dirs) := by
        simp [modelCreate, h1, h2]
      obtain ⟨dirs1, hrun, hsub1, hpre1⟩ := ih hvalid2 dirs hroot hclosed
      have hparent1 : (absolutePath (cs ++ [c])).Dirname .posix ∈ dirs1 := by
        rw [hdir]
        have := hpre1 cs.length (Nat.le_refl _)
        rwa [List.take_length] at this
      obtain ⟨hok, hmem, hsub2⟩ := modelCreate_ok (absolutePath (cs ++ [c])) dirs1
        (Or.inr hparent1)
      refine ⟨(modelCreate .posix (absolutePath (cs ++ [c])) dirs1).2, ?_,
        fun d hd => hsub2 d (hsub1 d hd), ?_⟩
      · rw [hlen, RecursivelyCreate_recurse .posix (modelCreate .posix) _ _ dirs
          (by rw [hcreate]; rfl) (by rw [hcreate]; rfl)]
        rw [hcreate, hdir, hrun]
        simp only [Status.ok, Status.OK, Option.isNone_none, Bool.not_true,
          Bool.false_eq_true, if_false]
        exact congrArg some (Prod.ext hok rfl)
      · exact hprefix _ hmem (fun k hk => hsub2 _ (hpre1 k hk))

/-- C22: over the model filesystem (a set of existing directories holding the
root and the `Dirname` of each member), for every path `/c1/.../cn` with
non-empty separator-free components, `RecursivelyCreate` returns success, keeps
what existed, and afterwards `/c1`, `/c1/c2`, ... and the path itself exist; a
second call returns success and leaves the filesystem unchanged. -/
theorem C22_RecursivelyCreate_model (cs : List (List Char)) (dirs : List Path)
    (hvalid : ∀ x ∈ cs, x ≠ [] ∧ '/' ∉ x)
    (hroot : Path.FromUtf8 "/" ∈ dirs)
    (hclosed : ∀ d ∈ dirs, d.Dirname .posix ∈ dirs) :
    ∃ dirs2, Dir.RecursivelyCreate .posix (modelCreate .posix) (cs.length + 1)
        (absolutePath cs) dirs = some (Status.OK, dirs2) ∧
      (∀ d ∈ dirs, d ∈ dirs2) ∧
      (∀ k, k ≤ cs.length → absolutePath (cs.take k) ∈ dirs2) ∧
      absolutePath cs ∈ dirs2 ∧
      Dir.RecursivelyCreate .posix (modelCreate .posix) (cs.length + 1)
        (absolutePath cs) dirs2 = some (Status.OK, dirs2) := by
  obtain ⟨dirs2, hrun, hsub, hpre⟩ := RecursivelyCreate_model cs hvalid dirs hroot hclosed
  have hmem : absolutePath cs ∈ dirs2 := by
    have := hpre cs.length (Nat.le_refl _)
    rwa [List.take_length] at this
  refine ⟨dirs2, hrun, hsub, hpre, hmem, ?_⟩
  rw [RecursivelyCreate_done .posix (modelCreate .posix) _ _ dirs2
    (Or.inl (by rw [modelCreate_of_mem _ _ hmem]; rfl)), modelCreate_of_mem _ _ hmem]

/-- C22 at the three-level path `/a/b/c` on the filesystem holding only `/`:
the run creates `/a`, `/a/b` and `/a/b/c`, and a second run changes nothing. -/
theorem C22_RecursivelyCreate_model_witness :
    Dir.RecursivelyCreate .posix (modelCreate .posix) 4 (Path.FromUtf8 "/a/b/c")
        [Path.FromUtf8 "/"]
      = some (Status.OK, [Path.FromUtf8 "/", Path.FromUtf8 "/a", Path.FromUtf8 "/a/b",
          Path.FromUtf8 "/a/b/c"]) ∧
    Dir.RecursivelyCreate .posix (modelCreate .posix) 4 (Path.FromUtf8 "/a/b/c")
        [Path.FromUtf8 "/", Path.FromUtf8 "/a", Path.FromUtf8 "/a/b", Path.FromUtf8 "/a/b/c"]
      = some (Status.OK, [Path.FromUtf8 "/", Path.FromUtf8 "/a", Path.FromUtf8 "/a/b",
          Path.FromUtf8 "/a/b/c"]) ∧
    ∃ dirs2, Dir.RecursivelyCreate .posix (modelCreate .posix) 4
        (absolutePath ["a".toList, "b".toList, "c".toList]) [Path.FromUtf8 "/"]
        = some (Status.OK, dirs2) ∧
      absolutePath ["a".toList, "b".toList, "c".toList] ∈ dirs2 :=
  have h := C22_RecursivelyCreate_model ["a".toList, "b".toList, "c".toList]
    [Path.FromUtf8 "/"] (by decide) (by decide) (by decide)
  ⟨by decide, by decide, h.elim fun dirs2 hd => ⟨dirs2, hd.1, hd.2.2.2.1⟩⟩

/-- The model `Create` keeps the set of directories closed under `Dirname`. -/
theorem modelCreate_closed (path : Path) (dirs : List Path)
    (hclosed : ∀ d ∈ dirs, d.Dirname .posix ∈ dirs) :
    ∀ d ∈ (modelCreate .posix path dirs).2,
      d.Dirname .posix ∈ (modelCreate .posix path dirs).2 := by
  unfold modelCreate
  by_cases h1 : path ∈ dirs
  · simpa [h1] using hclosed
  · by_cases h2 : path.Dirname .posix ∈ dirs
    · simp only [h1, h2, if_false, if_true]
      intro d hd
      rcases List.mem_append.mp hd with hd | hd
      · exact List.mem_append_left _ (hclosed d hd)
      · rw [List.mem_singleton.mp hd]
        exact List.mem_append_left _ h2
    · simpa [h1, h2] using hclosed

/-! ## C23: the failure returned by `RecursivelyCreate` -/

theorem traceCreate_eq {σ : Type} (Create : Path → σ → Status × σ) (path : Path)
    (world : σ) (trace : List (Path × Status)) :
    Dir.traceCreate Create path (world, trace)
      = ((Create path world).1,
          ((Create path world).2, trace ++ [(path, (Create path world).1)])) :=
  rfl

/-- The traced run follows the plain run, and the Status returned is the one
logged for a `Create` call on an iterated `Dirname` of the path. -/
theorem RecursivelyCreate_trace {σ : Type} (plat : Platform)
    (Create : Path → σ → Status × σ) (fuel : Nat) :
    ∀ (path : Path) (world : σ) (trace : List (Path × Status)) (r : Status) (w2 : σ),
      Dir.RecursivelyCreate plat Create fuel path world = some (r, w2) →
      ∃ calls, Dir.RecursivelyCreate plat (Dir.traceCreate Create) fuel path (world, trace)
            = some (r, (w2, trace ++ calls)) ∧
        (∃ k, ((Path.Dirname plat)^[k] path, r) ∈ calls) ∧
        (∀ e ∈ calls, ∃ k w, e.1 = (Path.Dirname plat)^[k] path ∧ e.2 = (Create e.1 w).1) := by
  induction fuel with
  | zero => intro path world trace r w2 h; simp [Dir.RecursivelyCreate] at h
  | succ n ih =>
    intro path world trace r w2 h
    by_cases hc : (Create path world).1.ok = true ∨
        (Create path world).1.code ≠ FirestoreErrorCode.NotFound
    · rw [RecursivelyCreate_done plat Create n path world hc] at h
      have hr : (Create path world).1 = r := congrArg Prod.fst (Option.some.inj h)
      have hw : (Create path world).2 = w2 := congrArg Prod.snd (Option.some.inj h)
      refine ⟨[(path, r)], ?_, ⟨0, by simp⟩, ?_⟩
      · rw [RecursivelyCreate_done plat (Dir.traceCreate Create) n path (world, trace)
          (by simpa [traceCreate_eq] using hc), traceCreate_eq, hr, hw]
      · intro e he
        rw [List.mem_singleton.mp he]
        exact ⟨0, world, rfl, hr.symm⟩
    · have hfail : (Create path world).1.ok = false := by
        cases hok : (Create path world).1.ok with
        | true => exact absurd (Or.inl hok) hc
        | false => rfl
      have hnf : (Create path world).1.code = FirestoreErrorCode.NotFound := by
        by_contra hne
        exact hc (Or.inr hne)
      rw [RecursivelyCreate_recurse plat Create n path world hfail hnf] at h
      have htr := RecursivelyCreate_recurse plat (Dir.traceCreate Create) n path
        (world, trace) (by simpa [traceCreate_eq] using hfail)
        (by simpa [traceCreate_eq] using hnf)
      simp only [traceCreate_eq] at htr
      cases hrec : Dir.RecursivelyCreate plat Create n (path.Dirname plat)
          (Create path world).2 with
      | none => rw [hrec] at h; simp at h
      | some r2 =>
        obtain ⟨res, w3⟩ := r2
        rw [hrec] at h
        obtain ⟨calls, hrun, ⟨k, hk⟩, hall⟩ := ih (path.Dirname plat) (Create path world).2
          (trace ++ [(path, (Create path world).1)]) res w3 hrec
        have hall2 : ∀ e ∈ calls, ∃ k w, e.1 = (Path.Dirname plat)^[k] path ∧
            e.2 = (Create e.1 w).1 := by
          intro e he
          obtain ⟨j, w, hj, hw⟩ := hall e he
          exact ⟨j + 1, w, by rw [hj, Function.iterate_succ_apply], hw⟩
        rw [htr, hrun]
        by_cases hres : res.ok = true
        · simp only [hres, Bool.not_true, Bool.false_eq_true, if_false] at h ⊢
          have hr : (Create path w3).1 = r := congrArg Prod.fst (Option.some.inj h)
          have hw : (Create path w3).2 = w2 := congrArg Prod.snd (Option.some.inj h)
          refine ⟨(path, (Create path world).1) :: calls ++ [(path, r)], ?_,
            ⟨0, by simp⟩, ?_⟩
          · rw [traceCreate_eq, hr, hw]; simp
          · intro e he
            simp only [List.cons_append, List.mem_cons, List.mem_append,
              List.mem_singleton, List.not_mem_nil, or_false] at he
            rcases he with he | he | he
            · rw [he]; exact ⟨0, world, rfl, rfl⟩
            · exact hall2 e he
            · rw [he]; exact ⟨0, w3, rfl, hr.symm⟩
        · simp only [hres, Bool.not_false, if_true] at h ⊢
          have hr : res = r := congrArg Prod.fst (Option.some.inj h)
          have hw : w3 = w2 := congrArg Prod.snd (Option.some.inj h)
          subst hr hw
          refine ⟨(path, (Create path world).1) :: calls, by simp,
            ⟨k + 1, ?_⟩, ?_⟩
          · rw [Function.iterate_succ_apply]
            exact List.mem_cons_of_mem _ hk
          · intro e he
            rcases List.mem_cons.mp he with he | he
            · rw [he]; exact ⟨0, world, rfl, rfl⟩
            · exact hall2 e he

/-- C23: for every path and every behaviour of `Create`, if
`RecursivelyCreate(path)` returns a failure, then the run, with its `Create`
calls traced, made a call on `path` or on an iterated `Dirname` of `path` that
returned exactly that failure, and every call of the run was on such a path. -/
theorem C23_RecursivelyCreate_failure_from_Create {σ : Type} (plat : Platform)
    (Create : Path → σ → Status × σ) (fuel : Nat) (path : Path) (world : σ)
    (r : Status) (w2 : σ)
    (hrun : Dir.RecursivelyCreate plat Create fuel path world = some (r, w2))
    (hfail : r.ok = false) :
    ∃ calls, Dir.RecursivelyCreate plat (Dir.traceCreate Create) fuel path (world, [])
          = some (r, (w2, calls)) ∧
      (∃ k, ((Path.Dirname plat)^[k] path, r) ∈ calls ∧ r.ok = false) ∧
      (∀ e ∈ calls, ∃ k w, e.1 = (Path.Dirname plat)^[k] path ∧ e.2 = (Create e.1 w).1) := by
  obtain ⟨calls, h1, ⟨k, hk⟩, h3⟩ :=
    RecursivelyCreate_trace plat Create fuel path world [] r w2 hrun
  exact ⟨calls, by simpa using h1, ⟨k, hk, hfail⟩, h3⟩

/-- C23 where nothing can be created: `Create("/a/b")` fails with `NotFound`,
`Create("/a")` fails with `PermissionDenied`, and that second failure, from the
call on `Dirname("/a/b")`, is what `RecursivelyCreate("/a/b")` returns. -/
theorem C23_RecursivelyCreate_failure_from_Create_witness :
    Dir.RecursivelyCreate .posix (deniedCreate .posix) 2 (Path.FromUtf8 "/a/b")
        [Path.FromUtf8 "/"]
      = some (⟨some ⟨FirestoreErrorCode.PermissionDenied, "Could not create directory"⟩⟩,
          [Path.FromUtf8 "/"]) ∧
    ∃ calls, Dir.RecursivelyCreate .posix (Dir.traceCreate (deniedCreate .posix)) 2
          (Path.FromUtf8 "/a/b") ([Path.FromUtf8 "/"], [])
        = some (⟨some ⟨FirestoreErrorCode.PermissionDenied, "Could not create directory"⟩⟩,
            ([Path.FromUtf8 "/"], calls)) ∧
      ∃ k, ((Path.Dirname .posix)^[k] (Path.FromUtf8 "/a/b"),
        (⟨some ⟨FirestoreErrorCode.PermissionDenied, "Could not create directory"⟩⟩ :
          Status)) ∈ calls :=
  have h := C23_RecursivelyCreate_failure_from_Create .posix (deniedCreate .posix) 2
    (Path.FromUtf8 "/a/b") [Path.FromUtf8 "/"]
    ⟨some ⟨FirestoreErrorCode.PermissionDenied, "Could not create directory"⟩⟩
    [Path.FromUtf8 "/"] (by decide) (by decide)
  ⟨by decide, h.elim fun calls hc => ⟨calls, hc.1, hc.2.1.elim fun k hk => ⟨k, hk.1⟩⟩⟩

/-! ## Failures derived from `errno` -/

theorem CodeForErrnoCases_not_Ok :
    ∀ g ∈ CodeForErrnoCases, g.2 ≠ FirestoreErrorCode.Ok := by
  decide

theorem CodeForErrno_eq_Ok_iff (value : Errno → Option Int) (x : Int) :
    CodeForErrno value x = FirestoreErrorCode.Ok ↔ x = 0 := by
  unfold CodeForErrno
  by_cases hx : x = 0
  · simp [hx]
  · simp only [hx, if_false, iff_false]
    cases hf : CodeForErrnoCases.find? (fun group => switchCase value x group.1) with
    | none => simp
    | some g => exact CodeForErrnoCases_not_Ok g (List.mem_of_find?_eq_some hf)

/-- With `errno` not 0, the failure built from `errno` is constructed, is not ok
and has the kind `CodeForErrno(errno)`. -/
theorem FromErrnoFormat_of_ne_zero {σ : Type} (sys : Sys σ) (format : String) (path : Path)
    (world : σ) (h : sys.errno world ≠ 0) :
    ∃ s, Status.FromErrnoFormat sys format path world = some s ∧ s.ok = false ∧
      s.code = CodeForErrno sys.value (sys.errno world) := by
  have hk : CodeForErrno sys.value (sys.errno world) ≠ FirestoreErrorCode.Ok :=
    fun e => h ((CodeForErrno_eq_Ok_iff _ _).mp e)
  exact ⟨_, create_eq_some _ _ hk, rfl, rfl⟩

theorem FromErrnoFormat_some {σ : Type} (sys : Sys σ) (format : String) (path : Path)
    (world : σ) (s : Status) (h : Status.FromErrnoFormat sys format path world = some s) :
    s.ok = false ∧ s.code = CodeForErrno sys.value (sys.errno world) ∧
      sys.errno world ≠ 0 := by
  obtain ⟨hk, rfl⟩ := (create_some_iff _ _ s).mp h
  exact ⟨rfl, rfl, fun e => hk ((CodeForErrno_eq_Ok_iff _ _).mpr e)⟩

/-! ## C27: `File::IsDirectory` and `Dir::Exists` -/

/-- C27: when the `stat` probe fails, `IsDirectory` returns false, leaves a null
error slot alone and stores in a supplied slot the failure derived from the
`errno` of the probe, of kind `CodeForErrno(errno)`; when the probe succeeds it
returns whether the entry is a directory and leaves the slot unchanged.
`Dir::Exists` is `IsDirectory` with no slot: true exactly when the probe
succeeds on a directory. The state left is that of the probe. -/
theorem C27_IsDirectory {σ : Type} (sys : Sys σ) (path : Path) (world : σ) :
    ((sys.stat path world).1.1 ≠ 0 →
      File.IsDirectory sys path none world
        = Run.done (false, none) (sys.stat path world).2 ∧
      ∀ slot, sys.errno (sys.stat path world).2 ≠ 0 →
        ∃ failure, File.IsDirectory sys path (some slot) world
            = Run.done (false, some failure) (sys.stat path world).2 ∧
          failure.ok = false ∧
          failure.code = CodeForErrno sys.value (sys.errno (sys.stat path world).2)) ∧
    ((sys.stat path world).1.1 = 0 →
      ∀ error, File.IsDirectory sys path error world
        = Run.done ((sys.stat path world).1.2, error) (sys.stat path world).2) ∧
    (∀ found w, File.IsDirectory sys path none world = Run.done found w →
      Dir.Exists sys path world = Run.done found.1 w) ∧
    Dir.Exists sys path world
      = Run.done (decide ((sys.stat path world).1.1 = 0) && (sys.stat path world).1.2)
          (sys.stat path world).2 ∧
    Dir.Exists modelSys (Path.FromUtf8 "/t") exampleWorld = Run.done true exampleWorld ∧
    Dir.Exists modelSys (Path.FromUtf8 "/t/f") exampleWorld = Run.done false exampleWorld ∧
    File.IsDirectory modelSys (Path.FromUtf8 "/none") (some Status.OK) exampleWorld
      = Run.done (false, Status.FromErrno modelSys 2 "Could not stat file %s/none")
          ⟨exampleWorld.entries, exampleWorld.streams, 2⟩ := by
  refine ⟨?_, ?_, ?_, ?_, by decide, by decide, by decide⟩
  · intro hrc
    have hb : ((sys.stat path world).1.1 != 0) = true := by simpa using hrc
    refine ⟨by simp [File.IsDirectory, hb], ?_⟩
    intro slot herr
    obtain ⟨s, hs, hok, hcode⟩ :=
      FromErrnoFormat_of_ne_zero sys "Could not stat file %s" path _ herr
    exact ⟨s, by simp [File.IsDirectory, hb, hs], hok, hcode⟩
  · intro hrc error
    simp [File.IsDirectory, hrc]
  · intro found w h
    simp [Dir.Exists, h]
  · by_cases hrc : (sys.stat path world).1.1 = 0
    · simp [Dir.Exists, File.IsDirectory, hrc]
    · simp [Dir.Exists, File.IsDirectory, hrc]

/-! ## C29: `TempDir` -/

/-- C29: `TempDir` is the path given by the environment variable `TMPDIR` when
it is set, and `/tmp` when it is not. -/
theorem C29_TempDir {σ : Type} (sys : Sys σ) (world : σ) :
    (∀ tmpdir, sys.getenv "TMPDIR" world = some tmpdir →
      Dir.TempDir sys world = Path.FromUtf8 tmpdir) ∧
    (sys.getenv "TMPDIR" world = none → Dir.TempDir sys world = Path.FromUtf8 "/tmp") ∧
    Dir.TempDir modelSys exampleWorld = Path.FromUtf8 "/tmp" := by
  refine ⟨?_, ?_, by decide⟩
  · intro tmpdir h
    simp [Dir.TempDir, h]
  · intro h
    simp [Dir.TempDir, h]

/-! ## C30: `Dir::Create` -/

/-- C30: `Dir::Create` returns success when `mkdir` succeeded or failed with
`errno` `EEXIST`; otherwise, `errno` being the non-zero code of the failed call,
it returns a failure of kind `CodeForErrno(errno)`; so whenever it returns, it
returns success exactly in the first case, and an "already exists" outcome is a
success, not a failure of kind `AlreadyExists`. The state left is that of
`mkdir`. -/
theorem C30_Dir_Create {σ : Type} (sys : Sys σ) (path : Path) (world : σ) :
    (((sys.mkdir path world).1 = 0 ∨
        some (sys.errno (sys.mkdir path world).2) = sys.value Errno.EEXIST) →
      Dir.Create sys path world = Run.done Status.OK (sys.mkdir path world).2) ∧
    (¬ ((sys.mkdir path world).1 = 0 ∨
        some (sys.errno (sys.mkdir path world).2) = sys.value Errno.EEXIST) →
      sys.errno (sys.mkdir path world).2 ≠ 0 →
      ∃ s, Dir.Create sys path world = Run.done s (sys.mkdir path world).2 ∧
        s.ok = false ∧
        s.code = CodeForErrno sys.value (sys.errno (sys.mkdir path world).2)) ∧
    (∀ s w, Dir.Create sys path world = Run.done s w →
      (s.ok = true ↔ ((sys.mkdir path world).1 = 0 ∨
        some (sys.errno (sys.mkdir path world).2) = sys.value Errno.EEXIST))) ∧
    (∀ s w, Dir.Create sys path world = Run.done s w →
      some (sys.errno (sys.mkdir path world).2) = sys.value Errno.EEXIST →
      s = Status.OK ∧ s.code ≠ FirestoreErrorCode.AlreadyExists) ∧
    Dir.Create modelSys (Path.FromUtf8 "/t") exampleWorld
      = Run.done Status.OK ⟨exampleWorld.entries, exampleWorld.streams, 17⟩ ∧
    CodeForErrno linuxErrno 17 = FirestoreErrorCode.AlreadyExists ∧
    Dir.Create modelSys (Path.FromUtf8 "/x/y") exampleWorld
      = Run.done
          ⟨some ⟨FirestoreErrorCode.NotFound,
            modelSys.StringFormat "%s (errno %s: %s)"
              [modelSys.StringFormat "Could not create directory %s" ["/x/y"], "2", "2"]⟩⟩
          ⟨exampleWorld.entries, exampleWorld.streams, 2⟩ := by
  have hyes : ((sys.mkdir path world).1 = 0 ∨
        some (sys.errno (sys.mkdir path world).2) = sys.value Errno.EEXIST) →
      Dir.Create sys path world = Run.done Status.OK (sys.mkdir path world).2 := by
    intro h
    have hc : ((sys.mkdir path world).1 == 0
        || some (sys.errno (sys.mkdir path world).2) == sys.value Errno.EEXIST) = true := by
      simpa using h
    simp only [Dir.Create, hc, if_true]
  have hno : ¬ ((sys.mkdir path world).1 = 0 ∨
        some (sys.errno (sys.mkdir path world).2) = sys.value Errno.EEXIST) →
      Dir.Create sys path world
        = Run.ofOption
            (Status.FromErrnoFormat sys "Could not create directory %s" path
              (sys.mkdir path world).2) (sys.mkdir path world).2 := by
    intro h
    have hc : ¬ ((sys.mkdir path world).1 == 0
        || some (sys.errno (sys.mkdir path world).2) == sys.value Errno.EEXIST) = true := by
      simpa using h
    simp only [Dir.Create, hc, Bool.false_eq_true, if_false]
  refine ⟨hyes, ?_, ?_, ?_, by decide, by decide, by decide⟩
  · intro h herr
    obtain ⟨s, hs, hok, hcode⟩ :=
      FromErrnoFormat_of_ne_zero sys "Could not create directory %s" path _ herr
    exact ⟨s, by rw [hno h, hs]; rfl, hok, hcode⟩
  · intro s w hrun
    by_cases h : (sys.mkdir path world).1 = 0 ∨
        some (sys.errno (sys.mkdir path world).2) = sys.value Errno.EEXIST
    · rw [hyes h] at hrun
      injection hrun with hs _
      subst hs
      simp [h, Status.ok, Status.OK]
    · rw [hno h] at hrun
      cases hf : Status.FromErrnoFormat sys "Could not create directory %s" path
          (sys.mkdir path world).2 with
      | none => rw [hf] at hrun; simp [Run.ofOption] at hrun
      | some t =>
        rw [hf] at hrun
        simp only [Run.ofOption] at hrun
        injection hrun with hs _
        subst hs
        simp [h, (FromErrnoFormat_some sys _ _ _ t hf).1]
  · intro s w hrun hex
    rw [hyes (Or.inr hex)] at hrun
    injection hrun with hs _
    subst hs
    exact ⟨rfl, by decide⟩

/-! ## C24: `RecursivelyDelete` dispatches on the probe -/

theorem IsDirectory_world {σ : Type} (sys : Sys σ) (path : Path) (error : Option Status)
    (world : σ) (found : Bool × Option Status) (w1 : σ)
    (h : File.IsDirectory sys path error world = Run.done found w1) :
    w1 = (sys.stat path world).2 := by
  unfold File.IsDirectory at h
  dsimp only at h
  split at h
  · split at h
    · split at h
      · injection h with _ hw; exact hw.symm
      · cases h
    · injection h with _ hw; exact hw.symm
  · injection h with _ hw; exact hw.symm

/-- C24: with `result` what the is-directory probe left in the error slot and
`w1` the state it left (the state of its `stat` call): if the probe failed with
kind `NotFound`, `RecursivelyDelete` returns success in state `w1`; if it failed
with another kind, it returns that failure in state `w1`; if it succeeded on
something that is not a directory, the run is that of `File::Delete(path)`; and
on a directory, that of the recursive directory deletion. -/
theorem C24_RecursivelyDelete_dispatch {σ : Type} (sys : Sys σ) (fuel : Nat) (path : Path)
    (world : σ) (is_dir : Bool) (result : Status) (w1 : σ)
    (hprobe : File.IsDirectory sys path (some Status.OK) world
      = Run.done (is_dir, some result) w1) :
    w1 = (sys.stat path world).2 ∧
    (result.ok = false → result.code = FirestoreErrorCode.NotFound →
      Dir.RecursivelyDelete sys (fuel + 1) path world = Run.done Status.OK w1) ∧
    (result.ok = false → result.code ≠ FirestoreErrorCode.NotFound →
      Dir.RecursivelyDelete sys (fuel + 1) path world = Run.done result w1) ∧
    (result.ok = true → is_dir = false →
      Dir.RecursivelyDelete sys (fuel + 1) path world = File.Delete sys path w1) ∧
    (result.ok = true → is_dir = true →
      Dir.RecursivelyDelete sys (fuel + 1) path world
        = RecursivelyDeleteDir sys fuel path w1) := by
  refine ⟨IsDirectory_world sys path _ world _ w1 hprobe, ?_, ?_, ?_, ?_⟩
  · intro hok hcode
    rw [Dir.RecursivelyDelete]
    simp [hprobe, hok, hcode]
  · intro hok hcode
    rw [Dir.RecursivelyDelete]
    simp [hprobe, hok, hcode]
  · intro hok hdir
    rw [Dir.RecursivelyDelete]
    simp [hprobe, hok, hdir]
  · intro hok hdir
    rw [Dir.RecursivelyDelete]
    simp [hprobe, hok, hdir]

/-- C24 on the model filesystem: the probe of the missing `/none` fails with
`NotFound` and `RecursivelyDelete` returns success with no entry changed; the
probe of the plain file `/t/f` succeeds and the run is that of `File::Delete`. -/
theorem C24_RecursivelyDelete_dispatch_witness :
    Dir.RecursivelyDelete modelSys 1 (Path.FromUtf8 "/none") exampleWorld
      = Run.done Status.OK ⟨exampleWorld.entries, exampleWorld.streams, 2⟩ ∧
    Dir.RecursivelyDelete modelSys 1 (Path.FromUtf8 "/t/f") exampleWorld
      = File.Delete modelSys (Path.FromUtf8 "/t/f") exampleWorld :=
  ⟨(C24_RecursivelyDelete_dispatch modelSys 0 (Path.FromUtf8 "/none") exampleWorld false
      ⟨some ⟨FirestoreErrorCode.NotFound,
        modelSys.StringFormat "%s (errno %s: %s)"
          [modelSys.StringFormat "Could not stat file %s" ["/none"], "2", "2"]⟩⟩
      ⟨exampleWorld.entries, exampleWorld.streams, 2⟩ (by decide)).2.1 (by decide)
      (by decide),
   (C24_RecursivelyDelete_dispatch modelSys 0 (Path.FromUtf8 "/t/f") exampleWorld false
      Status.OK exampleWorld (by decide)).2.2.2.1 (by decide) rfl⟩

/-! ## C25: the first error wins in `RecursivelyDeleteDir` -/

theorem loop_of_LoopSteps {σ : Type} (sys : Sys σ) (parent : Path) (dir : DIR)
    (fuel : Nat) (result : Status) (world : σ) (fuel3 : Nat) (result3 : Status) (w3 : σ)
    (h : LoopSteps sys parent dir fuel result world fuel3 result3 w3) :
    RecursivelyDeleteDir.loop sys parent dir fuel result world
      = RecursivelyDeleteDir.loop sys parent dir fuel3 result3 w3 := by
  induction h with
  | here => rfl
  | skip fuel result world name w2 fuel3 result3 w3 hread hname _ ih =>
    rw [RecursivelyDeleteDir.loop]
    have hn : (name == ['.'] || name == ['.', '.']) = true := by
      rcases hname with h | h <;> simp [h]
    simp only [hread, hn, if_true]
    exact ih
  | deleted fuel result world name w2 r w4 fuel3 result3 w3 hread hn1 hn2 hchild hok _ ih =>
    rw [RecursivelyDeleteDir.loop]
    have hn : (name == ['.'] || name == ['.', '.']) = false := by
      simp [hn1, hn2]
    simp only [hread, hn, hchild, hok]
    simpa using ih

/-- C25: after any entries that were skipped (`.` and `..`) or deleted with
success, when `RecursivelyDelete` of the next entry read fails, the loop ends
there with exactly that failure, and `RecursivelyDeleteDir` returns it in the
state left by that failing run followed only by `closedir`: no later entry is
read, the directory is not removed, and what was deleted before stays
deleted. -/
theorem C25_first_error_wins {σ : Type} (sys : Sys σ) (parent : Path) (dir : DIR)
    (w0 world : σ) (fuel fuel2 : Nat) (result2 : Status) (w2 : σ) (name : List Char)
    (w3 : σ) (r : Status) (w4 : σ)
    (hopen : sys.opendir parent w0 = (some dir, world))
    (hsteps : LoopSteps sys parent dir fuel Status.OK world (fuel2 + 1) result2 w2)
    (hread : sys.readdir dir (sys.set_errno 0 w2) = (some name, w3))
    (hname1 : name ≠ ['.']) (hname2 : name ≠ ['.', '.'])
    (hchild : Dir.RecursivelyDelete sys fuel2
        (parent.Append Platform.posix [PathArg.mk (PathView.mk name) name]) w3
      = Run.done r w4)
    (hfail : r.ok = false) :
    RecursivelyDeleteDir.loop sys parent dir fuel Status.OK world = Run.done r w4 ∧
    RecursivelyDeleteDir sys (fuel + 1) parent w0
      = Run.done r (sys.closedir dir w4).2 := by
  have hloop : RecursivelyDeleteDir.loop sys parent dir fuel Status.OK world
      = Run.done r w4 := by
    rw [loop_of_LoopSteps sys parent dir _ _ _ _ _ _ hsteps, RecursivelyDeleteDir.loop]
    have hn : (name == ['.'] || name == ['.', '.']) = false := by
      simp [hname1, hname2]
    simp only [hread, hn, hchild, hfail]
    simp
  refine ⟨hloop, ?_⟩
  rw [RecursivelyDeleteDir]
  simp only [hopen, hloop, hfail]
  simp

/-- C25 on `/t` holding the files `a`, `b`, `c`, where `b` cannot be unlinked:
`a` is deleted, the deletion of `b` fails with `PermissionDenied`, and that
failure is the result; `c` and `/t` are still there. -/
theorem C25_first_error_wins_witness :
    RecursivelyDeleteDir (lockedSys [["t".toList, "b".toList]]) 6 (Path.FromUtf8 "/t")
        threeFilesWorld
      = Run.done
          ⟨some ⟨FirestoreErrorCode.PermissionDenied,
            (lockedSys []).StringFormat "%s (errno %s: %s)"
              [(lockedSys []).StringFormat "Could not delete file %s" ["/t/b"], "13", "13"]⟩⟩
          ⟨[([], true), (["t".toList], true), (["t".toList, "b".toList], false),
            (["t".toList, "c".toList], false)], [[]], 13⟩ :=
  (C25_first_error_wins (lockedSys [["t".toList, "b".toList]]) (Path.FromUtf8 "/t") 0
    threeFilesWorld
    ⟨threeFilesWorld.entries, [[".".toList, "..".toList, "a".toList, "b".toList, "c".toList]], 0⟩
    5 1 Status.OK
    ⟨[([], true), (["t".toList], true), (["t".toList, "b".toList], false),
      (["t".toList, "c".toList], false)], [["b".toList, "c".toList]], 0⟩
    "b".toList
    ⟨[([], true), (["t".toList], true), (["t".toList, "b".toList], false),
      (["t".toList, "c".toList], false)], [["c".toList]], 0⟩
    ⟨some ⟨FirestoreErrorCode.PermissionDenied,
      (lockedSys []).StringFormat "%s (errno %s: %s)"
        [(lockedSys []).StringFormat "Could not delete file %s" ["/t/b"], "13", "13"]⟩⟩
    ⟨[([], true), (["t".toList], true), (["t".toList, "b".toList], false),
      (["t".toList, "c".toList], false)], [["c".toList]], 13⟩
    (by decide)
    (LoopSteps.skip 4 Status.OK _ ".".toList
      ⟨threeFilesWorld.entries, [["..".toList, "a".toList, "b".toList, "c".toList]], 0⟩
      _ _ _ (by decide) (Or.inl rfl)
      (LoopSteps.skip 3 Status.OK _ "..".toList
        ⟨threeFilesWorld.entries, [["a".toList, "b".toList, "c".toList]], 0⟩
        _ _ _ (by decide) (Or.inr rfl)
        (LoopSteps.deleted 2 Status.OK _ "a".toList
          ⟨threeFilesWorld.entries, [["b".toList, "c".toList]], 0⟩ Status.OK
          ⟨[([], true), (["t".toList], true), (["t".toList, "b".toList], false),
            (["t".toList, "c".toList], false)], [["b".toList, "c".toList]], 0⟩
          _ _ _ (by decide) (by decide) (by decide) (by decide) (by decide)
          (LoopSteps.here _ _ _))))
    (by decide) (by decide) (by decide) (by decide) (by decide)).2.trans (by decide)

/-! ## C28: the testing opener clears before it opens -/

theorem Annotate_not_ok (s t : Status) (msg : String) (hs : s.ok = false)
    (h : s.Annotate msg = some t) : t.ok = false := by
  unfold Status.Annotate at h
  split at h
  · injection h with h
    rw [← h]
    exact hs
  · obtain ⟨hk, rfl⟩ := (create_some_iff _ _ t).mp h
    rfl

/-- C28: on a target that `Dir::Exists` reports as a directory, the run of
`TestingLevelDbOpener::Open` is the run of `RecursivelyDelete` on the target
followed, only when that returned success, by the engine open applied to the
state the deletion left, on the same directory with `create_if_missing` and
`error_if_exists` both true; when the deletion did not return success the run
aborts in the state the deletion left, the engine open not having been
applied. -/
theorem C28_Open_clears_first {σ α : Type} (sys : Sys σ)
    (LevelDbOpener_Open : Path → Options → σ → StatusOr α × σ) (fuel : Nat)
    (directory : Path) (world w1 : σ)
    (hexists : Dir.Exists sys directory world = Run.done true w1) :
    TestingLevelDbOpener.Open sys LevelDbOpener_Open fuel directory world
      = match Dir.RecursivelyDelete sys fuel directory w1 with
        | Run.done status w2 =>
          if status.ok then
            if (LevelDbOpener_Open directory ⟨true, true⟩ w2).1.status.ok then
              Run.done (LevelDbOpener_Open directory ⟨true, true⟩ w2).1
                (LevelDbOpener_Open directory ⟨true, true⟩ w2).2
            else Run.aborted (LevelDbOpener_Open directory ⟨true, true⟩ w2).2
          else Run.aborted w2
        | Run.aborted w2 => Run.aborted w2
        | Run.unfinished => Run.unfinished := by
  have h0 : Status.OK.ok = true := rfl
  unfold TestingLevelDbOpener.Open ClearDataInternal
  simp only [hexists, if_true]
  cases hrd : Dir.RecursivelyDelete sys fuel directory w1 with
  | done status w2 =>
    cases hok : status.ok with
    | true =>
      cases hE : (LevelDbOpener_Open directory ⟨true, true⟩ w2).1.status.ok <;>
        simp [hok, hE, h0, STATUS_CHECK_OK, Options.default]
    | false =>
      cases ha : status.Annotate
          (sys.StringFormat "failed to clean up leveldb path %s" [directory.ToString]) with
      | none => simp [hok, ha, Run.ofOption]
      | some t =>
        have ht := Annotate_not_ok status t _ hok ha
        simp [hok, ha, Run.ofOption, STATUS_CHECK_OK, ht]
  | aborted w2 => rfl
  | unfinished => rfl

/-- C28 on the model filesystem: opening on the existing, non-empty `/t` ends
with success and a fresh empty `/t`, although the model engine, called with
`error_if_exists`, fails on a directory that is there. -/
theorem C28_Open_clears_first_witness :
    (modelEngineOpen (Path.FromUtf8 "/t") ⟨true, true⟩ exampleWorld).1.status.ok = false ∧
    TestingLevelDbOpener.Open modelSys modelEngineOpen 20 (Path.FromUtf8 "/t") exampleWorld
      = Run.done ⟨Status.OK, some ()⟩
          ⟨[([], true), (["keep".toList], true), (["t".toList], true)], [[], []], 0⟩ :=
  ⟨by decide,
   (C28_Open_clears_first modelSys modelEngineOpen 20 (Path.FromUtf8 "/t") exampleWorld
      exampleWorld (by decide)).trans (by decide)⟩

/-! ## C26: `RecursivelyDelete` on the model filesystem -/

/-- C31: `CodeForErrno(e)` is `Ok` exactly when `e` is 0; so for every `e`
other than 0, `FromErrno(e, msg)` passes the assertion of the constructor and
is a failure of kind `CodeForErrno(e)`, and it hits the assertion (the result
`none`) exactly when `e` is 0; the same holds of `FromErrno(msg)` with the
current `errno`. -/
theorem C31_FromErrno_assertion {σ : Type} (sys : Sys σ) (e : Int) (msg : String) :
    (CodeForErrno sys.value e = FirestoreErrorCode.Ok ↔ e = 0) ∧
    (e ≠ 0 → ∃ s, Status.FromErrno sys e msg = some s ∧ s.ok = false ∧
      s.code = CodeForErrno sys.value e) ∧
    (Status.FromErrno sys e msg = none ↔ e = 0) ∧
    (∀ world, Status.FromErrnoMsg sys msg world = none ↔ sys.errno world = 0) ∧
    Status.FromErrno modelSys 0 "m" = none ∧
    Status.FromErrno modelSys 13 "m"
      = some ⟨some ⟨FirestoreErrorCode.PermissionDenied,
          modelSys.StringFormat "%s (errno %s: %s)" ["m", "13", "13"]⟩⟩ := by
  have hnone : ∀ x : Int, Status.FromErrno sys x msg = none ↔ x = 0 := by
    intro x
    constructor
    · intro h
      by_contra hx
      have hk : CodeForErrno sys.value x ≠ FirestoreErrorCode.Ok :=
        fun c => hx ((CodeForErrno_eq_Ok_iff _ _).mp c)
      have hs : Status.FromErrno sys x msg = some _ := create_eq_some _ _ hk
      rw [hs] at h
      cases h
    · intro hx
      subst hx
      simp [Status.FromErrno, CodeForErrno, Status.create, HARD_ASSERT]
  refine ⟨CodeForErrno_eq_Ok_iff _ _, ?_, hnone e, fun world => hnone _, by decide,
    by decide⟩
  intro he
  have hk : CodeForErrno sys.value e ≠ FirestoreErrorCode.Ok :=
    fun c => he ((CodeForErrno_eq_Ok_iff _ _).mp c)
  exact ⟨_, create_eq_some _ _ hk, rfl, rfl⟩

/-! ## C32: `Dir::Delete` -/

/-- C32 fails on the code: `Dir::Delete` tests `!::rmdir(...)`, so it looks at
`errno` only when `rmdir` succeeded. Whenever `rmdir` fails, with any `errno`,
it returns success; on the example tree `rmdir("/t")` fails with `ENOTEMPTY`
(39, neither `ENOENT` nor `ENOTDIR`), `/t` is still there and the result is
success; and when `rmdir("/keep")` succeeds with `errno` still 0, the failure
constructor is reached and aborts. -/
theorem C32_Dir_Delete_inverted_test {σ : Type} (sys : Sys σ) (path : Path) (world : σ) :
    ((sys.rmdir path world).1 ≠ 0 →
      Dir.Delete sys path world = Run.done Status.OK (sys.rmdir path world).2) ∧
    (modelSys.rmdir (Path.FromUtf8 "/t") exampleWorld).1 = -1 ∧
    modelSys.errno (modelSys.rmdir (Path.FromUtf8 "/t") exampleWorld).2 = 39 ∧
    modelSys.value Errno.ENOENT = some 2 ∧ modelSys.value Errno.ENOTDIR = some 20 ∧
    Dir.Delete modelSys (Path.FromUtf8 "/t") exampleWorld
      = Run.done Status.OK ⟨exampleWorld.entries, exampleWorld.streams, 39⟩ ∧
    (modelSys.rmdir (Path.FromUtf8 "/keep") exampleWorld).1 = 0 ∧
    Dir.Delete modelSys (Path.FromUtf8 "/keep") exampleWorld
      = Run.aborted (modelSys.rmdir (Path.FromUtf8 "/keep") exampleWorld).2 := by
  refine ⟨?_, by decide, by decide, by decide, by decide, by decide, by decide, by decide⟩
  intro h
  have hb : ((sys.rmdir path world).1 == 0) = false := by simpa using h
  simp [Dir.Delete, hb]

/-! ## C37: annotations compose -/

theorem String_append_ne_empty (x y : String) (h : y ≠ "") : x ++ y ≠ "" := by
  intro e
  apply h
  have hd : (x ++ y).data = [] := by rw [e]
  rw [String.data_append] at hd
  exact String.ext (List.append_eq_nil.mp hd).2

/-- C37: for every Status `s` and all non-empty strings `a` and `b`, annotating
with `a` and then with `b` is annotating with `a`, then `"; "`, then `b`: the
two are the same Status (and both abort when one does). -/
theorem C37_Annotate_compose (s : Status) (a b : String) (ha : a ≠ "") (hb : b ≠ "") :
    (s.Annotate a).bind (fun t => t.Annotate b) = s.Annotate (a ++ "; " ++ b) := by
  have hab : a ++ "; " ++ b ≠ "" := String_append_ne_empty _ _ hb
  have hae : a.isEmpty = false := by
    rw [Bool.eq_false_iff, ne_eq, String.isEmpty_iff]; exact ha
  have habe : (a ++ "; " ++ b).isEmpty = false := by
    rw [Bool.eq_false_iff, ne_eq, String.isEmpty_iff]; exact hab
  obtain ⟨st⟩ := s
  cases st with
  | none => simp [Status.Annotate, Status.ok]
  | some state =>
    obtain ⟨k, m⟩ := state
    by_cases hk : k = FirestoreErrorCode.Ok
    · subst hk
      simp [Status.Annotate, Status.ok, Status.code, hae, habe, Status.create, HARD_ASSERT]
    · rw [Annotate_failure k m a hk ha, Annotate_failure k m _ hk hab, Option.some_bind,
        Annotate_failure k _ b hk hb]
      by_cases hm : m = ""
      · simp [hm, ha]
      · have hma : m ++ ("; " ++ a) ≠ "" := by
          rw [← String.append_assoc]
          exact String_append_ne_empty _ _ ha
        simp [hm, hma, String.append_assoc]

/-- C37 at the failure `(NotFound, "m")` with `"x"` and `"y"`: both ways give
the message `"m; x; y"`. -/
theorem C37_Annotate_compose_witness :
    (Status.mk (some ⟨FirestoreErrorCode.NotFound, "m"⟩)).Annotate ("x" ++ "; " ++ "y")
      = some ⟨some ⟨FirestoreErrorCode.NotFound, "m; x; y"⟩⟩ ∧
    ((Status.mk (some ⟨FirestoreErrorCode.NotFound, "m"⟩)).Annotate "x").bind
        (fun t => t.Annotate "y")
      = some ⟨some ⟨FirestoreErrorCode.NotFound, "m; x; y"⟩⟩ :=
  ⟨by decide,
   (C37_Annotate_compose ⟨some ⟨FirestoreErrorCode.NotFound, "m"⟩⟩ "x" "y" (by decide)
      (by decide)).trans (by decide)⟩

/-! ## C33: a path is its `Dirname`, separators, and its `Basename` -/

/-- C33: for every path `p` (POSIX variant) there is a string `s` of separators
with `p = Dirname(p) ++ s ++ Basename(p)`; so `Dirname(p)` is a prefix of `p`,
`Basename(p)` is a suffix of `p`, and the two do not overlap. -/
theorem C33_Dirname_Basename_decomposition (p : Path) :
    ∃ s : List Char, (∀ c ∈ s, IsSeparator Platform.posix c = true) ∧
      p.pathname_
        = (p.Dirname Platform.posix).pathname_ ++ s
            ++ (p.Basename Platform.posix).pathname_ ∧
      (p.Dirname Platform.posix).pathname_ <+: p.pathname_ ∧
      (p.Basename Platform.posix).pathname_ <:+ p.pathname_ ∧
      (p.Dirname Platform.posix).pathname_.length
          + (p.Basename Platform.posix).pathname_.length ≤ p.pathname_.length := by
  obtain ⟨l⟩ := p
  show ∃ s : List Char, (∀ c ∈ s, IsSeparator Platform.posix c = true) ∧
      l = (PathView.Dirname Platform.posix ⟨l⟩).pathname_ ++ s
            ++ (PathView.Basename Platform.posix ⟨l⟩).pathname_ ∧
      (PathView.Dirname Platform.posix ⟨l⟩).pathname_ <+: l ∧
      (PathView.Basename Platform.posix ⟨l⟩).pathname_ <:+ l ∧
      (PathView.Dirname Platform.posix ⟨l⟩).pathname_.length
          + (PathView.Basename Platform.posix ⟨l⟩).pathname_.length ≤ l.length
  have key : ∃ s : List Char, (∀ c ∈ s, IsSeparator Platform.posix c = true) ∧
      l = (PathView.Dirname Platform.posix ⟨l⟩).pathname_ ++ s
            ++ (PathView.Basename Platform.posix ⟨l⟩).pathname_ := by
    rcases exists_last_split (IsSeparator Platform.posix) l with
      hfree | ⟨pre, c, b, rfl, hc, hb⟩
    · rw [Dirname_of_free _ l hfree, Basename_of_free _ l hfree]
      exact ⟨[], by simp, by simp⟩
    · rcases seps_or_split Platform.posix pre with hs | ⟨d, x, run, rfl, hx, hrun⟩
      · rw [Dirname_of_seps _ pre b c hs hc hb, Basename_split _ pre b c hc hb]
        cases pre with
        | nil => exact ⟨[], by simp, by simp⟩
        | cons y rest =>
          refine ⟨rest ++ [c], ?_, by simp⟩
          intro z hz
          rcases List.mem_append.mp hz with h | h
          · exact hs z (List.mem_cons_of_mem _ h)
          · rw [List.mem_singleton.mp h]
            exact hc
      · have e : (d ++ x :: run) ++ c :: b = d ++ x :: run ++ c :: b := by simp
        rw [Basename_split _ (d ++ x :: run) b c hc hb, e,
          Dirname_split _ d run b x c hx hrun hc hb]
        refine ⟨run ++ [c], ?_, by simp⟩
        intro z hz
        rcases List.mem_append.mp hz with h | h
        · exact hrun z h
        · rw [List.mem_singleton.mp h]
          exact hc
  obtain ⟨s, hs, heq⟩ := key
  refine ⟨s, hs, heq, ⟨s ++ (PathView.Basename Platform.posix ⟨l⟩).pathname_, ?_⟩,
    ⟨(PathView.Dirname Platform.posix ⟨l⟩).pathname_ ++ s, ?_⟩, ?_⟩
  · rw [← List.append_assoc]
    exact heq.symm
  · exact heq.symm
  · have hl := congrArg List.length heq
    simp only [List.length_append] at hl
    omega

/-! ## C34: the fixed points of `Dirname` -/

/-- C34: `Dirname(p) = p` exactly when `p` is empty or is one separator; for
every other `p`, `Dirname(p)` is a prefix of `p` and strictly shorter. -/
theorem C34_Dirname_fixed_points (plat : Platform) (p : Path) :
    (p.Dirname plat = p ↔
      p.pathname_ = [] ∨ ∃ c, p.pathname_ = [c] ∧ IsSeparator plat c = true) ∧
    (¬ (p.pathname_ = [] ∨ ∃ c, p.pathname_ = [c] ∧ IsSeparator plat c = true) →
      (p.Dirname plat).pathname_ <+: p.pathname_ ∧
      (p.Dirname plat).pathname_.length < p.pathname_.length) ∧
    Path.Dirname Platform.posix (Path.FromUtf8 "") = Path.FromUtf8 "" ∧
    Path.Dirname Platform.posix (Path.FromUtf8 "/") = Path.FromUtf8 "/" ∧
    Path.Dirname Platform.posix (Path.FromUtf8 "//") = Path.FromUtf8 "/" ∧
    Path.Dirname Platform.posix (Path.FromUtf8 "a") = Path.FromUtf8 "" := by
  have hiff : p.Dirname plat = p ↔
      p.pathname_ = [] ∨ ∃ c, p.pathname_ = [c] ∧ IsSeparator plat c = true := by
    obtain ⟨l⟩ := p
    rw [← Dirname_eq_self_iff plat l]
    show Path.ofView (PathView.Dirname plat ⟨l⟩) = ⟨l⟩ ↔ _
    cases hd : PathView.Dirname plat ⟨l⟩ with
    | mk q => simp [Path.ofView]
  refine ⟨hiff, ?_, by decide, by decide, by decide, by decide⟩
  intro hnot
  have hne : p.Dirname plat ≠ p := fun h => hnot (hiff.mp h)
  refine ⟨?_, Dirname_length_lt plat p hne⟩
  obtain ⟨k, hk⟩ := Dirname_eq_take plat p
  rw [hk]
  exact List.take_prefix k _

/-! ## C36: when a join is absolute -/

theorem IsAbsolute_posix_cons (c : Char) (rest : List Char) :
    PathView.IsAbsolute Platform.posix ⟨c :: rest⟩ = IsSeparator Platform.posix c := by
  simp [PathView.IsAbsolute, PathView.StripDriveLetter, PathView.empty, PathView.size_]

theorem IsAbsolute_posix_append (l r : List Char) (h : l ≠ []) :
    PathView.IsAbsolute Platform.posix ⟨l ++ r⟩ = PathView.IsAbsolute Platform.posix ⟨l⟩ := by
  cases l with
  | nil => exact absurd rfl h
  | cons c rest => rw [List.cons_append, IsAbsolute_posix_cons, IsAbsolute_posix_cons]

/-- On the POSIX variant the result of `JoinAppend` is absolute exactly when the
accumulated path or the part is, for a part whose C string starts with a
separator exactly when the view does. -/
theorem JoinAppend_posix_IsAbsolute (acc : List Char) (part : PathArg)
    (hpart : PathView.IsAbsolute Platform.posix ⟨part.c_str⟩
      = part.view.IsAbsolute Platform.posix) :
    PathView.IsAbsolute Platform.posix
        ⟨(Path.JoinAppend Platform.posix ⟨acc⟩ part).pathname_⟩
      = (PathView.IsAbsolute Platform.posix ⟨acc⟩
          || part.view.IsAbsolute Platform.posix) := by
  cases hp : part.view.IsAbsolute Platform.posix with
  | true =>
    rw [JoinAppend_absolute _ _ _ hp, Bool.or_true]
    exact hpart.trans hp
  | false =>
    rw [Bool.or_false]
    rcases seps_or_split Platform.posix acc with hs | ⟨d, x, run, rfl, hx, hrun⟩
    · rw [JoinAppend_of_seps _ acc _ hp hs]
      cases acc with
      | nil =>
        rw [IsAbsolute_nil]
        exact hpart.trans hp
      | cons c rest => exact IsAbsolute_posix_append (c :: rest) _ (by simp)
    · rw [JoinAppend_split _ d run x _ hp hx hrun]
      have e1 : d ++ [x] ++ [kPreferredSeparator Platform.posix] ++ part.c_str
          = (d ++ [x]) ++ ([kPreferredSeparator Platform.posix] ++ part.c_str) := by
        simp
      have e2 : d ++ x :: run = (d ++ [x]) ++ run := by simp
      show PathView.IsAbsolute Platform.posix
          ⟨d ++ [x] ++ [kPreferredSeparator Platform.posix] ++ part.c_str⟩ = _
      rw [e1, e2, IsAbsolute_posix_append (d ++ [x]) _ (by simp),
        IsAbsolute_posix_append (d ++ [x]) run (by simp)]

theorem JoinAppend_no_NUL (la : List Char) (part : PathArg) (ha : NUL ∉ la)
    (hp : NUL ∉ part.c_str) :
    NUL ∉ (Path.JoinAppend Platform.posix ⟨la⟩ part).pathname_ := by
  have hk : kPreferredSeparator Platform.posix ≠ NUL := by decide
  cases habs : part.view.IsAbsolute Platform.posix with
  | true =>
    rw [JoinAppend_absolute _ _ _ habs]
    exact hp
  | false =>
    rcases seps_or_split Platform.posix la with hs | ⟨d, x, run, rfl, hx, hrun⟩
    · rw [JoinAppend_of_seps _ la _ habs hs]
      intro h
      rcases List.mem_append.mp h with h | h
      · exact ha h
      · exact hp h
    · rw [JoinAppend_split _ d run x _ habs hx hrun]
      intro h
      simp only [List.mem_append, List.mem_singleton] at h
      rcases h with ((h | h) | h) | h
      · exact ha (by simp [h])
      · exact ha (by simp [← h])
      · exact hk h.symm
      · exact hp h

/-- On the POSIX variant the two-argument join is associative on paths of which
the second and the third have no NUL. -/
theorem Join_assoc_of_no_NUL (la lb lc : List Char) (hnb : NUL ∉ lb) (hnc : NUL ∉ lc) :
    Path.JoinAppend Platform.posix (Path.JoinAppend Platform.posix ⟨la⟩ (Path.arg ⟨lb⟩))
        (Path.arg ⟨lc⟩)
      = Path.JoinAppend Platform.posix ⟨la⟩
          (Path.arg (Path.JoinAppend Platform.posix ⟨lb⟩ (Path.arg ⟨lc⟩))) := by
  rw [arg_of_not_mem lb hnb, arg_of_not_mem lc hnc]
  have hk : IsSeparator Platform.posix (kPreferredSeparator Platform.posix) = true := by
    decide
  have hnbc : NUL ∉ (Path.JoinAppend Platform.posix ⟨lb⟩ ⟨⟨lc⟩, lc⟩).pathname_ :=
    JoinAppend_no_NUL lb ⟨⟨lc⟩, lc⟩ hnb hnc
  have harg : Path.arg (Path.JoinAppend Platform.posix ⟨lb⟩ ⟨⟨lc⟩, lc⟩)
      = ⟨⟨(Path.JoinAppend Platform.posix ⟨lb⟩ ⟨⟨lc⟩, lc⟩).pathname_⟩,
          (Path.JoinAppend Platform.posix ⟨lb⟩ ⟨⟨lc⟩, lc⟩).pathname_⟩ :=
    arg_of_not_mem _ hnbc
  rw [harg]
  have hbc := JoinAppend_posix_IsAbsolute lb ⟨⟨lc⟩, lc⟩ rfl
  cases hc : PathView.IsAbsolute Platform.posix ⟨lc⟩ with
  | true =>
    have h1 : ∀ q : Path, q.JoinAppend Platform.posix ⟨⟨lc⟩, lc⟩ = ⟨lc⟩ :=
      fun q => JoinAppend_absolute _ q ⟨⟨lc⟩, lc⟩ hc
    rw [h1, h1]
    exact (JoinAppend_absolute _ ⟨la⟩ ⟨⟨lc⟩, lc⟩ hc).symm
  | false =>
    have hbc2 : PathView.IsAbsolute Platform.posix
        ⟨(Path.JoinAppend Platform.posix ⟨lb⟩ ⟨⟨lc⟩, lc⟩).pathname_⟩
        = PathView.IsAbsolute Platform.posix ⟨lb⟩ := by
      rw [hbc]
      show (PathView.IsAbsolute Platform.posix ⟨lb⟩
        || PathView.IsAbsolute Platform.posix ⟨lc⟩) = _
      rw [hc, Bool.or_false]
    cases hb : PathView.IsAbsolute Platform.posix ⟨lb⟩ with
    | true =>
      rw [hb] at hbc2
      rw [JoinAppend_absolute _ ⟨la⟩ ⟨⟨lb⟩, lb⟩ hb, JoinAppend_absolute _ ⟨la⟩ _ hbc2]
    | false =>
      rw [hb] at hbc2
      rcases seps_or_split Platform.posix lb with hsb | ⟨d2, x2, run2, rfl, hx2, hrun2⟩
      · have hnil : lb = [] := by
          cases lb with
          | nil => rfl
          | cons y rest =>
            rw [IsAbsolute_posix_cons, hsb y (List.mem_cons_self _ _)] at hb
            cases hb
        subst hnil
        have hinner : Path.JoinAppend Platform.posix ⟨[]⟩ ⟨⟨lc⟩, lc⟩ = ⟨lc⟩ := by
          rw [JoinAppend_of_seps _ [] ⟨⟨lc⟩, lc⟩ hc (by simp)]
          rfl
        rw [hinner]
        rcases seps_or_split Platform.posix la with hsa | ⟨d, x, run, rfl, hx, hrun⟩
        · rw [JoinAppend_of_seps _ la ⟨⟨[]⟩, []⟩ hb hsa]
          simp
        · rw [JoinAppend_split _ d run x ⟨⟨[]⟩, []⟩ hb hx hrun,
            JoinAppend_split _ d run x ⟨⟨lc⟩, lc⟩ hc hx hrun]
          have e : d ++ [x] ++ [kPreferredSeparator Platform.posix] ++ ([] : List Char)
              = d ++ x :: [kPreferredSeparator Platform.posix] := by simp
          show Path.JoinAppend Platform.posix
              ⟨d ++ [x] ++ [kPreferredSeparator Platform.posix] ++ ([] : List Char)⟩
              ⟨⟨lc⟩, lc⟩ = _
          rw [e, JoinAppend_split _ d [kPreferredSeparator Platform.posix] x ⟨⟨lc⟩, lc⟩ hc hx
            (by
              intro y hy
              rw [List.mem_singleton.mp hy]
              exact hk)]
      · have hinner : Path.JoinAppend Platform.posix ⟨d2 ++ x2 :: run2⟩ ⟨⟨lc⟩, lc⟩
            = ⟨d2 ++ [x2] ++ [kPreferredSeparator Platform.posix] ++ lc⟩ :=
          JoinAppend_split _ d2 run2 x2 ⟨⟨lc⟩, lc⟩ hc hx2 hrun2
        rw [hinner] at hbc2 ⊢
        rcases seps_or_split Platform.posix la with hsa | ⟨d, x, run, rfl, hx, hrun⟩
        · rw [JoinAppend_of_seps _ la ⟨⟨d2 ++ x2 :: run2⟩, d2 ++ x2 :: run2⟩ hb hsa,
            JoinAppend_of_seps _ la _ hbc2 hsa]
          have e : la ++ (d2 ++ x2 :: run2) = (la ++ d2) ++ x2 :: run2 := by simp
          show Path.JoinAppend Platform.posix ⟨la ++ (d2 ++ x2 :: run2)⟩ ⟨⟨lc⟩, lc⟩ = _
          rw [e, JoinAppend_split _ (la ++ d2) run2 x2 ⟨⟨lc⟩, lc⟩ hc hx2 hrun2]
          simp
        · rw [JoinAppend_split _ d run x ⟨⟨d2 ++ x2 :: run2⟩, d2 ++ x2 :: run2⟩ hb hx hrun,
            JoinAppend_split _ d run x _ hbc2 hx hrun]
          have e : d ++ [x] ++ [kPreferredSeparator Platform.posix] ++ (d2 ++ x2 :: run2)
              = (d ++ [x] ++ [kPreferredSeparator Platform.posix] ++ d2) ++ x2 :: run2 := by
            simp
          show Path.JoinAppend Platform.posix
              ⟨d ++ [x] ++ [kPreferredSeparator Platform.posix] ++ (d2 ++ x2 :: run2)⟩
              ⟨⟨lc⟩, lc⟩
            = _
          rw [e, JoinAppend_split _ _ run2 x2 ⟨⟨lc⟩, lc⟩ hc hx2 hrun2]
          simp

/-- C35 fails on the code at a path with a NUL: with `a` the path `a`, `b` the
path made of `x`, NUL, `y`, and `c` the path `z`, `Join(Join(a, b), c)` is
`a/x/z` but `Join(a, Join(b, c))` is `a/x`, because `JoinAppend` appends the C
string at the pointer of the part and so cuts `b`, and `Join(b, c)`, at the NUL.
The two are equal whenever `b` and `c` have no NUL. -/
theorem C35_Join_not_associative_at_NUL :
    Path.Join Platform.posix
        (Path.Join Platform.posix (Path.FromUtf8 "a") [(Path.mk ['x', NUL, 'y']).arg])
        [PathArg.FromUtf8 "z"] = Path.FromUtf8 "a/x/z" ∧
    Path.Join Platform.posix (Path.mk ['x', NUL, 'y']) [PathArg.FromUtf8 "z"]
      = ⟨['x', NUL, 'y', '/', 'z']⟩ ∧
    Path.Join Platform.posix (Path.FromUtf8 "a")
        [(Path.Join Platform.posix (Path.mk ['x', NUL, 'y']) [PathArg.FromUtf8 "z"]).arg]
      = Path.FromUtf8 "a/x" ∧
    Path.Join Platform.posix
        (Path.Join Platform.posix (Path.FromUtf8 "a") [(Path.mk ['x', NUL, 'y']).arg])
        [PathArg.FromUtf8 "z"]
      ≠ Path.Join Platform.posix (Path.FromUtf8 "a")
          [(Path.Join Platform.posix (Path.mk ['x', NUL, 'y'])
            [PathArg.FromUtf8 "z"]).arg] ∧
    (∀ a b c : Path, NUL ∉ b.pathname_ → NUL ∉ c.pathname_ →
      Path.Join Platform.posix (Path.Join Platform.posix a [b.arg]) [c.arg]
        = Path.Join Platform.posix a [(Path.Join Platform.posix b [c.arg]).arg]) ∧
    Path.Join Platform.posix
        (Path.Join Platform.posix (Path.FromUtf8 "a") [PathArg.FromUtf8 "b/"])
        [PathArg.FromUtf8 "c"] = Path.FromUtf8 "a/b/c" ∧
    Path.Join Platform.posix (Path.FromUtf8 "a")
        [(Path.Join Platform.posix (Path.FromUtf8 "b/") [PathArg.FromUtf8 "c"]).arg]
      = Path.FromUtf8 "a/b/c" := by
  refine ⟨by decide, by decide, by decide, by decide, ?_, by decide, by decide⟩
  intro a b c hnb hnc
  obtain ⟨la⟩ := a
  obtain ⟨lb⟩ := b
  obtain ⟨lc⟩ := c
  exact Join_assoc_of_no_NUL la lb lc hnb hnc

end Firestore
